import Mathlib

/-!
Verification of the credential-lifecycle manager (`factory.py`)
of the saltext-vault repository against its specification.

We shallowly embed the Python module over a model `Val` of Python values
(None, bool, int, str, list, dict as insertion-ordered association list).
Fallible Python operations (item access, item assignment, `pop`,
membership tests, attribute access) return `Except Err` values mirroring
the exception Python would raise.  External collaborators (the Vault REST
client, the lease classes, the cache backends) are modelled abstractly,
as oracles passed in as parameters, per the specification's description
of those collaborators.
-/

namespace VaultSpec

/-- Python exceptions relevant to the embedded code. -/
inductive Err where
  | typeError
  | keyError (k : String)
  | attributeError
  | assertionError (msg : String)
  | invalidConfigError (msg : String)
  | configExpired
  | commandExecutionError
  | vaultException (msg : String)

/-- A model of Python values: `None`, booleans, integers, strings,
lists, and insertion-ordered dictionaries (association lists). -/
inductive Val where
  | vnull : Val
  | vbool : Bool → Val
  | vint  : Int → Val
  | vstr  : String → Val
  | vlist : List Val → Val
  | vdict : List (String × Val) → Val

namespace Val

/-- Dictionary lookup (first matching key). -/
def lookupField : List (String × Val) → String → Option Val
  | [], _ => none
  | (k', v) :: rest, k => if k' = k then some v else lookupField rest k

/-- Dictionary assignment: updates the first occurrence in place,
appends at the end when the key is absent (Python dict insertion order). -/
def setField : List (String × Val) → String → Val → List (String × Val)
  | [], k, v => [(k, v)]
  | (k', v') :: rest, k, v =>
      if k' = k then (k', v) :: rest else (k', v') :: setField rest k v

/-- Removes the first occurrence of a key. -/
def removeField : List (String × Val) → String → List (String × Val)
  | [], _ => []
  | (k', v') :: rest, k => if k' = k then rest else (k', v') :: removeField rest k

def hasField (fs : List (String × Val)) (k : String) : Bool :=
  (lookupField fs k).isSome

/-- The keys of a dictionary, in insertion order. -/
def fieldKeys (fs : List (String × Val)) : List String := fs.map (·.1)

/-- Substring test, modelling Python's `in` on strings. -/
def isSubstrOf (needle hay : String) : Bool :=
  (List.range (hay.data.length + 1)).any
    (fun i => List.isPrefixOf needle.data (hay.data.drop i))

mutual
/-- Python `==` on values: `True == 1`, lists pointwise, dicts as
(unordered) key/value maps. -/
def pyEq : Val → Val → Bool
  | .vnull, .vnull => true
  | .vbool a, .vbool b => a == b
  | .vbool a, .vint n => (if a then (1 : Int) else 0) == n
  | .vint n, .vbool b => n == (if b then (1 : Int) else 0)
  | .vint a, .vint b => a == b
  | .vstr a, .vstr b => a == b
  | .vlist a, .vlist b => pyEqList a b
  | .vdict a, .vdict b => a.length == b.length && pyEqSub a b
  | _, _ => false

def pyEqList : List Val → List Val → Bool
  | [], [] => true
  | a :: as, b :: bs => pyEq a b && pyEqList as bs
  | _, _ => false

def pyEqSub : List (String × Val) → List (String × Val) → Bool
  | [], _ => true
  | (k, v) :: rest, b =>
      (match lookupField b k with
       | some w => pyEq v w
       | none => false) && pyEqSub rest b
end

/-- Python truthiness. -/
def truthy : Val → Bool
  | .vnull => false
  | .vbool b => b
  | .vint n => n != 0
  | .vstr s => s ≠ ""
  | .vlist xs => !xs.isEmpty
  | .vdict fs => !fs.isEmpty

/-- Python `k in v` (TypeError on values that do not support membership). -/
def mem (v : Val) (k : String) : Except Err Bool :=
  match v with
  | .vdict fs => .ok (hasField fs k)
  | .vstr s => .ok (isSubstrOf k s)
  | .vlist xs => .ok (xs.any (fun x => pyEq x (.vstr k)))
  | _ => .error .typeError

/-- Python `v[k]` with a string key. -/
def getItem (v : Val) (k : String) : Except Err Val :=
  match v with
  | .vdict fs =>
      match lookupField fs k with
      | some x => .ok x
      | none => .error (.keyError k)
  | _ => .error .typeError

/-- Python `v.get(k, dflt)` (AttributeError on non-dicts). -/
def getD (v : Val) (k : String) (dflt : Val) : Except Err Val :=
  match v with
  | .vdict fs => .ok ((lookupField fs k).getD dflt)
  | _ => .error .attributeError

/-- Python `v.get(k)`: `none` models an absent key (or the `NOT_SET`
sentinel when that is the supplied default). -/
def getOpt (v : Val) (k : String) : Except Err (Option Val) :=
  match v with
  | .vdict fs => .ok (lookupField fs k)
  | _ => .error .attributeError

/-- Python `v[k] = x`. -/
def setItem (v : Val) (k : String) (x : Val) : Except Err Val :=
  match v with
  | .vdict fs => .ok (.vdict (setField fs k x))
  | _ => .error .typeError

/-- Python `v.pop(k)` (KeyError when absent; TypeError on lists, whose
`pop` takes an integer; AttributeError otherwise). -/
def pop (v : Val) (k : String) : Except Err (Val × Val) :=
  match v with
  | .vdict fs =>
      match lookupField fs k with
      | some x => .ok (x, .vdict (removeField fs k))
      | none => .error (.keyError k)
  | .vlist _ => .error .typeError
  | _ => .error .attributeError

/-- Python `v.pop(k, None)`: never raises on dicts. -/
def popD (v : Val) (k : String) : Except Err (Option Val × Val) :=
  match v with
  | .vdict fs => .ok (lookupField fs k, .vdict (removeField fs k))
  | _ => .error .attributeError

/-- The field list has pairwise-distinct keys (every Python dict does,
since assignment overwrites; the association-list model must state it). -/
def keysNodup : List (String × Val) → Bool
  | [] => true
  | (k, _) :: rest => !hasField rest k && keysNodup rest

mutual
/-- A value is representable as a Python object: every dictionary in
it, at any depth, has pairwise-distinct keys. -/
def wf : Val → Bool
  | .vdict fs => fswf fs
  | .vlist xs => lswf xs
  | _ => true
def fswf : List (String × Val) → Bool
  | [] => true
  | (k, v) :: rest => !hasField rest k && (wf v && fswf rest)
def lswf : List Val → Bool
  | [] => true
  | x :: xs => wf x && lswf xs
end

end Val

mutual
/-- `salt.utils.dictupdate.update` with `merge_lists=False`, as invoked
through `merge(…, strategy="smart")` (which resolves to the recursive
strategy for the default renderer): co-located mappings merge
recursively, every other pair of values is replaced by the update's
value; keys new to the destination are appended in update order. -/
def dmerge : Val → Val → Val
  | .vdict d, .vdict u => .vdict (dmergeFields d u)
  | _, u => u

def dmergeFields : List (String × Val) → List (String × Val) → List (String × Val)
  | d, [] => d
  | d, (k, v) :: rest =>
      dmergeFields
        (match Val.lookupField d k with
         | some old => Val.setField d k (dmerge old v)
         | none => d ++ [(k, v)]) rest
end

/-- One `dest[key] = …` step of the merge, merging co-located mappings
and replacing otherwise. -/
def dmergeField (d : List (String × Val)) (k : String) (v : Val) :
    List (String × Val) :=
  match Val.lookupField d k with
  | some old => Val.setField d k (dmerge old v)
  | none => d ++ [(k, v)]

/-- The dictionary (if any) stored under key `j` has pairwise-distinct
keys. -/
def nodupAt (d : List (String × Val)) (j : String) : Prop :=
  ∀ afs, Val.lookupField d j = some (.vdict afs) → Val.keysNodup afs = true

/-- The auth section (if the value is a dict carrying one) has
pairwise-distinct keys. -/
def authNodup (m : Val) : Prop :=
  ∀ afs, m.getItem "auth" = .ok (.vdict afs) → Val.keysNodup afs = true

mutual
/-- `m` absorbs `d`, i.e. `dmerge d m = m`.  Only co-located dicts
constrain this (everything else is replaced by `m`): `m` must start
with `d`'s keys in `d`'s order, with recursively absorbing values, and
have unique keys. -/
def vabsorbs : Val → Val → Bool
  | .vdict dfs, .vdict mfs => fpre dfs mfs && Val.keysNodup mfs
  | _, _ => true
def fpre : List (String × Val) → List (String × Val) → Bool
  | [], _ => true
  | _ :: _, [] => false
  | (dk, dv) :: drest, (mk, mv) :: mrest =>
      (dk == mk) && (vabsorbs dv mv && fpre drest mrest)
end

/-- The guarded `old in merged["auth"]` membership test of the
legacy-key migrations evaluates to `False`. -/
def AuthMemFalse (m : Val) (k : String) : Prop :=
  (do let a ← m.getItem "auth"; a.mem k : Except Err Bool) = .ok false

/-- The guarded `key in merged` root membership test of the legacy-key
migrations evaluates to `False`. -/
def RootMemFalse (m : Val) (k : String) : Prop :=
  m.mem k = .ok false

/-- The value stored under `k` (if any) is not a list. -/
def NoListAt (m : Val) (k : String) : Prop :=
  ∀ l, m.getItem k = .ok (.vlist l) → False

/-- The auth section of the `default_config` tree. -/
def defaultAuthFields : List (String × Val) :=
  [("approle_mount", .vstr "approle"),
   ("approle_name", .vstr "salt-master"),
   ("method", .vstr "token"),
   ("secret_id", .vnull),
   ("token_lifecycle", .vdict [
     ("minimum_ttl", .vint 10),
     ("renew_increment", .vnull)])]

/-- The cache section of the `default_config` tree. -/
def defaultCacheFields : List (String × Val) :=
  [("backend", .vstr "session"),
   ("config", .vint 3600),
   ("kv_metadata", .vstr "connection"),
   ("secret", .vstr "ttl")]

/-- The `issue:token:params` subtree of the `default_config` tree. -/
def defaultParamsFields : List (String × Val) :=
  [("explicit_max_ttl", .vnull),
   ("num_uses", .vint 1)]

/-- The `issue:token` subtree of the `default_config` tree. -/
def defaultTokenFields : List (String × Val) :=
  [("role_name", .vnull),
   ("params", .vdict defaultParamsFields)]

/-- The issue section of the `default_config` tree. -/
def defaultIssueFields : List (String × Val) :=
  [("allow_minion_override_params", .vbool false),
   ("type", .vstr "token"),
   ("approle", .vdict [
     ("mount", .vstr "salt-minions"),
     ("params", .vdict [
       ("bind_secret_id", .vbool true),
       ("secret_id_num_uses", .vint 1),
       ("secret_id_ttl", .vint 60),
       ("token_explicit_max_ttl", .vint 60),
       ("token_num_uses", .vint 10)])]),
   ("token", .vdict defaultTokenFields),
   ("wrap", .vstr "30s")]

/-- The server section of the `default_config` tree. -/
def defaultServerFields : List (String × Val) :=
  [("namespace", .vnull),
   ("verify", .vnull)]

/-- The fields of the `default_config` tree of `parse_config`. -/
def defaultFields : List (String × Val) :=
  [
    ("auth", .vdict defaultAuthFields),
    ("cache", .vdict defaultCacheFields),
    ("issue", .vdict defaultIssueFields),
    ("issue_params", .vdict []),
    ("metadata", .vdict [
      ("entity", .vdict [("minion-id", .vstr "{minion}")]),
      ("secret", .vdict [
        ("saltstack-jid", .vstr "{jid}"),
        ("saltstack-minion", .vstr "{minion}"),
        ("saltstack-user", .vstr "{user}")])]),
    ("policies", .vdict [
      ("assign", .vlist [.vstr "saltstack/minions", .vstr "saltstack/{minion}"]),
      ("cache_time", .vint 60),
      ("refresh_pillar", .vnull)]),
    ("server", .vdict defaultServerFields)]

/-- The `default_config` tree of `parse_config`. -/
def defaultConfig : Val := .vdict defaultFields

/-- Everything `parse_config(validate=False)`'s first pass guarantees
of its output: a dict that absorbs the default tree, with every
migration guard already false. -/
structure Migrated (m : Val) : Prop where
  isDict : ∃ fs, m = .vdict fs
  absorbed : vabsorbs defaultConfig m = true
  ttlG : AuthMemFalse m "ttl"
  usesG : AuthMemFalse m "uses"
  tokenBackendG : AuthMemFalse m "token_backend"
  allowOverrideG : AuthMemFalse m "allow_minion_override"
  namespaceG : RootMemFalse m "namespace"
  urlG : RootMemFalse m "url"
  verifyG : RootMemFalse m "verify"
  roleNameG : RootMemFalse m "role_name"
  policiesG : NoListAt m "policies"

/-- `parse_config` step: if `config.get("policies", {})` is a list,
`config["policies"] = {"assign": config.pop("policies")}` (the pop
moves the key to the end of the insertion order). -/
def policiesFix (config : Val) : Except Err Val := do
  let p ← config.getD "policies" (.vdict [])
  match p with
  | .vlist _ =>
      let (pv, c₁) ← config.pop "policies"
      c₁.setItem "policies" (.vdict [("assign", pv)])
  | _ => pure config

/-- One step of the `ttl`/`uses` legacy migration:
`merged["issue"]["token"]["params"][new] = merged["issue_params"][new]
= merged["auth"].pop(old)` guarded by `old in merged["auth"]`. -/
def migrateTtlUsesStep (merged : Val) (old new : String) : Except Err Val := do
  let auth ← merged.getItem "auth"
  let b ← auth.mem old
  if b then
    let (v, auth') ← auth.pop old
    let merged ← merged.setItem "auth" auth'
    let issue ← merged.getItem "issue"
    let token ← issue.getItem "token"
    let params ← token.getItem "params"
    let params' ← params.setItem new v
    let token' ← token.setItem "params" params'
    let issue' ← issue.setItem "token" token'
    let merged ← merged.setItem "issue" issue'
    let ip ← merged.getItem "issue_params"
    let ip' ← ip.setItem new v
    merged.setItem "issue_params" ip'
  else pure merged

def migrateTtlUses (merged : Val) : Except Err Val := do
  let m ← migrateTtlUsesStep merged "ttl" "explicit_max_ttl"
  migrateTtlUsesStep m "uses" "num_uses"

/-- One step of the root→server key migration:
`merged["server"][key] = merged.pop(key)` guarded by `key in merged`. -/
def migrateServerKeyStep (merged : Val) (key : String) : Except Err Val := do
  let b ← merged.mem key
  if b then
    let (v, m') ← merged.pop key
    let server ← m'.getItem "server"
    let server' ← server.setItem key v
    m'.setItem "server" server'
  else pure merged

def migrateServerKeys (merged : Val) : Except Err Val := do
  let m ← migrateServerKeyStep merged "namespace"
  let m ← migrateServerKeyStep m "url"
  migrateServerKeyStep m "verify"

/-- `merged["issue"]["token"]["role_name"] = merged.pop("role_name")`
guarded by `"role_name" in merged`. -/
def migrateRoleName (merged : Val) : Except Err Val := do
  let b ← merged.mem "role_name"
  if b then
    let (v, m') ← merged.pop "role_name"
    let issue ← m'.getItem "issue"
    let token ← issue.getItem "token"
    let token' ← token.setItem "role_name" v
    let issue' ← issue.setItem "token" token'
    m'.setItem "issue" issue'
  else pure merged

/-- `merged["cache"]["backend"] = merged["auth"].pop("token_backend")`
guarded by `"token_backend" in merged["auth"]`. -/
def migrateTokenBackend (merged : Val) : Except Err Val := do
  let auth ← merged.getItem "auth"
  let b ← auth.mem "token_backend"
  if b then
    let (v, auth') ← auth.pop "token_backend"
    let m' ← merged.setItem "auth" auth'
    let cache ← m'.getItem "cache"
    let cache' ← cache.setItem "backend" v
    m'.setItem "cache" cache'
  else pure merged

/-- `merged["issue"]["allow_minion_override_params"] =
merged["auth"].pop("allow_minion_override")` guarded by membership. -/
def migrateAllowOverride (merged : Val) : Except Err Val := do
  let auth ← merged.getItem "auth"
  let b ← auth.mem "allow_minion_override"
  if b then
    let (v, auth') ← auth.pop "allow_minion_override"
    let m' ← merged.setItem "auth" auth'
    let issue ← m'.getItem "issue"
    let issue' ← issue.setItem "allow_minion_override_params" v
    m'.setItem "issue" issue'
  else pure merged

/-- The `verify` part of the local-override block: a root-level local
`verify` (present with any value, `NOT_SET` semantics), else a local
`server:verify`, replaces the merged `server:verify`. -/
def applyVerifyOverride (merged : Val) (lc : Val) : Except Err Val := do
  let vOpt ← lc.getOpt "verify"
  match vOpt with
  | some v => do
      let server ← merged.getItem "server"
      let server' ← server.setItem "verify" v
      merged.setItem "server" server'
  | none => do
      let lsrv ← lc.getD "server" (.vdict [])
      let v2 ← lsrv.getOpt "verify"
      match v2 with
      | some v => do
          let server ← merged.getItem "server"
          let server' ← server.setItem "verify" v
          merged.setItem "server" server'
      | none => pure merged

/-- The `token_lifecycle` part of the local-override block: a truthy
local `auth:token_lifecycle` replaces the merged one. -/
def applyLifecycleOverride (merged : Val) (lc : Val) : Except Err Val := do
  let lauth ← lc.getD "auth" (.vdict [])
  let tl ← lauth.getD "token_lifecycle" .vnull
  if tl.truthy then do
    let auth ← merged.getItem "auth"
    let auth' ← auth.setItem "token_lifecycle" tl
    merged.setItem "auth" auth'
  else pure merged

/-- The `opts is not None and "vault" in opts` block of `parse_config`:
a locally configured `verify` (root, else `server:verify`) and a truthy
local `auth:token_lifecycle` override the merged values. -/
def applyLocalOverrides : Val → Option Val → Except Err Val
  | merged, none => pure merged
  | merged, some o => do
    let b ← o.mem "vault"
    if b then do
      let lc ← o.getItem "vault"
      let m₇ ← applyVerifyOverride merged lc
      applyLifecycleOverride m₇ lc
    else pure merged

/-- The auth-method checks of the validation block: `approle` requires
`role_id`, `token` requires an embedded `token`, anything else is
rejected. -/
def validateAuthMethod (auth method : Val) : Except Err Unit := do
  if Val.pyEq method (.vstr "approle") then
    let b ← auth.mem "role_id"
    if !b then .error (.assertionError "auth:role_id is required for approle auth")
    else pure ()
  else if Val.pyEq method (.vstr "token") then
    let b ← auth.mem "token"
    if !b then .error (.assertionError "auth:token is required for token auth")
    else pure ()
  else .error (.assertionError "not a valid auth method")

/-- The validation block of `parse_config` (executed when `validate`):
auth-method checks, then the `server:url` presence check.  Assertion
failures are raised as `AssertionError` here and converted to
`InvalidConfigError` by `parse_config`. -/
def validateConfig (merged : Val) : Except Err Val := do
  let auth ← merged.getItem "auth"
  let method ← auth.getItem "method"
  let _ ← validateAuthMethod auth method
  let server ← merged.getItem "server"
  let b ← server.mem "url"
  if !b then .error (.assertionError "server:url is required")
  else pure merged

/-- The merge-and-migrate body of `parse_config` (everything inside the
`try` block up to, but excluding, validation). -/
def mergeAndMigrate (config : Val) (opts : Option Val) : Except Err Val := do
  let c₁ ← policiesFix config
  let merged := dmerge defaultConfig c₁
  let m ← migrateTtlUses merged
  let m ← migrateServerKeys m
  let m ← migrateRoleName m
  let m ← migrateTokenBackend m
  let m ← migrateAllowOverride m
  applyLocalOverrides m opts

/-- `parse_config(config, validate, opts)`: deep-merges onto the default
tree, migrates legacy keys, applies the local `verify`/`token_lifecycle`
overrides, optionally validates; `AssertionError` is converted into
`InvalidConfigError`, every other exception propagates unchanged. -/
def parse_config (config : Val) (validate : Bool) (opts : Option Val) :
    Except Err Val :=
  let inner : Except Err Val := do
    let m ← mergeAndMigrate config opts
    if validate then validateConfig m else pure m
  match inner with
  | .error (.assertionError msg) => .error (.invalidConfigError msg)
  | r => r

/-! ## `check_result` (the response-validation half of `_query_master`) -/

/-- Splitting on the `:` delimiter (Python `key.split(":")`), defined
structurally so that it computes definitionally. -/
def splitColonChars : List Char → List (List Char)
  | [] => [[]]
  | c :: rest =>
      if c = ':' then [] :: splitColonChars rest
      else
        match splitColonChars rest with
        | h :: t => (c :: h) :: t
        | [] => [[c]]

def splitColon (s : String) : List String :=
  (splitColonChars s.data).map (fun cs => ⟨cs⟩)

/-- `salt.utils.data.traverse_dict(data, key, default=None)`: follows the
`:`-separated path through nested dicts; any `KeyError`/`IndexError`/
`TypeError` along the way yields the default (`None`). -/
def traverse_dict_go : Val → List String → Val
  | v, [] => v
  | v, k :: rest =>
      match v with
      | .vdict fs =>
          match Val.lookupField fs k with
          | some x => traverse_dict_go x rest
          | none => .vnull
      | _ => .vnull

def traverse_dict (data : Val) (key : String) : Val :=
  traverse_dict_go data (splitColon key)

/-- Python `int(s)` on a string: accepts an optionally signed decimal
with surrounding whitespace. -/
def parsePyInt (s : String) : Option Int :=
  s.trim.toInt?

/-- Python list indexing with negative-index support. -/
def pyIndex (xs : List Val) (i : Int) : Option Val :=
  if 0 ≤ i then xs.get? i.toNat
  else if i + xs.length < 0 then none
  else xs.get? (i + xs.length).toNat

/-- `salt.utils.data.traverse_dict_and_list` with the `NOT_SET` default:
`none` models the default being returned.  Numeric path components index
lists (IndexError → default); non-numeric components on a list search the
first embedded dict carrying the key; on everything else a plain item
access is tried, with `KeyError`/`TypeError` giving the default. -/
def traverseDAL : Val → List String → Option Val
  | v, [] => some v
  | .vlist xs, k :: rest =>
      match parsePyInt k with
      | some i =>
          match pyIndex xs i with
          | some x => traverseDAL x rest
          | none => none
      | none =>
          match xs.findSome?
              (fun x => match x with
                        | .vdict fs => Val.lookupField fs k
                        | _ => none) with
          | some x => traverseDAL x rest
          | none => none
  | .vdict fs, k :: rest =>
      match Val.lookupField fs k with
      | some x => traverseDAL x rest
      | none => none
  | _, _ :: _ => none

/-- `salt.utils.dictupdate.set_dict_key_value(in_dict, keys, value)`:
walks the `:`-separated path, replacing absent or non-dict intermediate
values with fresh empty dicts, and assigns at the last component. -/
def setDictKeyValue_go (v : Val) : List String → Val → Except Err Val
  | [], _ => .ok v
  | [k], x => v.setItem k x
  | k :: rest, x =>
      match v with
      | .vdict fs =>
          let nxt := match Val.lookupField fs k with
                     | some (.vdict nfs) => Val.vdict nfs
                     | _ => Val.vdict []
          do
            let nxt' ← setDictKeyValue_go nxt rest x
            .ok (.vdict (Val.setField fs k nxt'))
      | _ => .error .typeError

def setDictKeyValue (d : Val) (key : String) (v : Val) : Except Err Val :=
  setDictKeyValue_go d (splitColon key) v

/-- One unwrap performed by `check_result`: which client (identified by
its server configuration — the collaborator `VaultClient` is modelled by
the configuration it was constructed from), at which response key, with
which `wrap_info` payload and expected creation path. -/
structure UnwrapEvent where
  clientServer : Val
  key : Val
  wrapInfo : Val
  path : Option String

/-- Python `x or y`. -/
def pyOr (a b : Val) : Val := if a.truthy then a else b

def Val.isNull : Val → Bool
  | .vnull => true
  | _ => false

/-- One iteration of the unwrap loop of `check_result`
(`for key in [""] + result.get("wrap_info_nested", [])`): resolves the
wrapped payload at `e` (the whole response when `e` is falsy), skips it
when it is falsy or carries no `wrap_info`, otherwise unwraps it through
the oracle and writes the `auth`/`data` content back at the same place.
The first component of the result is the `wrap_info` payload when an
unwrap was performed, `none` for a skipped key. -/
def unwrapIter (oracle : Val → Val → Option String → Val) (ucServer : Val)
    (path : Option String) (result : Val) (e : Val) :
    Except Err (Option Val × Val) := do
  let keyStr? : Option String ←
    if e.truthy then
      match e with
      | .vstr s => pure (some s)
      | _ => .error .attributeError
    else pure none
  let wrapped := match keyStr? with
    | some s => traverse_dict result s
    | none => result
  if !wrapped.truthy then pure (none, result)
  else do
    let b ← wrapped.mem "wrap_info"
    if !b then pure (none, result)
    else do
      let wi ← wrapped.getItem "wrap_info"
      let wiDict ← (match wi with
        | .vdict _ => Except.ok wi
        | _ => Except.error Err.typeError)
      let unwrapped := oracle ucServer wiDict path
      match keyStr? with
      | some s => do
          let a ← unwrapped.getD "auth" .vnull
          let dt ← unwrapped.getD "data" .vnull
          let r' ← setDictKeyValue result s (pyOr a dt)
          pure (some wiDict, r')
      | none => do
          let a ← unwrapped.getD "auth" .vnull
          let r₁ ← if a.truthy then result.setItem "auth" a else pure result
          let dt ← unwrapped.getD "data" .vnull
          let r₂ ← if dt.truthy then r₁.setItem "data" dt else pure r₁
          pure (some wiDict, r₂)

/-- The unwrap loop of `check_result`, accumulating the unwrap events;
an exception aborts the loop but the events performed so far remain. -/
def unwrapLoop (oracle : Val → Val → Option String → Val) (ucServer : Val)
    (path : Option String) :
    Val → List Val → List UnwrapEvent → List UnwrapEvent × Except Err Val
  | result, [], evs => (evs, .ok result)
  | result, e :: rest, evs =>
      match unwrapIter oracle ucServer path result e with
      | .ok (some wi, r') =>
          unwrapLoop oracle ucServer path r' rest (evs ++ [⟨ucServer, e, wi, path⟩])
      | .ok (none, r') => unwrapLoop oracle ucServer path r' rest evs
      | .error err => (evs, .error err)

/-- The `misc_data` merge loop of `check_result`: each entry is written
under `data:`/`auth:` (depending on whether `data` is present and
non-`None`) unless the target key already resolves. -/
def miscLoop : List (String × Val) → Val → Except Err Val
  | [], r => .ok r
  | (k, v) :: rest, r => do
      let dv ← r.getD "data" .vnull
      let tgt := if dv.isNull then "auth" else "data"
      let fullkey := tgt ++ ":" ++ k
      match traverseDAL r (splitColon fullkey) with
      | some _ => miscLoop rest r
      | none => do
          let r' ← setDictKeyValue r fullkey v
          miscLoop rest r'

/-- The tail of `check_result` after the unwrap loop: raise
`VaultConfigExpired` if flagged, merge `misc_data`, strip the
transport-only keys, and return the result with the unwrap client. -/
def checkResultPost (ce : Bool) (misc : Val) (result : Val) (uc : Option Val) :
    Except Err (Val × Option Val) := do
  if ce then .error .configExpired
  else do
    let items ← (match misc with
      | .vdict ms => Except.ok ms
      | _ => Except.error Err.attributeError)
    let r ← miscLoop items result
    let (_, r₁) ← r.popD "wrap_info"
    let (_, r₂) ← r₁.popD "wrap_info_nested"
    let (_, r₃) ← r₂.popD "misc_data"
    .ok (r₃, uc)

/-- The outcome of `check_result`: the unwrap events performed, and
either the normalized `(result, unwrap client)` pair or the exception
raised. -/
structure CheckOut where
  events : List UnwrapEvent
  out : Except Err (Val × Option Val)

/-- The `server`-block normalization of `check_result`: a reported
`server` entry is re-resolved through `parse_config` (unvalidated, with
the local opts) so that locally forced overrides do not cause spurious
mismatch detection. -/
def serverNormalize (opts : Option Val) (fs : List (String × Val)) :
    Except Err (List (String × Val)) :=
  match Val.lookupField fs "server" with
  | some sv => do
      let pc ← parse_config sv false opts
      let reported ← pc.getItem "server"
      .ok (Val.setField fs "server" reported)
  | none => .ok fs

/-- The state of `check_result` after server normalization and mismatch
detection: the updated response fields, the pending `config_expired`
flag, and the (possibly discarded) expected creation path and unwrap
client. -/
structure CRPrep where
  fs₁ : List (String × Val)
  ce₁ : Bool
  path₁ : Option String
  uc₁ : Option Val
  misc : Val

/-- Mismatch detection of `check_result`: when an unwrap client was
supplied and the (normalized) reported server block differs from that
client's configuration, flag the config as expired and discard both the
expected creation path and the stale unwrap client. -/
def crBuild (fs fs₁ : List (String × Val)) (uc : Option Val)
    (path₀ : Option String) : CRPrep :=
  let ce₀ := ((Val.lookupField fs "expire_cache").getD (.vbool false)).truthy
  let mismatch := match uc with
    | some ex => !Val.pyEq ((Val.lookupField fs₁ "server").getD .vnull) ex
    | none => false
  { fs₁ := fs₁
    ce₁ := ce₀ || mismatch
    path₁ := if mismatch then none else path₀
    uc₁ := if mismatch then none else uc
    misc := (Val.lookupField fs₁ "misc_data").getD (.vdict []) }

def crPrepare (opts : Option Val) (fs : List (String × Val)) (uc : Option Val)
    (path₀ : Option String) : Except Err CRPrep :=
  (serverNormalize opts fs).map (fun fs₁ => crBuild fs fs₁ uc path₀)

/-- Whether `check_result` enters the unwrap block. -/
def crDoWrap (fs₁ : List (String × Val)) : Bool :=
  ((Val.lookupField fs₁ "wrap_info").getD .vnull).truthy
    || ((Val.lookupField fs₁ "wrap_info_nested").getD .vnull).truthy

/-- The unwrap client used by the unwrap loop: the surviving supplied
client, or a fresh `VaultClient(**result["server"])` derived from the
response's own server block (whose construction requires a mapping
carrying `url`). -/
def crClient (fs₁ : List (String × Val)) (uc₁ : Option Val) : Except Err Val :=
  match uc₁ with
  | some c => .ok c
  | none =>
      match Val.lookupField fs₁ "server" with
      | some (Val.vdict svfs) =>
          if Val.hasField svfs "url" then .ok (.vdict svfs)
          else .error .typeError
      | some _ => .error .typeError
      | none => .error (.keyError "server")

/-- The keys iterated by the unwrap loop:
`[""] + result.get("wrap_info_nested", [])`. -/
def crElems (fs₁ : List (String × Val)) : Except Err (List Val) :=
  match Val.lookupField fs₁ "wrap_info_nested" with
  | some (.vlist xs) => .ok (Val.vstr "" :: xs)
  | some _ => .error .typeError
  | none => .ok [Val.vstr ""]

/-- The body of `check_result` for a truthy dict response without an
`error` field: normalize a reported `server` block through
`parse_config`, detect a server-identity mismatch against the supplied
unwrap client's configuration (discarding that client and its expected
creation path on mismatch), unwrap all wrapped payloads, then defer to
`checkResultPost`. -/
def checkResultMain (oracle : Val → Val → Option String → Val)
    (opts : Option Val) (fs : List (String × Val)) (uc : Option Val)
    (path₀ : Option String) : CheckOut :=
  match crPrepare opts fs uc path₀ with
  | .error e => ⟨[], .error e⟩
  | .ok p =>
    if crDoWrap p.fs₁ then
      match crClient p.fs₁ p.uc₁ with
      | .error e => ⟨[], .error e⟩
      | .ok ucS =>
        match crElems p.fs₁ with
        | .error e => ⟨[], .error e⟩
        | .ok elems =>
          match unwrapLoop oracle ucS p.path₁ (.vdict p.fs₁) elems [] with
          | (evs, .error e) => ⟨evs, .error e⟩
          | (evs, .ok r₂) =>
              match checkResultPost p.ce₁ p.misc r₂ (some ucS) with
              | .ok o => ⟨evs, .ok o⟩
              | .error e => ⟨evs, .error e⟩
    else
      match checkResultPost p.ce₁ p.misc (.vdict p.fs₁) p.uc₁ with
      | .ok o => ⟨[], .ok o⟩
      | .error e => ⟨[], .error e⟩

/-- `check_result(result, unwrap_client, unwrap_expected_creation_path)`
from `_query_master`.  The external `unwrap` REST call is an oracle
mapping (client's server config, wrap_info, expected creation path) to
the unwrapped response; an unwrap client is modelled by the server
configuration it is bound to. -/
def check_result (oracle : Val → Val → Option String → Val)
    (opts : Option Val) (result : Val) (uc : Option Val)
    (path : Option String) : CheckOut :=
  if !result.truthy then ⟨[], .error .configExpired⟩
  else
    match result with
    | .vdict fs =>
        if Val.hasField fs "error" then
          if ((Val.lookupField fs "expire_cache").getD .vnull).truthy then
            ⟨[], .error .configExpired⟩
          else ⟨[], .error .commandExecutionError⟩
        else checkResultMain oracle opts fs uc path
    | _ => ⟨[], .error .commandExecutionError⟩

/-! ## Connection configuration (`_get_connection_config` / `_use_local_config`) -/

/-- The shared tail of `_use_local_config` and of the fresh-config path
of `_get_connection_config`: pop the embedded token out of the parsed
configuration's auth section and rebuild the three-section connection
configuration `{"auth": …, "cache": …, "server": …}`.  Returns the
configuration together with the popped token (if any) and the server
block (standing for the `VaultClient` constructed from it). -/
def stripTokenAndSection (config : Val) : Except Err (Val × Option Val × Val) := do
  let auth ← config.getItem "auth"
  let (tok?, auth') ← auth.popD "token"
  let cache ← config.getItem "cache"
  let server ← config.getItem "server"
  .ok (.vdict [("auth", auth'), ("cache", cache), ("server", server)], tok?, server)

/-- `_use_local_config(opts)`: parse the local `vault` configuration
(validated, without the opts-override parameter) and strip the embedded
token into a separate return value. -/
def use_local_config (opts : Val) : Except Err (Val × Option Val × Val) := do
  let vaultCfg ← opts.getD "vault" (.vdict [])
  let config ← parse_config vaultCfg true none
  stripTokenAndSection config

/-- The fresh-config path of `_get_connection_config`:
`config = parse_config(config, opts=opts)` on the master-supplied
configuration, then the same strip-and-section step; the first component
is both returned and stored in the configuration cache. -/
def connection_config_remote (remoteCfg : Val) (opts : Val) :
    Except Err (Val × Option Val × Val) := do
  let config ← parse_config remoteCfg true (some opts)
  stripTokenAndSection config

/-! ## `_fetch_token` / `_fetch_secret_id` -/

/-- Modelled from the spec: the remaining-uses counter of a
`VaultToken` built from a keyword dict (external
`salt.utils.vault.leases.VaultToken`, not part of the sources); absent
or non-integer values default to `0` = unlimited. -/
def tokenNumUses (v : Val) : Int :=
  match v with
  | .vdict fs =>
      match Val.lookupField fs "num_uses" with
      | some (.vint n) => n
      | _ => 0
  | _ => 0

/-- Modelled from the spec: the remaining-uses counter of a
`VaultSecretId` built from a keyword dict (external
`salt.utils.vault.leases.VaultSecretId`). -/
def secretIdNumUses (v : Val) : Int :=
  match v with
  | .vdict fs =>
      match Val.lookupField fs "secret_id_num_uses" with
      | some (.vint n) => n
      | _ => 0
  | _ => 0

/-- The collaborators consulted by `_fetch_token`, as oracles: the run
type, the config's auth method, the embedded token popped from the
configuration, the token cache (results of its two `get` calls), the
master query (`_query_master("generate_new_token")`, modelled by its
checked result), the unwrap REST call, the `token_lookup` REST call and
the external token validity / string conversion of the lease class. -/
structure FetchTokenWorld where
  runLocal : Bool
  method : Val
  embedded : Option Val
  cacheGet10 : Option Val
  cacheGet : Option Val
  queryResult : Val
  unwrap : Val → Val
  lookupStatus : Int
  lookupData : Val
  isValid10 : Val → Bool
  strToken : Val → Val

/-- The master-issued path of `_fetch_token` (the inner
`cache_or_fetch`): use a cached token; otherwise materialize the
embedded token dict and, if that is absent or too short-lived, request a
new token from the master; cache it unless it is single-use.  Returns
the token and the list of tokens stored into the cache. -/
def fetchTokenRemote (w : FetchTokenWorld) : Except Err (Val × List Val) := do
  match w.cacheGet10 with
  | some t => .ok (t, [])
  | none => do
      let emb? : Option Val := match w.embedded with
        | some (.vdict efs) => some (.vdict efs)
        | _ => none
      let token ← (match emb? with
        | some e =>
            if w.isValid10 e then Except.ok e
            else do
              let auth ← w.queryResult.getItem "auth"
              match auth with
              | .vdict _ => Except.ok auth
              | _ => Except.error Err.typeError
        | none => do
            let auth ← w.queryResult.getItem "auth"
            match auth with
            | .vdict _ => Except.ok auth
            | _ => Except.error Err.typeError)
      if tokenNumUses token ≠ 1 then .ok (token, [token])
      else .ok (token, [])

/-- The local path of `_fetch_token`: an embedded dict token (unwrapped
first when it carries `wrap_info`), a `wrapped_token`-method token, or a
plain token string that is verified via `token_lookup` and then cached
unconditionally. -/
def fetchTokenLocal (w : FetchTokenWorld) : Except Err (Val × List Val) := do
  match w.embedded with
  | some (.vdict efs) =>
      if ((Val.lookupField efs "wrap_info").getD .vnull).truthy then do
        let wi ← Val.getItem (.vdict efs) "wrap_info"
        let wtok ← wi.getItem "token"
        let auth ← (w.unwrap wtok).getItem "auth"
        .ok (auth, [])
      else .ok (.vdict efs, [])
  | emb =>
      if Val.pyEq w.method (.vstr "wrapped_token") then do
        let auth ← (w.unwrap (emb.getD .vnull)).getItem "auth"
        .ok (auth, [])
      else
        match emb with
        | none => .error (.vaultException "Invalid configuration, missing token.")
        | some e => do
            let cached := w.cacheGet
            let useCached := match cached with
              | some t => Val.pyEq e (w.strToken t)
              | none => false
            match cached, useCached with
            | some t, true => .ok (t, [])
            | _, _ =>
                if w.lookupStatus ≠ 200 then
                  .error (.vaultException "Configured token cannot be verified.")
                else do
                  let meta ← (match w.lookupData with
                    | .vdict ms => Except.ok ms
                    | _ => Except.error Err.typeError)
                  let ttl ← Val.getItem (.vdict meta) "ttl"
                  if Val.hasField meta "lease_id" || Val.hasField meta "lease_duration" then
                    .error .typeError
                  else
                    let tok := Val.vdict ([("lease_id", e), ("lease_duration", ttl)] ++ meta)
                    .ok (tok, [tok])

/-- `_fetch_token`: dispatches on the run type. -/
def fetch_token (w : FetchTokenWorld) : Except Err (Val × List Val) :=
  if w.runLocal then fetchTokenLocal w else fetchTokenRemote w

/-- The collaborators consulted by `_fetch_secret_id`. -/
structure FetchSecretIdWorld where
  runLocal : Bool
  authSecretId : Val
  cacheGet : Option Val
  queryResult : Val
  unwrap : Val → Val

/-- `_fetch_secret_id`: locally, a dict-valued configured secret id is
(possibly unwrapped and) returned, a truthy scalar becomes a
non-expiring local secret id, and a falsy one is an invariant violation;
remotely, a cached secret id is used, else one is fetched from the
master and cached unless single-use.  Returns the secret id and the list
of secret ids stored into the cache. -/
def fetch_secret_id (w : FetchSecretIdWorld) : Except Err (Val × List Val) := do
  if w.runLocal then
    match w.authSecretId with
    | .vdict sfs =>
        if ((Val.lookupField sfs "wrap_info").getD .vnull).truthy then do
          let wi ← Val.getItem (.vdict sfs) "wrap_info"
          let wtok ← wi.getItem "token"
          let dat ← (w.unwrap wtok).getItem "data"
          .ok (dat, [])
        else .ok (.vdict sfs, [])
    | sv =>
        if sv.truthy then
          .ok (.vdict [("secret_id", sv), ("secret_id_ttl", .vint 0),
                       ("secret_id_num_uses", .vint 0)], [])
        else .error (.vaultException "This code path should not be hit at all.")
  else
    match w.cacheGet with
    | some sid => .ok (sid, [])
    | none => do
        let dat ← w.queryResult.getItem "data"
        let sid ← (match dat with
          | .vdict _ => Except.ok dat
          | _ => Except.error Err.typeError)
        if secretIdNumUses sid ≠ 1 then .ok (sid, [sid])
        else .ok (sid, [])

/-! ## `get_authd_client` -/

/-- Modelled from the spec (§3 Credential, glossary "Minimum TTL gate"):
the token state consulted by `get_authd_client` — remaining validity in
seconds and renewability; `is_valid blur` holds when at least `blur`
seconds remain (the external lease classes are not part of the
sources). -/
structure VToken where
  remaining : Int
  renewable : Bool

def VToken.is_valid (t : VToken) (blur : Int) : Bool := blur ≤ t.remaining

/-- The `auth:token_lifecycle:renew_increment` value: `None`, the
literal `False` (the only value stopped by the `is not False` gate), or
a numeric increment. -/
inductive RenewIncrement where
  | rnone
  | rfalse
  | rnum (n : Int)
deriving DecidableEq

/-- The token-lifecycle policy of the resolved configuration; a `None`
minimum is modelled as `0` (the two coincide under `minimum_ttl or 0`
and under truthiness, the only uses on the paths modelled here). -/
structure Lifecycle where
  minimum_ttl : Int
  renew_increment : RenewIncrement

/-- The collaborators of `get_authd_client`: the per-bank context cache
(a cached client/config pair, represented by its token state and
lifecycle policy), the two `_build_authd_client` outcomes (an `error`
for `build1` stands for one of the three caught exceptions
`VaultAuthExpired`/`VaultConfigExpired`/`VaultPermissionDeniedError`),
and the token state produced by an in-place `token_renew`. -/
structure GacWorld where
  context : Option (VToken × Lifecycle)
  build1 : Except Unit (VToken × Lifecycle)
  renewed : VToken
  build2 : Except Err (VToken × Lifecycle)

/-- Observable actions of `get_authd_client`: an in-place token renewal,
a cache purge (`clear_cache` followed by a rebuild), and the
configuration-cannot-be-honored warning. -/
inductive GacEv where
  | renewedEv
  | purgedEv
  | warnedEv
deriving DecidableEq

/-- The purge-and-rebuild tail of `get_authd_client`: clear the cache,
rebuild, and apply the final minimum-TTL gate — a rebuilt token below an
explicitly configured (truthy) minimum only warns, while one below the
trivial gate raises a terminal `VaultException`. -/
def gacRebuildGate (evs : List GacEv) (w : GacWorld) :
    List GacEv × Except Err (VToken × Lifecycle) :=
  match w.build2 with
  | .error e => (evs, .error e)
  | .ok (t2, cfg2) =>
      if !(t2.is_valid cfg2.minimum_ttl) then
        if cfg2.minimum_ttl ≠ 0 then (evs ++ [.warnedEv], .ok (t2, cfg2))
        else (evs, .error (.vaultException "Could not build valid client."))
      else (evs, .ok (t2, cfg2))

/-- The client/config pair available after the context check and the
first build attempt: a still-valid cached context client, else the
result of `_build_authd_client`; `none` models the retry flag having
been set by a caught build failure. -/
def gacCur (w : GacWorld) : Option (VToken × Lifecycle) :=
  match w.context with
  | some (t, cfg) =>
      if t.is_valid 0 then some (t, cfg)
      else
        match w.build1 with
        | .ok x => some x
        | .error _ => none
  | none =>
      match w.build1 with
      | .ok x => some x
      | .error _ => none

/-- The renewal guard of `get_authd_client`: the configured increment
`is not False` (`None` passes this identity check), the token is
renewable, and it is below the configured minimum TTL. -/
def gacDoRenew (t : VToken) (cfg : Lifecycle) : Bool :=
  (cfg.renew_increment ≠ .rfalse : Bool)
    && t.renewable && !(t.is_valid cfg.minimum_ttl)

/-- `get_authd_client`: use a still-valid cached client from the
context, else build one (a caught build failure sets the retry flag);
renew the token in place when the increment is not the literal `False`,
the token is renewable and it is below the configured minimum; purge and
rebuild when the retry flag is set or the (possibly renewed) token still
fails the minimum-TTL gate. -/
def get_authd_client (w : GacWorld) :
    List GacEv × Except Err (VToken × Lifecycle) :=
  match gacCur w with
  | none => gacRebuildGate [.purgedEv] w
  | some (t, cfg) =>
      if gacDoRenew t cfg then
        if !(w.renewed.is_valid cfg.minimum_ttl) then
          gacRebuildGate [.renewedEv, .purgedEv] w
        else ([.renewedEv], .ok (w.renewed, cfg))
      else
        if !(t.is_valid cfg.minimum_ttl) then
          gacRebuildGate [.purgedEv] w
        else ([], .ok (t, cfg))

/-- A trivial unwrap oracle used for concrete instantiations. -/
def nullOracle : Val → Val → Option String → Val := fun _ _ _ => .vnull

/-- The world of the C6 scenario with a renewable cached token: remaining
TTL 5, `minimum_ttl = 10`, `renew_increment = None`. -/
def gacScenarioWorld : GacWorld :=
  { context := some (⟨5, true⟩, ⟨10, .rnone⟩)
    build1 := .ok (⟨5, true⟩, ⟨10, .rnone⟩)
    renewed := ⟨5, true⟩
    build2 := .ok (⟨100, true⟩, ⟨10, .rnone⟩) }

/-- All unwraps in the event list were performed through a client bound
to the given server configuration. -/
def EvsUse (evs : List UnwrapEvent) (s : Val) : Prop :=
  evs.map (fun e => e.clientServer) = List.replicate evs.length s

/-- A constant unwrap oracle returning an `auth` payload, used for
concrete instantiations. -/
def constOracle : Val → Val → Option String → Val :=
  fun _ _ _ => .vdict [("auth", .vdict [("client_token", .vstr "tkn")])]

/-- The normalized server block of the concrete controller responses
below. -/
def cServerNorm : Val :=
  .vdict [("namespace", .vnull), ("verify", .vnull), ("url", .vstr "https://v")]

/-- A concrete `expire_cache` response with a top-level wrapped payload
and one nested wrapped payload. -/
def c3Fields : List (String × Val) :=
  [("expire_cache", .vbool true),
   ("server", .vdict [("url", .vstr "https://v"), ("verify", .vnull)]),
   ("wrap_info", .vdict [("token", .vstr "wtok1")]),
   ("wrap_info_nested", .vlist [.vstr "secret_id"]),
   ("secret_id", .vdict [("wrap_info", .vdict [("tok2", .vstr "wtok2")])])]

def c3NormFields : List (String × Val) :=
  [("expire_cache", .vbool true),
   ("server", cServerNorm),
   ("wrap_info", .vdict [("token", .vstr "wtok1")]),
   ("wrap_info_nested", .vlist [.vstr "secret_id"]),
   ("secret_id", .vdict [("wrap_info", .vdict [("tok2", .vstr "wtok2")])])]

def c3Prep : CRPrep :=
  { fs₁ := c3NormFields, ce₁ := true, path₁ := none, uc₁ := none,
    misc := .vdict [] }

/-- The two unwraps `check_result` performs on `c3Fields` before
raising the deferred expiry. -/
def c3Events : List UnwrapEvent :=
  [⟨cServerNorm, .vstr "", .vdict [("token", .vstr "wtok1")], none⟩,
   ⟨cServerNorm, .vstr "secret_id", .vdict [("tok2", .vstr "wtok2")], none⟩]

/-- The response after both unwraps have replaced their wrapped
pointers. -/
def c3Result : Val :=
  .vdict [("expire_cache", .vbool true),
          ("server", cServerNorm),
          ("wrap_info", .vdict [("token", .vstr "wtok1")]),
          ("wrap_info_nested", .vlist [.vstr "secret_id"]),
          ("secret_id", .vdict [("client_token", .vstr "tkn")]),
          ("auth", .vdict [("client_token", .vstr "tkn")])]

/-- The `c3Fields` response without the `expire_cache` flag, used for
the mismatch scenario. -/
def c2Fields : List (String × Val) :=
  [("server", .vdict [("url", .vstr "https://v"), ("verify", .vnull)]),
   ("wrap_info", .vdict [("token", .vstr "wtok1")]),
   ("wrap_info_nested", .vlist [.vstr "secret_id"]),
   ("secret_id", .vdict [("wrap_info", .vdict [("tok2", .vstr "wtok2")])])]

def c2NormFields : List (String × Val) :=
  [("server", cServerNorm),
   ("wrap_info", .vdict [("token", .vstr "wtok1")]),
   ("wrap_info_nested", .vlist [.vstr "secret_id"]),
   ("secret_id", .vdict [("wrap_info", .vdict [("tok2", .vstr "wtok2")])])]

/-- A cached unwrap client bound to a *different* server. -/
def c2StaleServer : Val :=
  .vdict [("namespace", .vnull), ("verify", .vnull), ("url", .vstr "https://old")]

/-- Two-level access into a resolved configuration
(`config[k₁][k₂]`). -/
def configGet2 (m : Val) (k₁ k₂ : String) : Except Err Val := do
  let s ← m.getItem k₁
  s.getItem k₂

/-- A raw (remotely-supplied) configuration carrying its own `verify`
and `token_lifecycle` values. -/
def c7Raw : Val :=
  .vdict [
    ("auth", .vdict [("method", .vstr "token"), ("token", .vstr "t"),
      ("token_lifecycle", .vdict [("minimum_ttl", .vint 77)])]),
    ("server", .vdict [("url", .vstr "https://x"),
      ("verify", .vstr "/remote/ca")])]

def c7Lc : List (String × Val) :=
  [("verify", .vstr "/local/ca"),
   ("auth", .vdict [("token_lifecycle", .vdict [("minimum_ttl", .vint 42)])])]

def c7Ofs : List (String × Val) := [("vault", .vdict c7Lc)]

def c7Lc2 : List (String × Val) :=
  [("server", .vdict [("verify", .vbool false)])]

def c7Ofs2 : List (String × Val) := [("vault", .vdict c7Lc2)]

/-- A configuration whose `server` section is the plain string
`"_url_"`: it carries no `server:url` entry at all, yet the string
contains `"url"` as a substring. -/
def c9Cex : Val :=
  .vdict [
    ("auth", .vdict [("method", .vstr "token"), ("token", .vstr "t1")]),
    ("server", .vstr "_url_")]

/-- A configuration that keeps the default (url-less, mapping-valued)
`server` section. -/
def c9Wit : Val :=
  .vdict [("auth", .vdict [("method", .vstr "token"), ("token", .vstr "t1")])]

/-- The merged form of `c9Wit`. -/
def c9Merged : Val :=
  match mergeAndMigrate c9Wit none with
  | .ok m => m
  | .error _ => .vnull

/-- The auth section of `c9Merged`. -/
def c9Afs : List (String × Val) :=
  match c9Merged.getItem "auth" with
  | .ok (.vdict fs) => fs
  | _ => []

/-- The server section of `c9Merged`. -/
def c9Sfs : List (String × Val) :=
  match c9Merged.getItem "server" with
  | .ok (.vdict fs) => fs
  | _ => []

/-- A world driving `_fetch_token` down the local plain-token path: a
locally configured token string whose `token_lookup` verification
reports `num_uses = 1`. -/
def fetchTokenCexWorld : FetchTokenWorld :=
  { runLocal := true
    method := .vstr "token"
    embedded := some (.vstr "t1")
    cacheGet10 := none
    cacheGet := none
    queryResult := .vnull
    unwrap := fun _ => .vnull
    lookupStatus := 200
    lookupData := .vdict [("ttl", .vint 3600), ("num_uses", .vint 1)]
    isValid10 := fun _ => true
    strToken := fun _ => .vnull }

/-- The token the local plain-token path builds and stores for
`fetchTokenCexWorld`. -/
def fetchTokenCexStored : Val :=
  .vdict [("lease_id", .vstr "t1"), ("lease_duration", .vint 3600),
          ("ttl", .vint 3600), ("num_uses", .vint 1)]

/-- Local minion options embedding a plain token. -/
def c10Opts : Val :=
  .vdict [("vault", .vdict [
    ("auth", .vdict [("method", .vstr "token"), ("token", .vstr "t1")]),
    ("server", .vdict [("url", .vstr "https://vault.example")])])]

/-- A master-supplied configuration embedding a plain token. -/
def c10Remote : Val :=
  .vdict [
    ("auth", .vdict [("method", .vstr "token"), ("token", .vstr "t2")]),
    ("server", .vdict [("url", .vstr "https://vault2.example")])]

/-- The local connection configuration computed from `c10Opts`. -/
def c10LocalOut : Val × Option Val × Val :=
  match use_local_config c10Opts with
  | .ok r => r
  | .error _ => (.vnull, none, .vnull)

/-- The remote connection configuration computed from `c10Remote`. -/
def c10RemoteOut : Val × Option Val × Val :=
  match connection_config_remote c10Remote c10Opts with
  | .ok r => r
  | .error _ => (.vnull, none, .vnull)

/-- The value stored under `k` is not (the fields of) a dict. -/
def nonDictAt (fs : List (String × Val)) (k : String) : Bool :=
  match Val.lookupField fs k with
  | some (.vdict _) => false
  | _ => true

/-- A raw configuration exercising every legacy key at once. -/
def c8c : Val :=
  .vdict [
    ("auth", .vdict [("method", .vstr "token"), ("token", .vstr "t"),
      ("ttl", .vint 60), ("uses", .vint 5),
      ("token_backend", .vstr "disk"),
      ("allow_minion_override", .vbool true)]),
    ("url", .vstr "https://vault.example"),
    ("verify", .vstr "/ca"),
    ("role_name", .vstr "r"),
    ("policies", .vlist [.vstr "a", .vstr "b"])]

/-! ## Theorems -/


theorem dmergeFields_cons (d : List (String × Val)) (k : String) (v : Val)
    (rest : List (String × Val)) :
    dmergeFields d ((k, v) :: rest) = dmergeFields (dmergeField d k v) rest := rfl

/-- Inversion of a successful `Except` bind. -/
theorem bind_ok {α β : Type} {e : Except Err α} {f : α → Except Err β} {b : β}
    (h : e.bind f = .ok b) : ∃ a, e = .ok a ∧ f a = .ok b := by
  cases e with
  | ok a => exact ⟨a, rfl, h⟩
  | error _ => simp [Except.bind] at h

/-- A successful indexed read shows the container was a dict holding
the key. -/
theorem getItem_ok {v : Val} {k : String} {x : Val}
    (h : v.getItem k = .ok x) :
    ∃ fs, v = .vdict fs ∧ Val.lookupField fs k = some x := by
  cases v with
  | vdict fs =>
      refine ⟨fs, rfl, ?_⟩
      simp only [Val.getItem] at h
      split at h
      · rename_i y hy
        injection h with h
        rw [hy, h]
      · exact Except.noConfusion h
  | vnull => exact Except.noConfusion h
  | vbool b => exact Except.noConfusion h
  | vint n => exact Except.noConfusion h
  | vstr s => exact Except.noConfusion h
  | vlist xs => exact Except.noConfusion h

/-- A successful indexed write shows the container was a dict, and
gives the result's shape. -/
theorem setItem_ok {v : Val} {k : String} {x m : Val}
    (h : v.setItem k x = .ok m) :
    ∃ fs, v = .vdict fs ∧ m = .vdict (Val.setField fs k x) := by
  cases v with
  | vdict fs =>
      refine ⟨fs, rfl, ?_⟩
      simp only [Val.setItem] at h
      injection h with h
      exact h.symm
  | vnull => exact Except.noConfusion h
  | vbool b => exact Except.noConfusion h
  | vint n => exact Except.noConfusion h
  | vstr s => exact Except.noConfusion h
  | vlist xs => exact Except.noConfusion h

/-- Sequencing after a success just runs the continuation. -/
theorem okBind {α β : Type} (a : α) (f : α → Except Err β) :
    (Except.ok a >>= f) = f a := rfl

/-- Sequencing after a failure propagates the failure. -/
theorem errBind {α β : Type} (e : Err) (f : α → Except Err β) :
    ((Except.error e : Except Err α) >>= f) = .error e := rfl

/-- Membership on dicts is key presence. -/
theorem mem_vdict (fs : List (String × Val)) (k : String) :
    (Val.vdict fs).mem k = .ok (Val.hasField fs k) := rfl

/-- Indexed writes on dicts produce the field update. -/
theorem setItem_vdict_ok {fs : List (String × Val)} {k : String} {x m : Val}
    (h : Val.setItem (.vdict fs) k x = .ok m) :
    m = .vdict (Val.setField fs k x) := by
  simp only [Val.setItem] at h
  injection h with h
  exact h.symm

/-- C4.  `check_result` raises `VaultConfigExpired` on every falsy
result; on a truthy dict result with an `error` field it raises
`VaultConfigExpired` when `expire_cache` is truthy and a generic
`CommandExecutionError` otherwise; on a truthy non-dict result it raises
`CommandExecutionError`. -/
theorem check_result_error_taxonomy
    (oracle : Val → Val → Option String → Val) (opts : Option Val)
    (uc : Option Val) (path : Option String) (r : Val) :
    (r.truthy = false →
      check_result oracle opts r uc path = ⟨[], .error .configExpired⟩) ∧
    (∀ fs, r = .vdict fs → r.truthy = true → Val.hasField fs "error" = true →
      (((Val.lookupField fs "expire_cache").getD .vnull).truthy = true →
        check_result oracle opts r uc path = ⟨[], .error .configExpired⟩) ∧
      (((Val.lookupField fs "expire_cache").getD .vnull).truthy = false →
        check_result oracle opts r uc path = ⟨[], .error .commandExecutionError⟩)) ∧
    (r.truthy = true → (∀ fs, r ≠ .vdict fs) →
      check_result oracle opts r uc path = ⟨[], .error .commandExecutionError⟩) := by
  refine ⟨fun hf => ?_, fun fs hr ht he => ?_, fun ht hnd => ?_⟩
  · simp [check_result, hf]
  · subst hr
    constructor
    · intro hec
      simp [check_result, ht, he, hec]
    · intro hec
      simp [check_result, ht, he, hec]
  · cases r with
    | vdict fs => exact absurd rfl (hnd fs)
    | vnull => simp [Val.truthy] at ht
    | vbool b => simp [check_result, ht]
    | vint n => simp [check_result, ht]
    | vstr s => simp [check_result, ht]
    | vlist xs => simp [check_result, ht]

/-- Witness for C4: the three branches at concrete controller responses,
among them the spec scenario `{"error": "denied", "expire_cache": true}`. -/
theorem check_result_error_taxonomy_witness :
    check_result nullOracle none
        (.vdict [("error", .vstr "denied"), ("expire_cache", .vbool true)])
        none none = ⟨[], .error .configExpired⟩ ∧
    check_result nullOracle none (.vdict [("error", .vstr "denied")])
        none none = ⟨[], .error .commandExecutionError⟩ ∧
    check_result nullOracle none (.vdict []) none none
        = ⟨[], .error .configExpired⟩ ∧
    check_result nullOracle none (.vstr "bogus") none none
        = ⟨[], .error .commandExecutionError⟩ := by
  refine ⟨?_, ?_, ?_, ?_⟩
  · exact ((check_result_error_taxonomy nullOracle none none none _).2.1
      _ rfl (by decide) (by decide)).1 (by decide)
  · exact ((check_result_error_taxonomy nullOracle none none none _).2.1
      _ rfl (by decide) (by decide)).2 (by decide)
  · exact (check_result_error_taxonomy nullOracle none none none _).1 (by decide)
  · exact (check_result_error_taxonomy nullOracle none none none _).2.2
      (by decide) (fun fs h => by cases h)

/-- The final minimum-TTL gate after a purge-and-rebuild, when the
rebuilt token still fails the gate. -/
theorem gacRebuildGate_spec (w : GacWorld) (t2 : VToken) (cfg2 : Lifecycle)
    (evs : List GacEv) (hb : w.build2 = .ok (t2, cfg2))
    (hv : t2.is_valid cfg2.minimum_ttl = false) :
    gacRebuildGate evs w =
      if cfg2.minimum_ttl ≠ 0 then (evs ++ [.warnedEv], .ok (t2, cfg2))
      else (evs, .error (.vaultException "Could not build valid client.")) := by
  simp [gacRebuildGate, hb, hv]

/-- `get_authd_client` either reaches the purge-and-rebuild tail with a
purge event recorded, or terminates without any purge event. -/
theorem gac_shape (w : GacWorld) :
    (∃ evs₀, GacEv.purgedEv ∈ evs₀ ∧
       get_authd_client w = gacRebuildGate evs₀ w) ∨
    GacEv.purgedEv ∉ (get_authd_client w).1 := by
  rcases hc : gacCur w with _ | ⟨t, cfg⟩
  · exact Or.inl ⟨[.purgedEv], by simp, by simp [get_authd_client, hc]⟩
  · by_cases hdr : gacDoRenew t cfg = true
    · by_cases hv : w.renewed.is_valid cfg.minimum_ttl = true
      · refine Or.inr ?_
        simp [get_authd_client, hc, hdr, hv]
      · refine Or.inl ⟨[.renewedEv, .purgedEv], by simp, ?_⟩
        simp [get_authd_client, hc, hdr, Bool.eq_false_iff.2 hv]
    · by_cases hv : t.is_valid cfg.minimum_ttl = true
      · refine Or.inr ?_
        simp [get_authd_client, hc, hdr, hv]
      · refine Or.inl ⟨[.purgedEv], by simp, ?_⟩
        simp [get_authd_client, hc, hdr, Bool.eq_false_iff.2 hv]

/-- C5.  Whenever `get_authd_client` purged and rebuilt and the rebuilt
token still fails the configured minimum-TTL gate: with a truthy
configured minimum it logs the cannot-honor warning and returns that
client anyway; with no configured minimum it raises the terminal
`VaultException`. -/
theorem gac_rebuilt_token_gate (w : GacWorld) (t2 : VToken) (cfg2 : Lifecycle)
    (hb : w.build2 = .ok (t2, cfg2))
    (hp : GacEv.purgedEv ∈ (get_authd_client w).1)
    (hv : t2.is_valid cfg2.minimum_ttl = false) :
    (cfg2.minimum_ttl ≠ 0 →
       GacEv.warnedEv ∈ (get_authd_client w).1 ∧
       (get_authd_client w).2 = .ok (t2, cfg2)) ∧
    (cfg2.minimum_ttl = 0 →
       (get_authd_client w).2
         = .error (.vaultException "Could not build valid client.")) := by
  rcases gac_shape w with ⟨evs₀, _, heq⟩ | hno
  · rw [heq, gacRebuildGate_spec w t2 cfg2 evs₀ hb hv]
    constructor
    · intro hm
      simp [hm]
    · intro hm
      simp [hm]
  · exact absurd hp hno

/-- Witness for C5, both gate outcomes at concrete worlds: an invalid
context token, a failed rebuild gate with configured minimum 10
(warning + client returned), and the same with no configured minimum
(terminal error). -/
theorem gac_rebuilt_token_gate_witness :
    (GacEv.warnedEv ∈ (get_authd_client
        { context := some (⟨-1, false⟩, ⟨10, .rnone⟩),
          build1 := .error (), renewed := ⟨0, false⟩,
          build2 := .ok (⟨3, false⟩, ⟨10, .rnone⟩) }).1 ∧
      (get_authd_client
        { context := some (⟨-1, false⟩, ⟨10, .rnone⟩),
          build1 := .error (), renewed := ⟨0, false⟩,
          build2 := .ok (⟨3, false⟩, ⟨10, .rnone⟩) }).2
        = .ok (⟨3, false⟩, ⟨10, .rnone⟩)) ∧
    (get_authd_client
        { context := none, build1 := .error (), renewed := ⟨0, false⟩,
          build2 := .ok (⟨-5, false⟩, ⟨0, .rnone⟩) }).2
      = .error (.vaultException "Could not build valid client.") := by
  constructor
  · exact (gac_rebuilt_token_gate _ _ _ rfl (by decide) (by decide)).1 (by decide)
  · exact (gac_rebuilt_token_gate _ _ _ rfl (by decide) (by decide)).2 (by decide)

/-- Counterexample to C6: with a *renewable* cached token of TTL 5,
`minimum_ttl = 10` and `renew_increment = None`, `get_authd_client`
*does* attempt an in-place renewal (the guard is `is not False`, which
`None` passes) before purging and rebuilding. -/
theorem gac_renews_with_none_increment :
    (get_authd_client gacScenarioWorld).1 = [.renewedEv, .purgedEv] ∧
    GacEv.renewedEv ∈ (get_authd_client gacScenarioWorld).1 := by
  constructor
  · rfl
  · decide

/-- Every event of the purge-and-rebuild tail is either an event it was
entered with or the cannot-honor warning. -/
theorem gacRebuildGate_mem_sub (w : GacWorld) (evs : List GacEv) (x : GacEv)
    (h : x ∈ (gacRebuildGate evs w).1) : x ∈ evs ∨ x = .warnedEv := by
  unfold gacRebuildGate at h
  rcases hb2 : w.build2 with e | ⟨t2, cfg2⟩ <;> rw [hb2] at h
  · exact Or.inl h
  · by_cases hv : t2.is_valid cfg2.minimum_ttl = true <;>
      simp [hv] at h
    · exact Or.inl h
    · by_cases hm : cfg2.minimum_ttl = 0 <;> simp [hm] at h
      · exact Or.inl h
      · rcases h with h | h
        · exact Or.inl h
        · exact Or.inr h

/-- The purge-and-rebuild tail preserves the events it was entered with. -/
theorem gacRebuildGate_mem_sup (w : GacWorld) (evs : List GacEv) (x : GacEv)
    (h : x ∈ evs) : x ∈ (gacRebuildGate evs w).1 := by
  unfold gacRebuildGate
  rcases hb2 : w.build2 with e | ⟨t2, cfg2⟩
  · exact h
  · by_cases hv : t2.is_valid cfg2.minimum_ttl = true <;> simp [hv]
    · exact h
    · by_cases hm : cfg2.minimum_ttl = 0 <;> simp [hm]
      · exact h
      · exact Or.inl h

/-- C6 (amended).  With a cached token of TTL 5, `minimum_ttl = 10` and
`renew_increment = None`, `get_authd_client` skips the in-place renewal
only when the token is not renewable (the `is not False` increment guard
alone does not block renewal for `None`); it then purges the caches and
rebuilds from scratch. -/
theorem gac_purge_rebuild_no_renew (w : GacWorld) (t : VToken) (cfg : Lifecycle)
    (hctx : w.context = some (t, cfg)) (hrem : t.remaining = 5)
    (hren : t.renewable = false) (hmin : cfg.minimum_ttl = 10)
    (_hinc : cfg.renew_increment = .rnone) :
    GacEv.renewedEv ∉ (get_authd_client w).1 ∧
    GacEv.purgedEv ∈ (get_authd_client w).1 ∧
    get_authd_client w = gacRebuildGate [.purgedEv] w := by
  have hv0 : t.is_valid 0 = true := by
    simp [VToken.is_valid, hrem]
  have hvm : t.is_valid cfg.minimum_ttl = false := by
    simp [VToken.is_valid, hrem, hmin]
  have hcur : gacCur w = some (t, cfg) := by
    simp [gacCur, hctx, hv0]
  have hdr : gacDoRenew t cfg = false := by
    simp [gacDoRenew, hren]
  have heq : get_authd_client w = gacRebuildGate [.purgedEv] w := by
    simp [get_authd_client, hcur, hdr, hvm]
  refine ⟨?_, ?_, heq⟩
  · rw [heq]
    intro hmem
    rcases gacRebuildGate_mem_sub w _ _ hmem with h | h <;> simp at h
  · rw [heq]
    exact gacRebuildGate_mem_sup w _ _ (by simp)

/-- Witness for the amended C6 at a concrete world with a
non-renewable token. -/
theorem gac_purge_rebuild_no_renew_witness :
    GacEv.renewedEv ∉ (get_authd_client
      { context := some (⟨5, false⟩, ⟨10, .rnone⟩), build1 := .error (),
        renewed := ⟨5, false⟩,
        build2 := .ok (⟨100, true⟩, ⟨10, .rnone⟩) }).1 ∧
    GacEv.purgedEv ∈ (get_authd_client
      { context := some (⟨5, false⟩, ⟨10, .rnone⟩), build1 := .error (),
        renewed := ⟨5, false⟩,
        build2 := .ok (⟨100, true⟩, ⟨10, .rnone⟩) }).1 := by
  have h := gac_purge_rebuild_no_renew
    { context := some (⟨5, false⟩, ⟨10, .rnone⟩), build1 := .error (),
      renewed := ⟨5, false⟩, build2 := .ok (⟨100, true⟩, ⟨10, .rnone⟩) }
    ⟨5, false⟩ ⟨10, .rnone⟩ rfl rfl rfl rfl rfl
  exact ⟨h.1, h.2.1⟩

/-- Inversion of a successful `Except.map`. -/
theorem map_ok {α β : Type} {f : α → β} {e : Except Err α} {b : β}
    (h : Except.map f e = .ok b) : ∃ a, e = .ok a ∧ f a = b := by
  cases e with
  | ok a =>
      refine ⟨a, rfl, ?_⟩
      simpa [Except.map] using h
  | error _ => simp [Except.map] at h

theorem evsUse_nil (s : Val) : EvsUse [] s := rfl

theorem evsUse_of_map {evs : List UnwrapEvent} {s : Val} {n : ℕ}
    (h : evs.map (fun e => e.clientServer) = List.replicate n s) :
    EvsUse evs s := by
  have hl : evs.length = n := by
    have := congrArg List.length h
    simpa using this
  rw [EvsUse, h, hl]

/-- Every event recorded by the unwrap loop beyond the initial
accumulator carries the loop's own client. -/
theorem unwrapLoop_events (oracle : Val → Val → Option String → Val)
    (s : Val) (p : Option String) (elems : List Val) :
    ∀ r evs₀, ∃ n,
      ((unwrapLoop oracle s p r elems evs₀).1).map (fun e => e.clientServer)
        = evs₀.map (fun e => e.clientServer) ++ List.replicate n s := by
  induction elems with
  | nil =>
      intro r evs₀
      exact ⟨0, by simp [unwrapLoop]⟩
  | cons e rest ih =>
      intro r evs₀
      unfold unwrapLoop
      rcases hit : unwrapIter oracle s p r e with err | ⟨wi?, r'⟩
      · exact ⟨0, by simp⟩
      · rcases wi? with _ | wi
        · exact ih r' evs₀
        · obtain ⟨n, hn⟩ := ih r' (evs₀ ++ [⟨s, e, wi, p⟩])
          refine ⟨n + 1, ?_⟩
          rw [hn]
          simp [List.replicate_succ]

/-- When no unwrap client survives, the client built for the unwrap
loop is exactly the response's own (normalized) server block. -/
theorem crClient_none_ok {fs₁ : List (String × Val)} {u : Val}
    (h : crClient fs₁ none = .ok u) :
    u = (Val.lookupField fs₁ "server").getD .vnull := by
  rw [crClient] at h
  split at h
  all_goals first
    | (rename_i svfs heq
       by_cases hu : Val.hasField svfs "url" = true
       · (rw [if_pos hu] at h
          simp only [Except.ok.injEq] at h
          simp [heq, ← h])
       · (rw [if_neg hu] at h
          exact absurd h (by simp)))
    | exact absurd h (by simp)

/-- Mismatch inversion for `crPrepare`: when the normalized reported
server block differs (Python `!=`) from the supplied client's
configuration, the prepared state has discarded both the client and the
expected creation path, and flags the config expired. -/
theorem crPrepare_mismatch (opts : Option Val) (fs fs₁ : List (String × Val))
    (ex : Val) (path : Option String)
    (hsn : serverNormalize opts fs = .ok fs₁)
    (hne : Val.pyEq ((Val.lookupField fs₁ "server").getD .vnull) ex = false) :
    crPrepare opts fs (some ex) path
      = .ok { fs₁ := fs₁, ce₁ := true, path₁ := none, uc₁ := none,
              misc := (Val.lookupField fs₁ "misc_data").getD (.vdict []) } := by
  rw [crPrepare, hsn]
  simp [Except.map, crBuild, hne]

/-- C2.  When the response's (normalized) `server` block differs from
the configuration of the caller-supplied unwrap client, every unwrap
performed by `check_result` uses a client bound to the response's own
reported server block — the stale client is discarded before any unwrap
is attempted and never used. -/
theorem check_result_mismatch_fresh_client
    (oracle : Val → Val → Option String → Val) (opts : Option Val)
    (fs fs₁ : List (String × Val)) (ex : Val) (path : Option String)
    (hsn : serverNormalize opts fs = .ok fs₁)
    (hne : Val.pyEq ((Val.lookupField fs₁ "server").getD .vnull) ex = false) :
    EvsUse (check_result oracle opts (.vdict fs) (some ex) path).events
      ((Val.lookupField fs₁ "server").getD .vnull) := by
  have hprep := crPrepare_mismatch opts fs fs₁ ex path hsn hne
  by_cases htr : (Val.vdict fs).truthy = true
  · rw [check_result]
    simp only [htr, Bool.not_true, if_false, ite_false]
    by_cases herr : Val.hasField fs "error" = true
    · by_cases hec : ((Val.lookupField fs "expire_cache").getD .vnull).truthy = true <;>
        simp [herr, hec, evsUse_nil]
    · simp only [Bool.not_eq_true] at herr
      simp only [herr, Bool.false_eq_true, if_false, ite_false]
      rw [checkResultMain, hprep]
      by_cases hdw : crDoWrap fs₁ = true
      · simp only [hdw, if_true, ite_true]
        rcases hcl : crClient fs₁ none with e | ucS
        · simp [hcl, evsUse_nil]
        · have hucS := crClient_none_ok hcl
          subst hucS
          rcases hel : crElems fs₁ with e | elems
          · simp [hcl, hel, evsUse_nil]
          · simp only [hcl, hel]
            obtain ⟨n, hn⟩ :=
              unwrapLoop_events oracle
                ((Val.lookupField fs₁ "server").getD .vnull) none elems
                (.vdict fs₁) []
            rcases hlp : unwrapLoop oracle
                ((Val.lookupField fs₁ "server").getD .vnull) none
                (.vdict fs₁) elems [] with ⟨evs, out⟩
            rw [hlp] at hn
            rcases out with e2 | r₂
            · exact evsUse_of_map (by simpa using hn)
            · rcases hpost : checkResultPost true
                  ((Val.lookupField fs₁ "misc_data").getD (.vdict [])) r₂
                  (some ((Val.lookupField fs₁ "server").getD .vnull))
                  with o | e3 <;>
                simp only [hpost] <;>
                exact evsUse_of_map (by simpa using hn)
      · simp only [hdw, Bool.false_eq_true, if_false, ite_false]
        rcases hpost : checkResultPost true
            ((Val.lookupField fs₁ "misc_data").getD (.vdict [])) (.vdict fs₁)
            none with o | e3 <;>
          simp [hpost, evsUse_nil]
  · rw [check_result]
    simp only [Bool.not_eq_true] at htr
    simp [htr, evsUse_nil]

/-- Raising the deferred expiry: with the `config_expired` flag set, the
post-unwrap step raises `VaultConfigExpired` before touching
`misc_data`. -/
theorem checkResultPost_true (misc r : Val) (uc : Option Val) :
    checkResultPost true misc r uc = .error .configExpired := rfl

/-- C3.  For a truthy dict response without an `error` field but with a
truthy `expire_cache` flag, whenever the unwrap loop runs to completion
(each wrapped pointer replaced by its resolved `auth`/`data` content,
per `unwrapIter`), `check_result` raises `VaultConfigExpired` only
*after* the loop: its outcome carries exactly the loop's unwrap events
together with the deferred expiry error. -/
theorem check_result_unwraps_before_expiry
    (oracle : Val → Val → Option String → Val) (opts : Option Val)
    (fs : List (String × Val)) (uc : Option Val) (path : Option String)
    (p : CRPrep) (ucS : Val) (elems : List Val) (evs : List UnwrapEvent)
    (r₂ : Val)
    (htr : (Val.vdict fs).truthy = true)
    (herr : Val.hasField fs "error" = false)
    (hec : ((Val.lookupField fs "expire_cache").getD (.vbool false)).truthy
      = true)
    (hprep : crPrepare opts fs uc path = .ok p)
    (hdw : crDoWrap p.fs₁ = true)
    (hcl : crClient p.fs₁ p.uc₁ = .ok ucS)
    (hel : crElems p.fs₁ = .ok elems)
    (hlp : unwrapLoop oracle ucS p.path₁ (.vdict p.fs₁) elems []
      = (evs, .ok r₂)) :
    check_result oracle opts (.vdict fs) uc path
      = ⟨evs, .error .configExpired⟩ := by
  have hce : p.ce₁ = true := by
    obtain ⟨fs₁, _hsn, hpb⟩ := map_ok hprep
    rw [← hpb]
    simp [crBuild, hec]
  rw [check_result]
  simp only [htr, Bool.not_true, if_false, ite_false]
  simp only [herr, Bool.false_eq_true, if_false, ite_false]
  rw [checkResultMain, hprep]
  simp only [hdw, if_true, ite_true, hcl, hel, hlp]
  rw [hce, checkResultPost_true]

/-- Witness for C3: on the concrete response both wrapped payloads are
unwrapped and only then is `VaultConfigExpired` raised. -/
theorem check_result_unwraps_before_expiry_witness :
    check_result constOracle none (.vdict c3Fields) none none
      = ⟨c3Events, .error .configExpired⟩ := by
  have htr : (Val.vdict c3Fields).truthy = true := rfl
  have herr : Val.hasField c3Fields "error" = false := rfl
  have hec : ((Val.lookupField c3Fields "expire_cache").getD
      (.vbool false)).truthy = true := rfl
  have hprep : crPrepare none c3Fields none none = .ok c3Prep := rfl
  have hdw : crDoWrap c3Prep.fs₁ = true := rfl
  have hcl : crClient c3Prep.fs₁ c3Prep.uc₁ = .ok cServerNorm := rfl
  have hel : crElems c3Prep.fs₁ = .ok [.vstr "", .vstr "secret_id"] := rfl
  have hlp : unwrapLoop constOracle cServerNorm c3Prep.path₁
      (.vdict c3Prep.fs₁) [.vstr "", .vstr "secret_id"] []
      = (c3Events, .ok c3Result) := rfl
  exact check_result_unwraps_before_expiry constOracle none c3Fields none none
    c3Prep cServerNorm [.vstr "", .vstr "secret_id"] c3Events c3Result
    htr herr hec hprep hdw hcl hel hlp

/-- Witness for C2: with a stale client bound to `https://old` and a
response reporting `https://v`, both unwraps use the freshly derived
client bound to the reported server, and two unwraps do happen. -/
theorem check_result_mismatch_fresh_client_witness :
    EvsUse (check_result constOracle none (.vdict c2Fields)
        (some c2StaleServer) none).events
      ((Val.lookupField c2NormFields "server").getD .vnull) ∧
    (check_result constOracle none (.vdict c2Fields)
        (some c2StaleServer) none).events.length = 2 := by
  have hsn : serverNormalize none c2Fields = .ok c2NormFields := rfl
  have hne : Val.pyEq ((Val.lookupField c2NormFields "server").getD .vnull)
      c2StaleServer = false := rfl
  have hlen : (check_result constOracle none (.vdict c2Fields)
      (some c2StaleServer) none).events.length = 2 := rfl
  refine ⟨?_, hlen⟩
  exact check_result_mismatch_fresh_client constOracle none c2Fields
    c2NormFields c2StaleServer none hsn hne

theorem Val.lookup_setField_self (fs : List (String × Val)) (k : String)
    (v : Val) : Val.lookupField (Val.setField fs k v) k = some v := by
  induction fs with
  | nil => simp [Val.setField, Val.lookupField]
  | cons hd tl ih =>
      obtain ⟨k', v'⟩ := hd
      by_cases hk : k' = k
      · simp [Val.setField, hk, Val.lookupField]
      · simp [Val.setField, hk, Val.lookupField, ih]

theorem Val.lookup_setField_ne (fs : List (String × Val)) (k' k : String)
    (v : Val) (h : k' ≠ k) :
    Val.lookupField (Val.setField fs k' v) k = Val.lookupField fs k := by
  induction fs with
  | nil => simp [Val.setField, Val.lookupField, h]
  | cons hd tl ih =>
      obtain ⟨k₀, v₀⟩ := hd
      by_cases hk : k₀ = k'
      · subst hk
        have hne : k₀ ≠ k := h
        simp [Val.setField, Val.lookupField, hne]
      · simp [Val.setField, hk, Val.lookupField, ih]

theorem Val.lookup_removeField_ne (fs : List (String × Val)) (k' k : String)
    (h : k' ≠ k) :
    Val.lookupField (Val.removeField fs k') k = Val.lookupField fs k := by
  induction fs with
  | nil => simp [Val.removeField]
  | cons hd tl ih =>
      obtain ⟨k₀, v₀⟩ := hd
      by_cases hk : k₀ = k'
      · subst hk
        have hne : k₀ ≠ k := h
        simp [Val.removeField, Val.lookupField, hne]
      · simp [Val.removeField, hk, Val.lookupField, ih]

/-- Validation never modifies the configuration it validates. -/
theorem validateConfig_ok_eq {x y : Val} (h : validateConfig x = .ok y) :
    y = x := by
  unfold validateConfig at h
  obtain ⟨auth, _h1, h⟩ := bind_ok h
  obtain ⟨method, _h2, h⟩ := bind_ok h
  obtain ⟨u, _h3, h⟩ := bind_ok h
  obtain ⟨server, _h4, h⟩ := bind_ok h
  obtain ⟨b, _h5, h⟩ := bind_ok h
  split at h
  · exact absurd h (by simp)
  · simp only [pure, Except.pure, Except.ok.injEq] at h
    exact h.symm

/-- `spec scenario check`: the defaulted resolution of a minimal token
configuration has `cache:backend = "session"` and
`auth:token_lifecycle:minimum_ttl = 10`. -/
theorem parse_config_defaults_scenario :
    (do let m ← parse_config
          (.vdict [("auth", .vdict [("method", .vstr "token"),
             ("token", .vstr "t1")]),
           ("server", .vdict [("url", .vstr "https://x")])]) true none
        configGet2 m "cache" "backend") = .ok (.vstr "session") ∧
    (do let m ← parse_config
          (.vdict [("auth", .vdict [("method", .vstr "token"),
             ("token", .vstr "t1")]),
           ("server", .vdict [("url", .vstr "https://x")])]) true none
        let tl ← configGet2 m "auth" "token_lifecycle"
        tl.getItem "minimum_ttl") = .ok (.vint 10) := ⟨rfl, rfl⟩

/-- A successful `parse_config` is a successful merge-and-migrate (the
validation pass returns the tree unchanged). -/
theorem parse_config_ok_merge {c : Val} {validate : Bool} {opts : Option Val}
    {m : Val} (h : parse_config c validate opts = .ok m) :
    mergeAndMigrate c opts = .ok m := by
  unfold parse_config at h
  rcases hi : (do
      let m ← mergeAndMigrate c opts
      if validate then validateConfig m else pure m : Except Err Val)
    with e | v
  · rw [hi] at h
    rcases e with _ | _ | _ | msg | _ | _ | _ | _ <;> simp at h
  · rw [hi] at h
    have hvm : v = m := by simpa using h
    subst hvm
    obtain ⟨m₀, hmm, hval⟩ := bind_ok hi
    by_cases hval' : validate = true
    · rw [if_pos hval'] at hval
      rw [validateConfig_ok_eq hval]
      exact hmm
    · rw [if_neg hval'] at hval
      simp only [pure, Except.pure, Except.ok.injEq] at hval
      rw [← hval]
      exact hmm

/-- A successful merge-and-migrate factors through the local-override
step. -/
theorem mergeAndMigrate_ok_inv {c : Val} {opts : Option Val} {m : Val}
    (h : mergeAndMigrate c opts = .ok m) :
    ∃ m₆, applyLocalOverrides m₆ opts = .ok m := by
  unfold mergeAndMigrate at h
  obtain ⟨c₁, _, h⟩ := bind_ok h
  obtain ⟨m1, _, h⟩ := bind_ok h
  obtain ⟨m2, _, h⟩ := bind_ok h
  obtain ⟨m3, _, h⟩ := bind_ok h
  obtain ⟨m4, _, h⟩ := bind_ok h
  obtain ⟨m5, _, h⟩ := bind_ok h
  exact ⟨m5, h⟩

/-- A root-level local `verify` ends up verbatim as the resulting
`server:verify`. -/
theorem applyVerifyOverride_root
    {m₆ : Val} {lcfs : List (String × Val)} {v m₇ : Val}
    (hlv : Val.lookupField lcfs "verify" = some v)
    (h : applyVerifyOverride m₆ (.vdict lcfs) = .ok m₇) :
    configGet2 m₇ "server" "verify" = .ok v := by
  unfold applyVerifyOverride at h
  obtain ⟨vOpt, hvo, h⟩ := bind_ok h
  have hvo' : vOpt = some v := by
    simp only [Val.getOpt, hlv, Except.ok.injEq] at hvo
    exact hvo.symm
  subst hvo'
  obtain ⟨server, hs, h⟩ := bind_ok h
  obtain ⟨server', hs', h⟩ := bind_ok h
  obtain ⟨m₆fs, rfl, hlk⟩ := getItem_ok hs
  obtain ⟨sfs, rfl, rfl⟩ := setItem_ok hs'
  have hm := setItem_vdict_ok h
  subst hm
  simp [configGet2, Val.getItem, Val.lookup_setField_self, okBind]

/-- With no root-level local `verify`, a local `server:verify` ends up
verbatim as the resulting `server:verify`. -/
theorem applyVerifyOverride_server
    {m₆ : Val} {lcfs sfs : List (String × Val)} {v m₇ : Val}
    (hnone : Val.lookupField lcfs "verify" = none)
    (hlsrv : Val.lookupField lcfs "server" = some (.vdict sfs))
    (hsv : Val.lookupField sfs "verify" = some v)
    (h : applyVerifyOverride m₆ (.vdict lcfs) = .ok m₇) :
    configGet2 m₇ "server" "verify" = .ok v := by
  unfold applyVerifyOverride at h
  obtain ⟨vOpt, hvo, h⟩ := bind_ok h
  have hvo' : vOpt = none := by
    simp only [Val.getOpt, hnone, Except.ok.injEq] at hvo
    exact hvo.symm
  subst hvo'
  simp only [] at h
  obtain ⟨lsrv, hls, h⟩ := bind_ok h
  have hls' : lsrv = .vdict sfs := by
    simp only [Val.getD, hlsrv, Except.ok.injEq] at hls
    exact hls.symm
  subst hls'
  obtain ⟨v2, hv2, h⟩ := bind_ok h
  have hv2' : v2 = some v := by
    simp only [Val.getOpt, hsv, Except.ok.injEq] at hv2
    exact hv2.symm
  subst hv2'
  obtain ⟨server, hs, h⟩ := bind_ok h
  obtain ⟨server', hs', h⟩ := bind_ok h
  obtain ⟨m₆fs, rfl, hlk⟩ := getItem_ok hs
  obtain ⟨sfs0, rfl, rfl⟩ := setItem_ok hs'
  have hm := setItem_vdict_ok h
  subst hm
  simp [configGet2, Val.getItem, Val.lookup_setField_self, okBind]

/-- The lifecycle-override step never touches the `server` section. -/
theorem applyLifecycleOverride_server
    {m₇ lc m : Val} (h : applyLifecycleOverride m₇ lc = .ok m) :
    configGet2 m "server" "verify" = configGet2 m₇ "server" "verify" := by
  unfold applyLifecycleOverride at h
  obtain ⟨lauth, _hla, h⟩ := bind_ok h
  obtain ⟨tl₀, _htl, h⟩ := bind_ok h
  split at h
  · obtain ⟨auth, hau, h⟩ := bind_ok h
    obtain ⟨auth', _hau', h⟩ := bind_ok h
    rcases m₇ with _ | _ | _ | _ | _ | m₇fs <;> simp [Val.getItem] at hau
    simp only [Val.setItem, Except.ok.injEq] at h
    rw [← h]
    simp [configGet2, Val.getItem,
      Val.lookup_setField_ne m₇fs "auth" "server" _ (by decide)]
  · simp only [pure, Except.pure, Except.ok.injEq] at h
    rw [← h]

/-- A truthy local `auth:token_lifecycle` ends up verbatim in the
resulting auth section. -/
theorem applyLifecycleOverride_set
    {m₇ : Val} {lcfs lafs : List (String × Val)} {tl m : Val}
    (hla : Val.lookupField lcfs "auth" = some (.vdict lafs))
    (hltl : Val.lookupField lafs "token_lifecycle" = some tl)
    (htt : tl.truthy = true)
    (h : applyLifecycleOverride m₇ (.vdict lcfs) = .ok m) :
    configGet2 m "auth" "token_lifecycle" = .ok tl := by
  unfold applyLifecycleOverride at h
  obtain ⟨lauth, hla0, h⟩ := bind_ok h
  have hla' : lauth = .vdict lafs := by
    simp only [Val.getD, hla, Except.ok.injEq] at hla0
    exact hla0.symm
  subst hla'
  obtain ⟨tl₀, htl0, h⟩ := bind_ok h
  have htl' : tl₀ = tl := by
    simp only [Val.getD, hltl, Except.ok.injEq] at htl0
    exact htl0.symm
  subst htl'
  rw [if_pos htt] at h
  obtain ⟨auth, hau, h⟩ := bind_ok h
  obtain ⟨auth', hau', h⟩ := bind_ok h
  obtain ⟨m₇fs, rfl, hlk⟩ := getItem_ok hau
  obtain ⟨afs0, rfl, rfl⟩ := setItem_ok hau'
  have hm := setItem_vdict_ok h
  subst hm
  simp [configGet2, Val.getItem, Val.lookup_setField_self, okBind]

/-- The local-override step forces the locally configured `verify`
(root, else `server:verify`) and a truthy local `auth:token_lifecycle`
into the result, whatever the merged tree held. -/
theorem applyLocalOverrides_spec
    (m₆ : Val) (ofs lcfs : List (String × Val)) (m : Val)
    (hv : Val.lookupField ofs "vault" = some (.vdict lcfs))
    (h : applyLocalOverrides m₆ (some (.vdict ofs)) = .ok m) :
    (∀ v, Val.lookupField lcfs "verify" = some v →
       configGet2 m "server" "verify" = .ok v) ∧
    (∀ sfs v, Val.lookupField lcfs "verify" = none →
       Val.lookupField lcfs "server" = some (.vdict sfs) →
       Val.lookupField sfs "verify" = some v →
       configGet2 m "server" "verify" = .ok v) ∧
    (∀ lafs tl, Val.lookupField lcfs "auth" = some (.vdict lafs) →
       Val.lookupField lafs "token_lifecycle" = some tl →
       tl.truthy = true →
       configGet2 m "auth" "token_lifecycle" = .ok tl) := by
  simp only [applyLocalOverrides] at h
  obtain ⟨b, hb, h⟩ := bind_ok h
  have hb' : b = true := by
    simp only [Val.mem, Except.ok.injEq] at hb
    rw [← hb]
    simp [Val.hasField, hv]
  subst hb'
  rw [if_pos rfl] at h
  obtain ⟨lc, hlc, h⟩ := bind_ok h
  have hlc' : lc = .vdict lcfs := by
    simp only [Val.getItem, hv, Except.ok.injEq] at hlc
    exact hlc.symm
  subst hlc'
  obtain ⟨m₇, hm₇, h⟩ := bind_ok h
  refine ⟨?_, ?_, ?_⟩
  · intro v hlv
    rw [applyLifecycleOverride_server h]
    exact applyVerifyOverride_root hlv hm₇
  · intro sfs v hnone hlsrv hsv
    rw [applyLifecycleOverride_server h]
    exact applyVerifyOverride_server hnone hlsrv hsv hm₇
  · intro lafs tl hlauth hltl htt
    exact applyLifecycleOverride_set hlauth hltl htt h

/-- C7.  Local override precedence: whenever `parse_config` is given
local opts whose `vault` entry supplies a `verify` value (at the root,
or under `server` when absent at the root) or a truthy (non-empty)
`auth:token_lifecycle` mapping, the resolved configuration carries
exactly the local values for `server:verify` and
`auth:token_lifecycle`, regardless of the raw (possibly
remotely-supplied) configuration and of legacy-key migration. -/
theorem parse_config_local_overrides
    (c : Val) (validate : Bool) (ofs lcfs : List (String × Val)) (m : Val)
    (hv : Val.lookupField ofs "vault" = some (.vdict lcfs))
    (hok : parse_config c validate (some (.vdict ofs)) = .ok m) :
    (∀ v, Val.lookupField lcfs "verify" = some v →
       configGet2 m "server" "verify" = .ok v) ∧
    (∀ sfs v, Val.lookupField lcfs "verify" = none →
       Val.lookupField lcfs "server" = some (.vdict sfs) →
       Val.lookupField sfs "verify" = some v →
       configGet2 m "server" "verify" = .ok v) ∧
    (∀ lafs tl, Val.lookupField lcfs "auth" = some (.vdict lafs) →
       Val.lookupField lafs "token_lifecycle" = some tl →
       tl.truthy = true →
       configGet2 m "auth" "token_lifecycle" = .ok tl) := by
  obtain ⟨m₆, h⟩ := mergeAndMigrate_ok_inv (parse_config_ok_merge hok)
  exact applyLocalOverrides_spec m₆ ofs lcfs m hv h

/-- Witness for C7 at a concrete raw configuration carrying conflicting
remote values for both settings: the local root `verify`, the local
`server:verify`, and the local `token_lifecycle` all win. -/
theorem parse_config_local_overrides_witness :
    (do let m ← parse_config c7Raw true (some (.vdict c7Ofs))
        configGet2 m "server" "verify") = .ok (.vstr "/local/ca") ∧
    (do let m ← parse_config c7Raw true (some (.vdict c7Ofs))
        configGet2 m "auth" "token_lifecycle")
      = .ok (.vdict [("minimum_ttl", .vint 42)]) ∧
    (do let m ← parse_config c7Raw true (some (.vdict c7Ofs2))
        configGet2 m "server" "verify") = .ok (.vbool false) := by
  refine ⟨?_, ?_, ?_⟩
  · have hIsOk : (parse_config c7Raw true (some (.vdict c7Ofs))).isOk = true := rfl
    rcases hok : parse_config c7Raw true (some (.vdict c7Ofs)) with e | m
    · rw [hok] at hIsOk
      simp [Except.isOk, Except.toBool] at hIsOk
    · show configGet2 m "server" "verify" = .ok (.vstr "/local/ca")
      exact (parse_config_local_overrides c7Raw true c7Ofs c7Lc m rfl hok).1
        _ rfl
  · have hIsOk : (parse_config c7Raw true (some (.vdict c7Ofs))).isOk = true := rfl
    rcases hok : parse_config c7Raw true (some (.vdict c7Ofs)) with e | m
    · rw [hok] at hIsOk
      simp [Except.isOk, Except.toBool] at hIsOk
    · show configGet2 m "auth" "token_lifecycle"
        = .ok (.vdict [("minimum_ttl", .vint 42)])
      exact (parse_config_local_overrides c7Raw true c7Ofs c7Lc m rfl hok).2.2
        _ _ rfl rfl rfl
  · have hIsOk : (parse_config c7Raw true (some (.vdict c7Ofs2))).isOk = true := rfl
    rcases hok : parse_config c7Raw true (some (.vdict c7Ofs2)) with e | m
    · rw [hok] at hIsOk
      simp [Except.isOk, Except.toBool] at hIsOk
    · show configGet2 m "server" "verify" = .ok (.vbool false)
      exact (parse_config_local_overrides c7Raw true c7Ofs2 c7Lc2 m rfl hok).2.1
        _ _ rfl rfl rfl

/-- On a dict auth section, the auth-method checks either pass or raise
an `AssertionError` (never any other exception). -/
theorem validateAuthMethod_vdict (afs : List (String × Val)) (method : Val) :
    validateAuthMethod (.vdict afs) method = .ok () ∨
    ∃ msg, validateAuthMethod (.vdict afs) method
      = .error (.assertionError msg) := by
  unfold validateAuthMethod
  split
  · simp only [mem_vdict, okBind]
    split
    · exact .inr ⟨_, rfl⟩
    · exact .inl rfl
  · split
    · simp only [mem_vdict, okBind]
      split
      · exact .inr ⟨_, rfl⟩
      · exact .inl rfl
    · exact .inr ⟨_, rfl⟩

/-- When the merged `server` section is a mapping without a `url` key
(and the auth section is a mapping carrying a `method`), validation
raises an `AssertionError`. -/
theorem validateConfig_no_url
    {merged method : Val} {afs sfs : List (String × Val)}
    (hA : merged.getItem "auth" = .ok (.vdict afs))
    (hM : Val.lookupField afs "method" = some method)
    (hS : merged.getItem "server" = .ok (.vdict sfs))
    (hU : Val.hasField sfs "url" = false) :
    ∃ msg, validateConfig merged = .error (.assertionError msg) := by
  unfold validateConfig
  rw [hA]
  simp only [okBind]
  have hm : (Val.vdict afs).getItem "method" = .ok method := by
    simp [Val.getItem, hM]
  rw [hm]
  simp only [okBind]
  rcases validateAuthMethod_vdict afs method with hv | ⟨msg, hv⟩
  · rw [hv]
    simp only [okBind]
    rw [hS]
    simp only [okBind, mem_vdict, hU]
    exact ⟨_, rfl⟩
  · rw [hv, errBind]
    exact ⟨msg, rfl⟩

/-- C9 (amended).  When the configuration that results from merge and
legacy-key migration has a mapping-valued `server` section with no
`url` key (and a mapping-valued auth section carrying a `method`, so
that the auth-method checks can run), `parse_config` with
`validate = true` fails with `InvalidConfigError`.  The unamended
universal claim is refuted by `parse_config_missing_url_accepted`:
the `"url" not in merged["server"]` check uses Python membership, which
on a string-valued `server` section tests for a substring, so such a
configuration passes validation without any `server:url` entry. -/
theorem parse_config_requires_url
    (c : Val) (opts : Option Val) (merged method : Val)
    (afs sfs : List (String × Val))
    (hmm : mergeAndMigrate c opts = .ok merged)
    (hA : merged.getItem "auth" = .ok (.vdict afs))
    (hM : Val.lookupField afs "method" = some method)
    (hS : merged.getItem "server" = .ok (.vdict sfs))
    (hU : Val.hasField sfs "url" = false) :
    ∃ msg, parse_config c true opts = .error (.invalidConfigError msg) := by
  obtain ⟨msg, hv⟩ := validateConfig_no_url hA hM hS hU
  refine ⟨msg, ?_⟩
  have hinner : (do
      let m ← mergeAndMigrate c opts
      if true then validateConfig m else pure m : Except Err Val)
      = .error (.assertionError msg) := by
    rw [hmm]
    simp only [okBind]
    rw [if_pos trivial]
    exact hv
  unfold parse_config
  rw [hinner]

/-- C9 counterexample: a configuration that after merge and migration
lacks any `server:url` entry (its `server` section is the plain string
`"_url_"`) is nevertheless accepted by `parse_config` with
`validate = true`, because the `"url" not in merged["server"]` check
uses Python membership, i.e. substring containment on strings. -/
theorem parse_config_missing_url_accepted :
    (parse_config c9Cex true none).isOk = true ∧
    (do let m ← parse_config c9Cex true none
        m.getItem "server") = .ok (.vstr "_url_") := ⟨rfl, rfl⟩

/-- Witness for the amended C9 statement: the default `server` section
carries no `url`, and validation of such a configuration indeed fails
with `InvalidConfigError`. -/
theorem parse_config_requires_url_witness :
    Val.hasField c9Sfs "url" = false ∧
    ∃ msg, parse_config c9Wit true none = .error (.invalidConfigError msg) :=
  ⟨rfl, parse_config_requires_url c9Wit none c9Merged (.vstr "token")
    c9Afs c9Sfs rfl rfl rfl rfl rfl⟩

/-- Counterexample to C1: the local plain-token verification path of
`_fetch_token` stores the looked-up token into the token cache
*unconditionally* — here a credential with `num_uses = 1` is stored. -/
theorem fetch_token_caches_singleuse_local :
    fetch_token fetchTokenCexWorld
      = .ok (fetchTokenCexStored, [fetchTokenCexStored]) ∧
    tokenNumUses fetchTokenCexStored = 1 := ⟨rfl, rfl⟩

/-- C1 (amended).  Credentials obtained through the master-issued
(`cache_or_fetch`) path of `_fetch_token` and through `_fetch_secret_id`
(any run type) are never stored into their cache when their
remaining-uses counter is 1; only the local plain-token verification
path stores unconditionally. -/
theorem fetch_no_singleuse_cached (wt : FetchTokenWorld)
    (ws : FetchSecretIdWorld) :
    (wt.runLocal = false →
       ∀ tok stored, fetch_token wt = .ok (tok, stored) →
         stored.all (fun t => tokenNumUses t != 1) = true) ∧
    (∀ sid stored, fetch_secret_id ws = .ok (sid, stored) →
       stored.all (fun s => secretIdNumUses s != 1) = true) := by
  constructor
  · intro hrl tok stored hok
    replace hok : fetchTokenRemote wt = .ok (tok, stored) := by
      unfold fetch_token at hok
      rw [hrl] at hok
      simpa using hok
    unfold fetchTokenRemote at hok
    rcases hc : wt.cacheGet10 with _ | t <;> rw [hc] at hok
    · obtain ⟨token, _hE, hif⟩ := bind_ok hok
      by_cases hP : tokenNumUses token ≠ 1
      · rw [if_pos hP] at hif
        obtain ⟨h1, h2⟩ := by simpa using hif
        subst h2
        simpa [List.all_cons] using hP
      · rw [if_neg hP] at hif
        obtain ⟨_, h2⟩ := by simpa using hif
        subst h2
        simp
    · obtain ⟨_, h2⟩ := by simpa using hok
      subst h2
      simp
  · intro sid stored hok
    unfold fetch_secret_id at hok
    by_cases hrl : ws.runLocal = true <;> simp only [hrl, if_true, if_false,
      Bool.false_eq_true, if_neg, ite_false, Bool.not_eq_true] at hok
    · split at hok
      all_goals first
        | (split at hok
           · (obtain ⟨_, h2⟩ := by simpa using hok
              subst h2
              simp)
           · simp at hok)
        | (rename_i sfs heq
           by_cases hw : ((Val.lookupField sfs "wrap_info").getD Val.vnull).truthy = true
           · (rw [if_pos hw] at hok
              obtain ⟨wi, _hwi, hok2⟩ := bind_ok hok
              obtain ⟨wtok, _hwt, hok3⟩ := bind_ok hok2
              obtain ⟨dat, _hd, hok4⟩ := bind_ok hok3
              obtain ⟨_, h2⟩ := by simpa using hok4
              subst h2
              simp)
           · (rw [if_neg hw] at hok
              obtain ⟨_, h2⟩ := by simpa using hok
              subst h2
              simp))
    · rcases hc : ws.cacheGet with _ | c <;> rw [hc] at hok
      · obtain ⟨dat, _hd, hok2⟩ := bind_ok hok
        obtain ⟨s, _hs, hok3⟩ := bind_ok hok2
        by_cases hP : secretIdNumUses s ≠ 1
        · rw [if_pos hP] at hok3
          obtain ⟨h1, h2⟩ := by simpa using hok3
          subst h2
          simpa [List.all_cons] using hP
        · rw [if_neg hP] at hok3
          obtain ⟨_, h2⟩ := by simpa using hok3
          subst h2
          simp
      · obtain ⟨_, h2⟩ := by simpa using hok
        subst h2
        simp

/-- Witness for the amended C1 at concrete worlds: a master-issued token
with `num_uses = 3` is stored, a master-issued secret id with
`secret_id_num_uses = 1` is not. -/
theorem fetch_no_singleuse_cached_witness :
    ((Val.vdict [("client_token", .vstr "t"), ("num_uses", .vint 3)]
        :: ([] : List Val)).all (fun t => tokenNumUses t != 1) = true) ∧
    (([] : List Val).all (fun s => secretIdNumUses s != 1) = true) := by
  constructor
  · exact (fetch_no_singleuse_cached
      { runLocal := false, method := .vstr "token", embedded := none,
        cacheGet10 := none, cacheGet := none,
        queryResult := .vdict [("auth", .vdict [("client_token", .vstr "t"),
          ("num_uses", .vint 3)])],
        unwrap := fun _ => .vnull, lookupStatus := 200, lookupData := .vnull,
        isValid10 := fun _ => true, strToken := fun _ => .vnull }
      { runLocal := false, authSecretId := .vnull, cacheGet := none,
        queryResult := .vdict [("data", .vdict [("secret_id", .vstr "s"),
          ("secret_id_num_uses", .vint 1)])],
        unwrap := fun _ => .vnull }).1 rfl _ _ rfl
  · exact (fetch_no_singleuse_cached
      { runLocal := false, method := .vstr "token", embedded := none,
        cacheGet10 := none, cacheGet := none,
        queryResult := .vdict [("auth", .vdict [("client_token", .vstr "t"),
          ("num_uses", .vint 3)])],
        unwrap := fun _ => .vnull, lookupStatus := 200, lookupData := .vnull,
        isValid10 := fun _ => true, strToken := fun _ => .vnull }
      { runLocal := false, authSecretId := .vnull, cacheGet := none,
        queryResult := .vdict [("data", .vdict [("secret_id", .vstr "s"),
          ("secret_id_num_uses", .vint 1)])],
        unwrap := fun _ => .vnull }).2 _ _ rfl

/-- A successful `pop` shows the container was a dict holding the key,
and gives both results. -/
theorem pop_ok {v : Val} {k : String} {x v' : Val}
    (h : v.pop k = .ok (x, v')) :
    ∃ fs, v = .vdict fs ∧ Val.lookupField fs k = some x ∧
      v' = .vdict (Val.removeField fs k) := by
  cases v with
  | vdict fs =>
      refine ⟨fs, rfl, ?_⟩
      simp only [Val.pop] at h
      split at h
      · rename_i y hy
        injection h with h
        injection h with h1 h2
        exact ⟨by rw [hy, h1], h2.symm⟩
      · exact Except.noConfusion h
  | vnull => exact Except.noConfusion h
  | vbool b => exact Except.noConfusion h
  | vint n => exact Except.noConfusion h
  | vstr s => exact Except.noConfusion h
  | vlist xs => exact Except.noConfusion h

/-- A successful `pop(k, None)` shows the container was a dict, and
gives both results. -/
theorem popD_ok {v : Val} {k : String} {t : Option Val} {v' : Val}
    (h : v.popD k = .ok (t, v')) :
    ∃ fs, v = .vdict fs ∧ t = Val.lookupField fs k ∧
      v' = .vdict (Val.removeField fs k) := by
  cases v with
  | vdict fs =>
      simp only [Val.popD] at h
      injection h with h
      injection h with h1 h2
      exact ⟨fs, rfl, h1.symm, h2.symm⟩
  | vnull => exact Except.noConfusion h
  | vbool b => exact Except.noConfusion h
  | vint n => exact Except.noConfusion h
  | vstr s => exact Except.noConfusion h
  | vlist xs => exact Except.noConfusion h

/-- A successful `get(k, dflt)` shows the container was a dict, and
gives the result. -/
theorem getD_ok {v : Val} {k : String} {d x : Val}
    (h : v.getD k d = .ok x) :
    ∃ fs, v = .vdict fs ∧ x = (Val.lookupField fs k).getD d := by
  cases v with
  | vdict fs =>
      simp only [Val.getD] at h
      injection h with h
      exact ⟨fs, rfl, h.symm⟩
  | vnull => exact Except.noConfusion h
  | vbool b => exact Except.noConfusion h
  | vint n => exact Except.noConfusion h
  | vstr s => exact Except.noConfusion h
  | vlist xs => exact Except.noConfusion h

/-- Writing a key other than `auth` leaves the auth entry unchanged. -/
theorem getAuth_setItem_ne {m m' : Val} {k : String} {x : Val}
    (hk : k ≠ "auth") (h : m.setItem k x = .ok m') :
    m'.getItem "auth" = m.getItem "auth" := by
  obtain ⟨fs, rfl, rfl⟩ := setItem_ok h
  simp [Val.getItem, Val.lookup_setField_ne fs k "auth" x hk]

/-- Writing the `auth` key makes the written value the auth entry. -/
theorem getAuth_setItem_self {m m' : Val} {x : Val}
    (h : m.setItem "auth" x = .ok m') :
    m'.getItem "auth" = .ok x := by
  obtain ⟨fs, rfl, rfl⟩ := setItem_ok h
  simp [Val.getItem, Val.lookup_setField_self]

/-- Key presence after an update: the written key is present, the rest
is unchanged. -/
theorem Val.hasField_setField (fs : List (String × Val)) (k j : String)
    (v : Val) :
    Val.hasField (Val.setField fs k v) j =
      if k = j then true else Val.hasField fs j := by
  induction fs with
  | nil =>
      by_cases h : k = j <;>
        simp [Val.setField, Val.hasField, Val.lookupField, h]
  | cons p rest ih =>
      obtain ⟨k', v'⟩ := p
      simp only [Val.setField]
      by_cases h1 : k' = k
      · rw [if_pos h1]
        subst h1
        by_cases h2 : k' = j <;>
          simp [Val.hasField, Val.lookupField, h2]
      · rw [if_neg h1]
        by_cases h2 : k' = j
        · simp [Val.hasField, Val.lookupField, h2]
        · simp only [Val.hasField, Val.lookupField, if_neg h2]
          exact ih

/-- Key presence survives removal of another key. -/
theorem Val.hasField_removeField_imp (fs : List (String × Val))
    (k j : String)
    (h : Val.hasField (Val.removeField fs k) j = true) :
    Val.hasField fs j = true := by
  induction fs with
  | nil => simpa [Val.removeField] using h
  | cons p rest ih =>
      obtain ⟨k', v'⟩ := p
      simp only [Val.removeField] at h
      by_cases h1 : k' = k
      · rw [if_pos h1] at h
        by_cases h2 : k' = j
        · simp [Val.hasField, Val.lookupField, h2]
        · simp only [Val.hasField, Val.lookupField, if_neg h2]
          exact h
      · rw [if_neg h1] at h
        by_cases h2 : k' = j
        · simp [Val.hasField, Val.lookupField, h2]
        · simp only [Val.hasField, Val.lookupField, if_neg h2] at h ⊢
          exact ih h

/-- Updating a key preserves key uniqueness. -/
theorem Val.keysNodup_setField (fs : List (String × Val)) (k : String)
    (v : Val) (h : Val.keysNodup fs = true) :
    Val.keysNodup (Val.setField fs k v) = true := by
  induction fs with
  | nil => simp [Val.setField, Val.keysNodup, Val.hasField, Val.lookupField]
  | cons p rest ih =>
      obtain ⟨k', v'⟩ := p
      simp only [Val.keysNodup, Bool.and_eq_true, Bool.not_eq_true'] at h
      obtain ⟨h1, h2⟩ := h
      simp only [Val.setField]
      by_cases hk : k' = k
      · rw [if_pos hk]
        simp only [Val.keysNodup, Bool.and_eq_true, Bool.not_eq_true']
        exact ⟨h1, h2⟩
      · rw [if_neg hk]
        simp only [Val.keysNodup, Bool.and_eq_true, Bool.not_eq_true']
        refine ⟨?_, ih h2⟩
        rw [Val.hasField_setField, if_neg (fun hh => hk hh.symm)]
        exact h1

/-- Removing a key preserves key uniqueness. -/
theorem Val.keysNodup_removeField (fs : List (String × Val)) (k : String)
    (h : Val.keysNodup fs = true) :
    Val.keysNodup (Val.removeField fs k) = true := by
  induction fs with
  | nil => exact h
  | cons p rest ih =>
      obtain ⟨k', v'⟩ := p
      simp only [Val.keysNodup, Bool.and_eq_true, Bool.not_eq_true'] at h
      obtain ⟨h1, h2⟩ := h
      simp only [Val.removeField]
      by_cases hk : k' = k
      · rw [if_pos hk]
        exact h2
      · rw [if_neg hk]
        simp only [Val.keysNodup, Bool.and_eq_true, Bool.not_eq_true']
        refine ⟨?_, ih h2⟩
        cases hc : Val.hasField (Val.removeField rest k) k'
        · rfl
        · exact absurd (Val.hasField_removeField_imp rest k k' hc)
            (by simp [h1])

/-- With unique keys, removing a key really removes it. -/
theorem Val.hasField_removeField_self (fs : List (String × Val))
    (k : String) (h : Val.keysNodup fs = true) :
    Val.hasField (Val.removeField fs k) k = false := by
  induction fs with
  | nil => simp [Val.removeField, Val.hasField, Val.lookupField]
  | cons p rest ih =>
      obtain ⟨k', v'⟩ := p
      simp only [Val.keysNodup, Bool.and_eq_true, Bool.not_eq_true'] at h
      obtain ⟨h1, h2⟩ := h
      simp only [Val.removeField]
      by_cases hk : k' = k
      · rw [if_pos hk]
        subst hk
        exact h1
      · rw [if_neg hk]
        simp only [Val.hasField, Val.lookupField, if_neg hk]
        exact ih h2

/-- Lookup distributes over concatenation (first occurrence wins). -/
theorem Val.lookup_append (d e : List (String × Val)) (j : String) :
    Val.lookupField (d ++ e) j =
      match Val.lookupField d j with
      | some x => some x
      | none => Val.lookupField e j := by
  induction d with
  | nil => simp [Val.lookupField]
  | cons p rest ih =>
      obtain ⟨k', v'⟩ := p
      by_cases h : k' = j
      · simp [Val.lookupField, h]
      · simp [Val.lookupField, h, ih]

/-- Key presence after appending a single pair. -/
theorem Val.hasField_append_single (fs : List (String × Val))
    (k j : String) (v : Val) :
    Val.hasField (fs ++ [(k, v)]) j =
      if k = j then true else Val.hasField fs j := by
  simp only [Val.hasField, Val.lookup_append]
  cases hl : Val.lookupField fs j
  · by_cases h : k = j <;> simp [Val.lookupField, h]
  · by_cases h : k = j <;> simp [h]

/-- Appending a fresh key preserves key uniqueness. -/
theorem Val.keysNodup_append (fs : List (String × Val)) (k : String)
    (v : Val) (h : Val.keysNodup fs = true)
    (hk : Val.hasField fs k = false) :
    Val.keysNodup (fs ++ [(k, v)]) = true := by
  induction fs with
  | nil => simp [Val.keysNodup, Val.hasField, Val.lookupField]
  | cons p rest ih =>
      obtain ⟨k', v'⟩ := p
      simp only [Val.keysNodup, Bool.and_eq_true, Bool.not_eq_true'] at h
      obtain ⟨h1, h2⟩ := h
      have hk2 : k' ≠ k ∧ Val.hasField rest k = false := by
        by_cases hkk : k' = k
        · exfalso
          simp [Val.hasField, Val.lookupField, hkk] at hk
        · exact ⟨hkk, by simpa [Val.hasField, Val.lookupField, hkk] using hk⟩
      have goal2 : (!Val.hasField (rest ++ [(k, v)]) k'
          && Val.keysNodup (rest ++ [(k, v)])) = true := by
        simp only [Bool.and_eq_true, Bool.not_eq_true']
        refine ⟨?_, ih h2 hk2.2⟩
        rw [Val.hasField_append_single, if_neg (fun hh => hk2.1 hh.symm)]
        exact h1
      exact goal2

/-- Deep well-formedness gives key uniqueness at the top level. -/
theorem Val.fswf_keysNodup (fs : List (String × Val))
    (h : Val.fswf fs = true) : Val.keysNodup fs = true := by
  induction fs with
  | nil => rfl
  | cons p rest ih =>
      obtain ⟨k, v⟩ := p
      simp only [Val.fswf, Bool.and_eq_true] at h
      simp only [Val.keysNodup, Bool.and_eq_true]
      exact ⟨h.1, ih h.2.2⟩

/-- Every value stored in a well-formed field list is well-formed. -/
theorem Val.fswf_lookup (fs : List (String × Val)) (j : String) (x : Val)
    (h : Val.fswf fs = true) (hl : Val.lookupField fs j = some x) :
    Val.wf x = true := by
  induction fs with
  | nil => exact Option.noConfusion hl
  | cons p rest ih =>
      obtain ⟨k, v⟩ := p
      simp only [Val.fswf, Bool.and_eq_true] at h
      simp only [Val.lookupField] at hl
      by_cases hk : k = j
      · rw [if_pos hk] at hl
        injection hl with hl
        rw [← hl]
        exact h.2.1
      · rw [if_neg hk] at hl
        exact ih h.2.2 hl

/-- Updating a well-formed field list with a well-formed value is
well-formed. -/
theorem Val.fswf_setField (fs : List (String × Val)) (k : String)
    (v : Val) (h : Val.fswf fs = true) (hv : Val.wf v = true) :
    Val.fswf (Val.setField fs k v) = true := by
  induction fs with
  | nil =>
      simp [Val.setField, Val.fswf, Val.hasField, Val.lookupField, hv]
  | cons p rest ih =>
      obtain ⟨k', v'⟩ := p
      simp only [Val.fswf, Bool.and_eq_true, Bool.not_eq_true'] at h
      obtain ⟨h1, h2, h3⟩ := h
      simp only [Val.setField]
      by_cases hk : k' = k
      · rw [if_pos hk]
        simp only [Val.fswf, Bool.and_eq_true, Bool.not_eq_true']
        exact ⟨h1, hv, h3⟩
      · rw [if_neg hk]
        simp only [Val.fswf, Bool.and_eq_true, Bool.not_eq_true']
        refine ⟨?_, h2, ih h3⟩
        rw [Val.hasField_setField, if_neg (fun hh => hk hh.symm)]
        exact h1

/-- Removal preserves deep well-formedness. -/
theorem Val.fswf_removeField (fs : List (String × Val)) (k : String)
    (h : Val.fswf fs = true) : Val.fswf (Val.removeField fs k) = true := by
  induction fs with
  | nil => exact h
  | cons p rest ih =>
      obtain ⟨k', v'⟩ := p
      simp only [Val.fswf, Bool.and_eq_true, Bool.not_eq_true'] at h
      obtain ⟨h1, h2, h3⟩ := h
      simp only [Val.removeField]
      by_cases hk : k' = k
      · rw [if_pos hk]
        exact h3
      · rw [if_neg hk]
        simp only [Val.fswf, Bool.and_eq_true, Bool.not_eq_true']
        refine ⟨?_, h2, ih h3⟩
        cases hc : Val.hasField (Val.removeField rest k) k'
        · rfl
        · exact absurd (Val.hasField_removeField_imp rest k k' hc)
            (by simp [h1])

/-- One merge step preserves top-level key uniqueness (no assumption on
the update value). -/
theorem keysNodup_dmergeField (d : List (String × Val)) (k : String)
    (v : Val) (h : Val.keysNodup d = true) :
    Val.keysNodup (dmergeField d k v) = true := by
  unfold dmergeField
  cases hd : Val.lookupField d k
  · exact Val.keysNodup_append d k v h (by simp [Val.hasField, hd])
  · exact Val.keysNodup_setField d k _ h

/-- The merge preserves top-level key uniqueness of the destination. -/
theorem keysNodup_dmergeFields : ∀ (u d : List (String × Val)),
    Val.keysNodup d = true → Val.keysNodup (dmergeFields d u) = true := by
  intro u
  induction u with
  | nil => intro d h; exact h
  | cons p rest ih =>
      obtain ⟨k, v⟩ := p
      intro d h
      rw [dmergeFields_cons]
      exact ih _ (keysNodup_dmergeField d k v h)

/-- A merge result that is a dict is either the recursive merge of two
co-located dicts or the update value itself. -/
theorem dmerge_vdict_cases (old v : Val) (afs : List (String × Val))
    (h : dmerge old v = .vdict afs) :
    (∃ ofs vfs, old = .vdict ofs ∧ v = .vdict vfs ∧
       afs = dmergeFields ofs vfs) ∨
    v = .vdict afs := by
  cases old with
  | vdict ofs =>
      cases v with
      | vdict vfs =>
          left
          refine ⟨ofs, vfs, rfl, rfl, ?_⟩
          have h2 : Val.vdict (dmergeFields ofs vfs) = .vdict afs := h
          injection h2 with h2
          exact h2.symm
      | vnull => exact .inr h
      | vbool b => exact .inr h
      | vint n => exact .inr h
      | vstr s => exact .inr h
      | vlist xs => exact .inr h
  | vnull => cases v <;> exact .inr h
  | vbool b => cases v <;> exact .inr h
  | vint n => cases v <;> exact .inr h
  | vstr s => cases v <;> exact .inr h
  | vlist xs => cases v <;> exact .inr h

/-- One merge step preserves "the dict under `j` has unique keys",
provided the update value is well-formed. -/
theorem nodupAt_dmergeField (d : List (String × Val)) (j k : String)
    (v : Val) (h : nodupAt d j) (hv : Val.wf v = true) :
    nodupAt (dmergeField d k v) j := by
  intro afs hl
  unfold dmergeField at hl
  cases hd : Val.lookupField d k
  case none =>
      rw [hd] at hl
      rw [Val.lookup_append] at hl
      cases hdj : Val.lookupField d j
      case none =>
          rw [hdj] at hl
          simp only [Val.lookupField] at hl
          split at hl
          · injection hl with hl
            rw [hl] at hv
            exact Val.fswf_keysNodup afs hv
          · exact Option.noConfusion hl
      case some x =>
          rw [hdj] at hl
          injection hl with hl
          exact h afs (by rw [hdj, hl])
  case some old =>
      rw [hd] at hl
      by_cases hjk : j = k
      · subst hjk
        rw [Val.lookup_setField_self] at hl
        injection hl with hl
        rcases dmerge_vdict_cases old v afs hl with
          ⟨ofs, vfs, rfl, rfl, rfl⟩ | hlv
        · exact keysNodup_dmergeFields vfs ofs (h ofs hd)
        · rw [hlv] at hv
          exact Val.fswf_keysNodup afs hv
      · rw [Val.lookup_setField_ne d k j _ (fun hh => hjk hh.symm)] at hl
        exact h afs hl

/-- The merge preserves "the dict under `j` has unique keys", provided
the update is well-formed. -/
theorem nodupAt_dmergeFields (j : String) :
    ∀ (u d : List (String × Val)), nodupAt d j → Val.fswf u = true →
      nodupAt (dmergeFields d u) j := by
  intro u
  induction u with
  | nil => intro d hd _; exact hd
  | cons p rest ih =>
      obtain ⟨k, v⟩ := p
      intro d hd hwf
      simp only [Val.fswf, Bool.and_eq_true] at hwf
      rw [dmergeFields_cons]
      exact ih (dmergeField d k v) (nodupAt_dmergeField d j k v hd hwf.2.1)
        hwf.2.2

/-- The default tree's auth section has unique keys. -/
theorem defaultFields_nodupAt_auth : nodupAt defaultFields "auth" := by
  intro afs h
  have hv : (Val.lookupField defaultFields "auth").map
      (fun v => match v with | .vdict fs => Val.keysNodup fs | _ => true)
      = some true := rfl
  rw [h] at hv
  simpa using hv

/-- Merging any well-formed configuration onto the defaults yields a
tree whose auth section (when a dict) has unique keys. -/
theorem dmerge_authNodup (c₁ : Val) (hwf : Val.wf c₁ = true) :
    authNodup (dmerge defaultConfig c₁) := by
  cases c₁ with
  | vdict ufs =>
      intro afs hafs
      obtain ⟨mfs, hm, hlk⟩ := getItem_ok hafs
      have hdm : dmerge defaultConfig (.vdict ufs)
          = .vdict (dmergeFields defaultFields ufs) := rfl
      rw [hdm] at hm
      injection hm with hm
      rw [← hm] at hlk
      exact nodupAt_dmergeFields "auth" ufs defaultFields
        defaultFields_nodupAt_auth hwf afs hlk
  | vnull => intro afs h; exact Except.noConfusion h
  | vbool b => intro afs h; exact Except.noConfusion h
  | vint n => intro afs h; exact Except.noConfusion h
  | vstr s => intro afs h; exact Except.noConfusion h
  | vlist xs => intro afs h; exact Except.noConfusion h

/-- The policies regrouping step preserves deep well-formedness. -/
theorem policiesFix_wf {c c₁ : Val} (hwf : Val.wf c = true)
    (h : policiesFix c = .ok c₁) : Val.wf c₁ = true := by
  unfold policiesFix at h
  obtain ⟨p, hp, h⟩ := bind_ok h
  split at h
  · obtain ⟨pr, hpop, h⟩ := bind_ok h
    obtain ⟨pv, c₂⟩ := pr
    obtain ⟨fs, rfl, hlk, rfl⟩ := pop_ok hpop
    have hc₁ := setItem_vdict_ok h
    subst hc₁
    have hfs : Val.fswf fs = true := hwf
    apply Val.fswf_setField
    · exact Val.fswf_removeField fs _ hfs
    · have hpv : Val.wf pv = true := Val.fswf_lookup fs "policies" pv hfs hlk
      simp [Val.wf, Val.fswf, Val.hasField, Val.lookupField, hpv]
  all_goals
    simp only [pure, Except.pure, Except.ok.injEq] at h
  all_goals rw [← h]; exact hwf

/-- The `ttl`/`uses` migration step preserves auth-key uniqueness. -/
theorem migrateTtlUsesStep_authNodup {m m' : Val} {old new : String}
    (h : migrateTtlUsesStep m old new = .ok m') (ha : authNodup m) :
    authNodup m' := by
  unfold migrateTtlUsesStep at h
  obtain ⟨auth, hau, h⟩ := bind_ok h
  obtain ⟨b, hb, h⟩ := bind_ok h
  split at h
  · obtain ⟨pr, hpop, h⟩ := bind_ok h
    obtain ⟨v, auth'⟩ := pr
    obtain ⟨m₁, hm₁, h⟩ := bind_ok h
    obtain ⟨issue, hiss, h⟩ := bind_ok h
    obtain ⟨token, htok, h⟩ := bind_ok h
    obtain ⟨params, hpar, h⟩ := bind_ok h
    obtain ⟨params', hp1, h⟩ := bind_ok h
    obtain ⟨token', ht1, h⟩ := bind_ok h
    obtain ⟨issue', hi1, h⟩ := bind_ok h
    obtain ⟨m₂, hm₂, h⟩ := bind_ok h
    obtain ⟨ip, hip, h⟩ := bind_ok h
    obtain ⟨ip', hip1, h⟩ := bind_ok h
    intro afs hafs
    rw [getAuth_setItem_ne (by decide) h] at hafs
    rw [getAuth_setItem_ne (by decide) hm₂] at hafs
    rw [getAuth_setItem_self hm₁] at hafs
    obtain ⟨afs₀, rfl, hlk, rfl⟩ := pop_ok hpop
    injection hafs with hafs
    injection hafs with hafs
    rw [← hafs]
    exact Val.keysNodup_removeField afs₀ old (ha afs₀ hau)
  · simp only [pure, Except.pure, Except.ok.injEq] at h
    rw [← h]; exact ha

/-- One root→server key migration (for a key other than `auth`)
preserves auth-key uniqueness. -/
theorem migrateServerKeyStep_authNodup {m m' : Val} {key : String}
    (hk : key ≠ "auth") (h : migrateServerKeyStep m key = .ok m')
    (ha : authNodup m) : authNodup m' := by
  unfold migrateServerKeyStep at h
  obtain ⟨b, hb, h⟩ := bind_ok h
  split at h
  · obtain ⟨pr, hpop, h⟩ := bind_ok h
    obtain ⟨v, m₁⟩ := pr
    obtain ⟨server, hs, h⟩ := bind_ok h
    obtain ⟨server', hs', h⟩ := bind_ok h
    intro afs hafs
    rw [getAuth_setItem_ne (by decide) h] at hafs
    obtain ⟨fs, rfl, hlk, rfl⟩ := pop_ok hpop
    simp only [Val.getItem] at hafs
    rw [Val.lookup_removeField_ne fs key "auth" hk] at hafs
    apply ha afs
    simp only [Val.getItem]
    exact hafs
  · simp only [pure, Except.pure, Except.ok.injEq] at h
    rw [← h]; exact ha

/-- The `role_name` migration preserves auth-key uniqueness. -/
theorem migrateRoleName_authNodup {m m' : Val}
    (h : migrateRoleName m = .ok m') (ha : authNodup m) : authNodup m' := by
  unfold migrateRoleName at h
  obtain ⟨b, hb, h⟩ := bind_ok h
  split at h
  · obtain ⟨pr, hpop, h⟩ := bind_ok h
    obtain ⟨v, m₁⟩ := pr
    obtain ⟨issue, hiss, h⟩ := bind_ok h
    obtain ⟨token, htok, h⟩ := bind_ok h
    obtain ⟨token', ht1, h⟩ := bind_ok h
    obtain ⟨issue', hi1, h⟩ := bind_ok h
    intro afs hafs
    rw [getAuth_setItem_ne (by decide) h] at hafs
    obtain ⟨fs, rfl, hlk, rfl⟩ := pop_ok hpop
    simp only [Val.getItem] at hafs
    rw [Val.lookup_removeField_ne fs "role_name" "auth" (by decide)] at hafs
    apply ha afs
    simp only [Val.getItem]
    exact hafs
  · simp only [pure, Except.pure, Except.ok.injEq] at h
    rw [← h]; exact ha

/-- The `token_backend` migration preserves auth-key uniqueness. -/
theorem migrateTokenBackend_authNodup {m m' : Val}
    (h : migrateTokenBackend m = .ok m') (ha : authNodup m) :
    authNodup m' := by
  unfold migrateTokenBackend at h
  obtain ⟨auth, hau, h⟩ := bind_ok h
  obtain ⟨b, hb, h⟩ := bind_ok h
  split at h
  · obtain ⟨pr, hpop, h⟩ := bind_ok h
    obtain ⟨v, auth'⟩ := pr
    obtain ⟨m₁, hm₁, h⟩ := bind_ok h
    obtain ⟨cache, hc, h⟩ := bind_ok h
    obtain ⟨cache', hc1, h⟩ := bind_ok h
    intro afs hafs
    rw [getAuth_setItem_ne (by decide) h] at hafs
    rw [getAuth_setItem_self hm₁] at hafs
    obtain ⟨afs₀, rfl, hlk, rfl⟩ := pop_ok hpop
    injection hafs with hafs
    injection hafs with hafs
    rw [← hafs]
    exact Val.keysNodup_removeField afs₀ _ (ha afs₀ hau)
  · simp only [pure, Except.pure, Except.ok.injEq] at h
    rw [← h]; exact ha

/-- The `allow_minion_override` migration preserves auth-key
uniqueness. -/
theorem migrateAllowOverride_authNodup {m m' : Val}
    (h : migrateAllowOverride m = .ok m') (ha : authNodup m) :
    authNodup m' := by
  unfold migrateAllowOverride at h
  obtain ⟨auth, hau, h⟩ := bind_ok h
  obtain ⟨b, hb, h⟩ := bind_ok h
  split at h
  · obtain ⟨pr, hpop, h⟩ := bind_ok h
    obtain ⟨v, auth'⟩ := pr
    obtain ⟨m₁, hm₁, h⟩ := bind_ok h
    obtain ⟨issue, hiss, h⟩ := bind_ok h
    obtain ⟨issue', hi1, h⟩ := bind_ok h
    intro afs hafs
    rw [getAuth_setItem_ne (by decide) h] at hafs
    rw [getAuth_setItem_self hm₁] at hafs
    obtain ⟨afs₀, rfl, hlk, rfl⟩ := pop_ok hpop
    injection hafs with hafs
    injection hafs with hafs
    rw [← hafs]
    exact Val.keysNodup_removeField afs₀ _ (ha afs₀ hau)
  · simp only [pure, Except.pure, Except.ok.injEq] at h
    rw [← h]; exact ha

/-- The verify override never touches the auth entry. -/
theorem applyVerifyOverride_auth {m lc m' : Val}
    (h : applyVerifyOverride m lc = .ok m') :
    m'.getItem "auth" = m.getItem "auth" := by
  unfold applyVerifyOverride at h
  obtain ⟨vOpt, hvo, h⟩ := bind_ok h
  cases vOpt with
  | some v =>
      simp only [] at h
      obtain ⟨server, hs, h⟩ := bind_ok h
      obtain ⟨server', hs', h⟩ := bind_ok h
      exact getAuth_setItem_ne (by decide) h
  | none =>
      simp only [] at h
      obtain ⟨lsrv, hls, h⟩ := bind_ok h
      obtain ⟨v2, hv2, h⟩ := bind_ok h
      cases v2 with
      | some v =>
          simp only [] at h
          obtain ⟨server, hs, h⟩ := bind_ok h
          obtain ⟨server', hs', h⟩ := bind_ok h
          exact getAuth_setItem_ne (by decide) h
      | none =>
          simp only [pure, Except.pure, Except.ok.injEq] at h
          rw [h]

/-- The lifecycle override preserves auth-key uniqueness (it only
updates the `token_lifecycle` field). -/
theorem applyLifecycleOverride_authNodup {m lc m' : Val}
    (h : applyLifecycleOverride m lc = .ok m') (ha : authNodup m) :
    authNodup m' := by
  unfold applyLifecycleOverride at h
  obtain ⟨lauth, hla, h⟩ := bind_ok h
  obtain ⟨tl, htl, h⟩ := bind_ok h
  split at h
  · obtain ⟨auth, hau, h⟩ := bind_ok h
    obtain ⟨auth', hau', h⟩ := bind_ok h
    intro afs hafs
    rw [getAuth_setItem_self h] at hafs
    obtain ⟨afs₀, rfl, rfl⟩ := setItem_ok hau'
    injection hafs with hafs
    injection hafs with hafs
    rw [← hafs]
    exact Val.keysNodup_setField afs₀ _ tl (ha afs₀ hau)
  · simp only [pure, Except.pure, Except.ok.injEq] at h
    rw [← h]; exact ha

/-- The local-override block preserves auth-key uniqueness. -/
theorem applyLocalOverrides_authNodup {m : Val} {opts : Option Val}
    {m' : Val} (h : applyLocalOverrides m opts = .ok m')
    (ha : authNodup m) : authNodup m' := by
  cases opts with
  | none =>
      simp only [applyLocalOverrides, pure, Except.pure,
        Except.ok.injEq] at h
      rw [← h]; exact ha
  | some o =>
      simp only [applyLocalOverrides] at h
      obtain ⟨b, hb, h⟩ := bind_ok h
      split at h
      · obtain ⟨lc, hlc, h⟩ := bind_ok h
        obtain ⟨m₇, hm₇, h⟩ := bind_ok h
        have ha₇ : authNodup m₇ := by
          intro afs hafs
          rw [applyVerifyOverride_auth hm₇] at hafs
          exact ha afs hafs
        exact applyLifecycleOverride_authNodup h ha₇
      · simp only [pure, Except.pure, Except.ok.injEq] at h
        rw [← h]; exact ha

/-- The merge-and-migrate pipeline of `parse_config`, fed a well-formed
(representable-as-Python) configuration, produces a tree whose auth
section has unique keys. -/
theorem mergeAndMigrate_authNodup {c : Val} {opts : Option Val} {m : Val}
    (hwf : Val.wf c = true) (h : mergeAndMigrate c opts = .ok m) :
    authNodup m := by
  unfold mergeAndMigrate at h
  obtain ⟨c₁, hc₁, h⟩ := bind_ok h
  obtain ⟨m₁, h₁, h⟩ := bind_ok h
  obtain ⟨m₂, h₂, h⟩ := bind_ok h
  obtain ⟨m₃, h₃, h⟩ := bind_ok h
  obtain ⟨m₄, h₄, h⟩ := bind_ok h
  obtain ⟨m₅, h₅, h⟩ := bind_ok h
  have ha₀ : authNodup (dmerge defaultConfig c₁) :=
    dmerge_authNodup c₁ (policiesFix_wf hwf hc₁)
  have ha₁ : authNodup m₁ := by
    unfold migrateTtlUses at h₁
    obtain ⟨mm, hmm, h₁⟩ := bind_ok h₁
    exact migrateTtlUsesStep_authNodup h₁
      (migrateTtlUsesStep_authNodup hmm ha₀)
  have ha₂ : authNodup m₂ := by
    unfold migrateServerKeys at h₂
    obtain ⟨ma, hma, h₂⟩ := bind_ok h₂
    obtain ⟨mb, hmb, h₂⟩ := bind_ok h₂
    exact migrateServerKeyStep_authNodup (by decide) h₂
      (migrateServerKeyStep_authNodup (by decide) hmb
        (migrateServerKeyStep_authNodup (by decide) hma ha₁))
  have ha₃ : authNodup m₃ := migrateRoleName_authNodup h₃ ha₂
  have ha₄ : authNodup m₄ := migrateTokenBackend_authNodup h₄ ha₃
  have ha₅ : authNodup m₅ := migrateAllowOverride_authNodup h₅ ha₄
  exact applyLocalOverrides_authNodup h ha₅

/-- `parse_config` on a well-formed configuration yields a tree whose
auth section has unique keys. -/
theorem parse_config_authNodup {c : Val} {validate : Bool}
    {opts : Option Val} {m : Val} (hwf : Val.wf c = true)
    (h : parse_config c validate opts = .ok m) : authNodup m :=
  mergeAndMigrate_authNodup hwf (parse_config_ok_merge h)

/-- The strip-and-section step yields exactly the three sections, with
no `token` left in auth. -/
theorem stripTokenAndSection_shape {config conf srv : Val}
    {tok : Option Val} (ha : authNodup config)
    (h : stripTokenAndSection config = .ok (conf, tok, srv)) :
    ∃ afs cache server,
      conf = .vdict [("auth", .vdict afs), ("cache", cache),
        ("server", server)] ∧
      Val.hasField afs "token" = false := by
  unfold stripTokenAndSection at h
  obtain ⟨auth, hau, h⟩ := bind_ok h
  obtain ⟨pr, hpd, h⟩ := bind_ok h
  obtain ⟨t0, auth'⟩ := pr
  obtain ⟨cache, hc, h⟩ := bind_ok h
  obtain ⟨server, hs, h⟩ := bind_ok h
  obtain ⟨afs₀, rfl, hteq, rfl⟩ := popD_ok hpd
  injection h with h
  injection h with h1 h2
  refine ⟨Val.removeField afs₀ "token", cache, server, h1.symm, ?_⟩
  exact Val.hasField_removeField_self afs₀ "token" (ha afs₀ hau)

/-- C10.  The connection configuration returned by `_use_local_config`
and the one returned and stored in the configuration cache by the
fresh-remote path of `_get_connection_config` consist of exactly the
three sections `auth`, `cache` and `server`, and the auth section
carries no `token` entry: the embedded token is popped out of the
parsed configuration and handed back as a separate value (the cached
path of `_get_connection_config` merely replays a configuration stored
by this same code).  The inputs are assumed well-formed (dictionaries
with unique keys at every depth), which every Python object satisfies
by construction. -/
theorem connection_config_shape
    (lopts remoteCfg ropts conf₁ conf₂ cl₁ cl₂ : Val)
    (t₁ t₂ : Option Val)
    (hwf₁ : Val.wf lopts = true)
    (hwf₂ : Val.wf remoteCfg = true)
    (h₁ : use_local_config lopts = .ok (conf₁, t₁, cl₁))
    (h₂ : connection_config_remote remoteCfg ropts = .ok (conf₂, t₂, cl₂)) :
    (∃ afs cache server,
       conf₁ = .vdict [("auth", .vdict afs), ("cache", cache),
         ("server", server)] ∧
       Val.hasField afs "token" = false) ∧
    (∃ afs cache server,
       conf₂ = .vdict [("auth", .vdict afs), ("cache", cache),
         ("server", server)] ∧
       Val.hasField afs "token" = false) := by
  constructor
  · unfold use_local_config at h₁
    obtain ⟨vaultCfg, hvc, h₁⟩ := bind_ok h₁
    obtain ⟨config, hpc, h₁⟩ := bind_ok h₁
    have hwfv : Val.wf vaultCfg = true := by
      obtain ⟨fs, rfl, rfl⟩ := getD_ok hvc
      cases hl : Val.lookupField fs "vault" with
      | none => rfl
      | some x => exact Val.fswf_lookup fs "vault" x hwf₁ hl
    exact stripTokenAndSection_shape (parse_config_authNodup hwfv hpc) h₁
  · unfold connection_config_remote at h₂
    obtain ⟨config, hpc, h₂⟩ := bind_ok h₂
    exact stripTokenAndSection_shape (parse_config_authNodup hwf₂ hpc) h₂

/-- Witness for C10 at concrete local and remote configurations that
both embed a plain token. -/
theorem connection_config_shape_witness :
    (∃ afs cache server,
       c10LocalOut.1 = .vdict [("auth", .vdict afs), ("cache", cache),
         ("server", server)] ∧
       Val.hasField afs "token" = false) ∧
    (∃ afs cache server,
       c10RemoteOut.1 = .vdict [("auth", .vdict afs), ("cache", cache),
         ("server", server)] ∧
       Val.hasField afs "token" = false) :=
  connection_config_shape c10Opts c10Remote c10Opts
    c10LocalOut.1 c10RemoteOut.1 c10LocalOut.2.2 c10RemoteOut.2.2
    c10LocalOut.2.1 c10RemoteOut.2.1 rfl rfl rfl rfl

/-- Unfolding of the prefix predicate at a cons/cons pair. -/
theorem fpre_cons_iff (dk mk : String) (dv mv : Val)
    (drest mrest : List (String × Val)) :
    fpre ((dk, dv) :: drest) ((mk, mv) :: mrest) = true ↔
      dk = mk ∧ vabsorbs dv mv = true ∧ fpre drest mrest = true := by
  simp [fpre, Bool.and_eq_true, beq_iff_eq]

/-- At a destination key, an absorbing tree holds an absorbing value. -/
theorem fpre_lookup :
    ∀ (dfs mfs : List (String × Val)) (k : String) (dv : Val),
      fpre dfs mfs = true → Val.lookupField dfs k = some dv →
      ∃ mv, Val.lookupField mfs k = some mv ∧ vabsorbs dv mv = true := by
  intro dfs
  induction dfs with
  | nil => intro mfs k dv _ hl; exact Option.noConfusion hl
  | cons p drest ih =>
      obtain ⟨dk, dv'⟩ := p
      intro mfs k dv hp hl
      cases mfs with
      | nil => exact absurd hp (by simp [fpre])
      | cons q mrest =>
          obtain ⟨mk, mv'⟩ := q
          rw [fpre_cons_iff] at hp
          obtain ⟨hk, ha, hrest⟩ := hp
          subst hk
          simp only [Val.lookupField] at hl ⊢
          by_cases hdk : dk = k
          · rw [if_pos hdk] at hl ⊢
            injection hl with hl
            exact ⟨mv', rfl, by rw [← hl]; exact ha⟩
          · rw [if_neg hdk] at hl ⊢
            exact ih mrest k dv hrest hl

/-- Updating an absorbing tree preserves the prefix, provided the new
value absorbs the destination's value at that key (no condition off
the destination's keys). -/
theorem fpre_setField :
    ∀ (dfs mfs : List (String × Val)) (k : String) (v : Val),
      fpre dfs mfs = true →
      (∀ dv, Val.lookupField dfs k = some dv → vabsorbs dv v = true) →
      fpre dfs (Val.setField mfs k v) = true := by
  intro dfs
  induction dfs with
  | nil => intro mfs k v _ _; rfl
  | cons p drest ih =>
      obtain ⟨dk, dv'⟩ := p
      intro mfs k v hp hv
      cases mfs with
      | nil => exact absurd hp (by simp [fpre])
      | cons q mrest =>
          obtain ⟨mk, mv'⟩ := q
          rw [fpre_cons_iff] at hp
          obtain ⟨hk, ha, hrest⟩ := hp
          subst hk
          simp only [Val.setField]
          by_cases hdk : dk = k
          · rw [if_pos hdk]
            rw [fpre_cons_iff]
            exact ⟨rfl, hv dv' (by simp [Val.lookupField, hdk]), hrest⟩
          · rw [if_neg hdk]
            rw [fpre_cons_iff]
            refine ⟨rfl, ha, ih mrest k v hrest ?_⟩
            intro dv hdv
            exact hv dv (by simp [Val.lookupField, hdk, hdv])

/-- Appending extra pairs preserves the prefix. -/
theorem fpre_append :
    ∀ (dfs mfs e : List (String × Val)),
      fpre dfs mfs = true → fpre dfs (mfs ++ e) = true := by
  intro dfs
  induction dfs with
  | nil => intro mfs e _; rfl
  | cons p drest ih =>
      obtain ⟨dk, dv⟩ := p
      intro mfs e hp
      cases mfs with
      | nil => exact absurd hp (by simp [fpre])
      | cons q mrest =>
          obtain ⟨mk, mv⟩ := q
          rw [fpre_cons_iff] at hp
          obtain ⟨hk, ha, hrest⟩ := hp
          subst hk
          rw [List.cons_append, fpre_cons_iff]
          exact ⟨rfl, ha, ih mrest e hrest⟩

/-- Removing a key the destination does not use preserves the
prefix. -/
theorem fpre_removeField :
    ∀ (dfs mfs : List (String × Val)) (k : String),
      fpre dfs mfs = true → Val.hasField dfs k = false →
      fpre dfs (Val.removeField mfs k) = true := by
  intro dfs
  induction dfs with
  | nil => intro mfs k _ _; rfl
  | cons p drest ih =>
      obtain ⟨dk, dv⟩ := p
      intro mfs k hp hk
      cases mfs with
      | nil => exact absurd hp (by simp [fpre])
      | cons q mrest =>
          obtain ⟨mk, mv⟩ := q
          rw [fpre_cons_iff] at hp
          obtain ⟨hkk, ha, hrest⟩ := hp
          subst hkk
          have hdk : dk ≠ k := by
            intro hh
            simp [Val.hasField, Val.lookupField, hh] at hk
          have hk2 : Val.hasField drest k = false := by
            simpa [Val.hasField, Val.lookupField, hdk] using hk
          simp only [Val.removeField, if_neg hdk]
          rw [fpre_cons_iff]
          exact ⟨rfl, ha, ih mrest k hrest hk2⟩

/-- `setField` skips over a block that does not hold the key. -/
theorem Val.setField_append_absent (done rest : List (String × Val))
    (k : String) (v : Val) (h : Val.hasField done k = false) :
    Val.setField (done ++ rest) k v = done ++ Val.setField rest k v := by
  induction done with
  | nil => rfl
  | cons p dd ih =>
      obtain ⟨k', v'⟩ := p
      have hk' : k' ≠ k := by
        intro hh
        simp [Val.hasField, Val.lookupField, hh] at h
      have h2 : Val.hasField dd k = false := by
        simpa [Val.hasField, Val.lookupField, hk'] using h
      simp [Val.setField, hk', ih h2]

/-- A key that is not present looks up to `none`. -/
theorem Val.lookup_eq_none_of_hasField_false (fs : List (String × Val))
    (k : String) (h : Val.hasField fs k = false) :
    Val.lookupField fs k = none := by
  cases hl : Val.lookupField fs k
  · rfl
  · rw [Val.hasField, hl] at h
    simp at h

mutual
/-- Every well-formed value absorbs itself. -/
theorem vabsorbs_self (v : Val) (hwf : Val.wf v = true) :
    vabsorbs v v = true := by
  cases v with
  | vdict fs =>
      simp only [vabsorbs, Bool.and_eq_true]
      exact ⟨fpre_self fs hwf, Val.fswf_keysNodup fs hwf⟩
  | vnull => rfl
  | vbool b => rfl
  | vint n => rfl
  | vstr s => rfl
  | vlist xs => rfl
/-- Every well-formed field list is a prefix of itself. -/
theorem fpre_self (fs : List (String × Val))
    (hwf : Val.fswf fs = true) : fpre fs fs = true := by
  cases fs with
  | nil => rfl
  | cons p rest =>
      obtain ⟨k, v⟩ := p
      have h2 : Val.wf v = true ∧ Val.fswf rest = true := by
        have h3 : (!Val.hasField rest k && (Val.wf v && Val.fswf rest))
            = true := hwf
        simp only [Bool.and_eq_true] at h3
        exact ⟨h3.2.1, h3.2.2⟩
      rw [fpre_cons_iff]
      exact ⟨rfl, vabsorbs_self v h2.1, fpre_self rest h2.2⟩
end

mutual
/-- Absorption is exactly the merge-identity property. -/
theorem vabsorbs_dmerge (d m : Val) (h : vabsorbs d m = true) :
    dmerge d m = m :=
  match d, m, h with
  | .vdict dfs, .vdict mfs, h => by
      have h2 : fpre dfs mfs = true ∧ Val.keysNodup mfs = true := by
        simpa [vabsorbs, Bool.and_eq_true] using h
      have hrec := fpre_dmergeFields mfs [] dfs h2.1
        (by intro k hk; simp [Val.hasField, Val.lookupField] at hk)
        h2.2
      simp only [List.nil_append] at hrec
      show Val.vdict (dmergeFields dfs mfs) = .vdict mfs
      rw [hrec]
  | .vdict _, .vnull, _ => rfl
  | .vdict _, .vbool _, _ => rfl
  | .vdict _, .vint _, _ => rfl
  | .vdict _, .vstr _, _ => rfl
  | .vdict _, .vlist _, _ => rfl
  | .vnull, m, _ => by cases m <;> rfl
  | .vbool _, m, _ => by cases m <;> rfl
  | .vint _, m, _ => by cases m <;> rfl
  | .vstr _, m, _ => by cases m <;> rfl
  | .vlist _, m, _ => by cases m <;> rfl
termination_by sizeOf m
decreasing_by all_goals (simp_wf; try omega)
/-- Folding an absorbing update list over a destination that starts
with an already-settled block reproduces the update list. -/
theorem fpre_dmergeFields (mfs done dfs : List (String × Val))
    (hp : fpre dfs mfs = true)
    (hdisj : ∀ k, Val.hasField done k = true → Val.hasField mfs k = false)
    (hnd : Val.keysNodup mfs = true) :
    dmergeFields (done ++ dfs) mfs = done ++ mfs :=
  match mfs, hp, hdisj, hnd with
  | [], hp, _, _ => by
      cases dfs with
      | nil => rfl
      | cons p drest => exact absurd hp (by simp [fpre])
  | (mk, mv) :: mrest, hp, hdisj, hnd => by
      have hnd1 : Val.hasField mrest mk = false ∧
          Val.keysNodup mrest = true := by
        simpa [Val.keysNodup, Bool.and_eq_true, Bool.not_eq_true'] using hnd
      have hdm : Val.hasField done mk = false := by
        cases hc : Val.hasField done mk
        · rfl
        · have h2 := hdisj mk hc
          simp [Val.hasField, Val.lookupField] at h2
      have hdisj2 : ∀ j, Val.hasField (done ++ [(mk, mv)]) j = true →
          Val.hasField mrest j = false := by
        intro j hj
        rw [Val.hasField_append_single] at hj
        by_cases hjm : mk = j
        · subst hjm; exact hnd1.1
        · rw [if_neg hjm] at hj
          have h2 := hdisj j hj
          simpa [Val.hasField, Val.lookupField, hjm] using h2
      cases dfs with
      | nil =>
          rw [dmergeFields_cons]
          have hstep : dmergeField (done ++ ([] : List (String × Val)))
              mk mv = done ++ [(mk, mv)] := by
            unfold dmergeField
            rw [List.append_nil,
              Val.lookup_eq_none_of_hasField_false done mk hdm]
          rw [hstep]
          have hrec := fpre_dmergeFields mrest (done ++ [(mk, mv)]) []
            rfl hdisj2 hnd1.2
          rw [List.append_nil] at hrec
          rw [hrec]
          simp
      | cons p drest =>
          obtain ⟨dk, dv⟩ := p
          rw [fpre_cons_iff] at hp
          obtain ⟨hkk, ha, hrest⟩ := hp
          subst hkk
          rw [dmergeFields_cons]
          have hdone : Val.lookupField done dk = none :=
            Val.lookup_eq_none_of_hasField_false done dk hdm
          have hlk : Val.lookupField (done ++ (dk, dv) :: drest) dk
              = some dv := by
            rw [Val.lookup_append, hdone]
            simp [Val.lookupField]
          have habs : dmerge dv mv = mv := vabsorbs_dmerge dv mv ha
          have hstep : dmergeField (done ++ (dk, dv) :: drest) dk mv
              = (done ++ [(dk, mv)]) ++ drest := by
            unfold dmergeField
            rw [hlk]
            show Val.setField (done ++ (dk, dv) :: drest) dk (dmerge dv mv)
              = (done ++ [(dk, mv)]) ++ drest
            rw [habs, Val.setField_append_absent done _ dk mv hdm]
            simp [Val.setField]
          rw [hstep]
          have hrec := fpre_dmergeFields mrest (done ++ [(dk, mv)])
            drest hrest hdisj2 hnd1.2
          rw [hrec]
          simp
termination_by sizeOf mfs
decreasing_by all_goals (simp_wf; try omega)
end

mutual
/-- Merging any well-formed update onto a well-formed destination
yields a tree that absorbs the destination. -/
theorem vabsorbs_merge_self (dv uv : Val) (hwfd : Val.wf dv = true)
    (hwfu : Val.wf uv = true) : vabsorbs dv (dmerge dv uv) = true :=
  match dv, uv, hwfd, hwfu with
  | .vdict dfs, .vdict ufs, hwfd, hwfu => by
      show vabsorbs (.vdict dfs) (.vdict (dmergeFields dfs ufs)) = true
      have h1 : fpre dfs (dmergeFields dfs ufs) = true :=
        fpre_merge_self ufs dfs dfs hwfd hwfu
          (fpre_self dfs hwfd) (Val.fswf_keysNodup dfs hwfd)
          (fun _ _ h2 _ => h2)
      have h2 : Val.keysNodup (dmergeFields dfs ufs) = true :=
        keysNodup_dmergeFields ufs dfs (Val.fswf_keysNodup dfs hwfd)
      simp only [vabsorbs, Bool.and_eq_true]
      exact ⟨h1, h2⟩
  | .vdict _, .vnull, _, _ => rfl
  | .vdict _, .vbool _, _, _ => rfl
  | .vdict _, .vint _, _, _ => rfl
  | .vdict _, .vstr _, _, _ => rfl
  | .vdict _, .vlist _, _, _ => rfl
  | .vnull, uv, _, _ => by cases uv <;> rfl
  | .vbool _, uv, _, _ => by cases uv <;> rfl
  | .vint _, uv, _, _ => by cases uv <;> rfl
  | .vstr _, uv, _, _ => by cases uv <;> rfl
  | .vlist _, uv, _, _ => by cases uv <;> rfl
termination_by sizeOf uv
decreasing_by all_goals (simp_wf; try omega)
/-- Folding a well-formed update list over a state that still holds
the destination's original values at the pending keys keeps the
destination a prefix. -/
theorem fpre_merge_self (ufs s dfs : List (String × Val))
    (hwfd : Val.fswf dfs = true) (hwfu : Val.fswf ufs = true)
    (hp : fpre dfs s = true) (hnd : Val.keysNodup s = true)
    (hkeep : ∀ k dv, Val.lookupField dfs k = some dv →
      Val.hasField ufs k = true → Val.lookupField s k = some dv) :
    fpre dfs (dmergeFields s ufs) = true :=
  match ufs, hwfu, hkeep with
  | [], _, _ => hp
  | (k, uv) :: urest, hwfu, hkeep => by
      have hw : Val.hasField urest k = false ∧ Val.wf uv = true ∧
          Val.fswf urest = true := by
        have h3 : (!Val.hasField urest k && (Val.wf uv && Val.fswf urest))
            = true := hwfu
        simp only [Bool.and_eq_true, Bool.not_eq_true'] at h3
        exact ⟨h3.1, h3.2.1, h3.2.2⟩
      rw [dmergeFields_cons]
      cases hsk : Val.lookupField s k with
      | some sv =>
          have hstep : dmergeField s k uv
              = Val.setField s k (dmerge sv uv) := by
            unfold dmergeField
            rw [hsk]
          rw [hstep]
          apply fpre_merge_self urest (Val.setField s k (dmerge sv uv))
            dfs hwfd hw.2.2
          · apply fpre_setField dfs s k _ hp
            intro dv hdv
            have h2 := hkeep k dv hdv
              (by simp [Val.hasField, Val.lookupField])
            rw [hsk] at h2
            injection h2 with h2
            subst h2
            exact vabsorbs_merge_self sv uv
              (Val.fswf_lookup dfs k sv hwfd hdv) hw.2.1
          · exact Val.keysNodup_setField s k _ hnd
          · intro j dvj hdj hj
            have hjk : j ≠ k := by
              intro hh
              subst hh
              exact absurd hj (by simp [hw.1])
            rw [Val.lookup_setField_ne s k j _ (fun hh => hjk hh.symm)]
            have hkj : k ≠ j := fun hh => hjk hh.symm
            exact hkeep j dvj hdj
              (by simpa [Val.hasField, Val.lookupField, hkj] using hj)
      | none =>
          have hstep : dmergeField s k uv = s ++ [(k, uv)] := by
            unfold dmergeField
            rw [hsk]
          rw [hstep]
          apply fpre_merge_self urest (s ++ [(k, uv)]) dfs hwfd hw.2.2
          · exact fpre_append dfs s [(k, uv)] hp
          · exact Val.keysNodup_append s k uv hnd
              (by simp [Val.hasField, hsk])
          · intro j dvj hdj hj
            have hjk : j ≠ k := by
              intro hh
              subst hh
              exact absurd hj (by simp [hw.1])
            have hkj : k ≠ j := fun hh => hjk hh.symm
            rw [Val.lookup_append]
            rw [hkeep j dvj hdj
              (by simpa [Val.hasField, Val.lookupField, hkj] using hj)]
termination_by sizeOf ufs
decreasing_by all_goals (simp_wf; try omega)
end

/-- Writing one key leaves every other entry unchanged. -/
theorem getItem_setItem_ne {m m' : Val} {j k : String} {x : Val}
    (hk : j ≠ k) (h : m.setItem j x = .ok m') :
    m'.getItem k = m.getItem k := by
  obtain ⟨fs, rfl, rfl⟩ := setItem_ok h
  simp [Val.getItem, Val.lookup_setField_ne fs j k x hk]

/-- Writing a key makes the written value that entry. -/
theorem getItem_setItem_self {m m' : Val} {j : String} {x : Val}
    (h : m.setItem j x = .ok m') : m'.getItem j = .ok x := by
  obtain ⟨fs, rfl, rfl⟩ := setItem_ok h
  simp [Val.getItem, Val.lookup_setField_self]

/-- Popping one key leaves every other entry unchanged. -/
theorem getItem_pop_ne {m v m₁ : Val} {j k : String} (hk : j ≠ k)
    (h : m.pop j = .ok (v, m₁)) : m₁.getItem k = m.getItem k := by
  obtain ⟨fs, rfl, hlk, rfl⟩ := pop_ok h
  simp [Val.getItem, Val.lookup_removeField_ne fs j k hk]

/-- Writing one key leaves membership of every other key unchanged. -/
theorem mem_setItem_ne {m m' : Val} {j k : String} {x : Val}
    (hk : j ≠ k) (h : m.setItem j x = .ok m') : m'.mem k = m.mem k := by
  obtain ⟨fs, rfl, rfl⟩ := setItem_ok h
  simp only [Val.mem]
  rw [Val.hasField_setField, if_neg hk]

/-- Popping one key leaves membership of every other key unchanged. -/
theorem mem_pop_ne {m v m₁ : Val} {j k : String} (hk : j ≠ k)
    (h : m.pop j = .ok (v, m₁)) : m₁.mem k = m.mem k := by
  obtain ⟨fs, rfl, hlk, rfl⟩ := pop_ok h
  simp only [Val.mem]
  rw [show Val.hasField (Val.removeField fs j) k = Val.hasField fs k from by
    simp [Val.hasField, Val.lookup_removeField_ne fs j k hk]]

/-- With unique keys, popping a key removes it. -/
theorem mem_pop_self {m v m₁ : Val} {j : String}
    (h : m.pop j = .ok (v, m₁))
    (hnd : ∀ fs, m = .vdict fs → Val.keysNodup fs = true) :
    m₁.mem j = .ok false := by
  obtain ⟨fs, rfl, hlk, rfl⟩ := pop_ok h
  simp only [Val.mem]
  rw [Val.hasField_removeField_self fs j (hnd fs rfl)]

/-- The auth-mem test transfers along an unchanged auth entry. -/
theorem authMemFalse_congr {m m' : Val} {k : String}
    (h : m'.getItem "auth" = m.getItem "auth")
    (ha : AuthMemFalse m k) : AuthMemFalse m' k := by
  unfold AuthMemFalse at ha ⊢
  rw [h]
  exact ha

/-- The root-mem test transfers along unchanged membership. -/
theorem rootMemFalse_congr {m m' : Val} {k : String}
    (h : m'.mem k = m.mem k) (ha : RootMemFalse m k) :
    RootMemFalse m' k := by
  unfold RootMemFalse at ha ⊢
  rw [h]
  exact ha

/-- Not-a-list transfers along an unchanged entry. -/
theorem noListAt_congr {m m' : Val} {k : String}
    (h : m'.getItem k = m.getItem k) (ha : NoListAt m k) :
    NoListAt m' k := by
  intro l hl
  rw [h] at hl
  exact ha l hl

/-- The unpacked components of absorption into a dict. -/
theorem vabsorbs_vdict_parts {dfs mfs : List (String × Val)}
    (h : vabsorbs (.vdict dfs) (.vdict mfs) = true) :
    fpre dfs mfs = true ∧ Val.keysNodup mfs = true := by
  simpa [vabsorbs, Bool.and_eq_true] using h

/-- The value stored at a destination key of an absorbing field list
absorbs the destination's value there. -/
theorem absorbed_section {dfs mfs : List (String × Val)} {j : String}
    {dsec sec : Val}
    (hd : Val.lookupField dfs j = some dsec)
    (hp : fpre dfs mfs = true)
    (hs : Val.lookupField mfs j = some sec) :
    vabsorbs dsec sec = true := by
  obtain ⟨mv, hmv, ha⟩ := fpre_lookup dfs mfs j dsec hp hd
  rw [hs] at hmv
  injection hmv with hmv
  rw [hmv]
  exact ha

/-- Packaging absorption into a dict. -/
theorem vabsorbs_vdict_intro {dfs mfs : List (String × Val)}
    (h1 : fpre dfs mfs = true) (h2 : Val.keysNodup mfs = true) :
    vabsorbs (.vdict dfs) (.vdict mfs) = true := by
  simp only [vabsorbs, Bool.and_eq_true]
  exact ⟨h1, h2⟩

/-- Discharging the update condition of `fpre_setField` at a known
destination key. -/
theorem absorbs_at_key {dfs : List (String × Val)} {j : String}
    {dsec x : Val} (hd : Val.lookupField dfs j = some dsec)
    (ha : vabsorbs dsec x = true) :
    ∀ dv, Val.lookupField dfs j = some dv → vabsorbs dv x = true := by
  intro dv hdv
  rw [hd] at hdv
  injection hdv with hdv
  rw [← hdv]
  exact ha

/-- A successful read off a dict, as a lookup. -/
theorem getItem_vdict_ok {fs : List (String × Val)} {k : String} {x : Val}
    (h : Val.getItem (.vdict fs) k = .ok x) :
    Val.lookupField fs k = some x := by
  obtain ⟨fs2, heq, hl⟩ := getItem_ok h
  injection heq with heq
  rw [heq]
  exact hl

/-- Removal never introduces a key. -/
theorem Val.hasField_removeField_false (fs : List (String × Val))
    (j k : String) (h : Val.hasField fs k = false) :
    Val.hasField (Val.removeField fs j) k = false := by
  cases hc : Val.hasField (Val.removeField fs j) k
  · rfl
  · exact absurd (Val.hasField_removeField_imp fs j k hc) (by simp [h])

/-- A non-dict destination value is absorbed by anything. -/
theorem vabsorbs_of_nonDictAt {fs : List (String × Val)} {k : String}
    {dv : Val} (hnd : nonDictAt fs k = true)
    (hl : Val.lookupField fs k = some dv) :
    ∀ x, vabsorbs dv x = true := by
  intro x
  unfold nonDictAt at hnd
  rw [hl] at hnd
  cases dv with
  | vdict dfs => simp at hnd
  | vnull => cases x <;> rfl
  | vbool b => cases x <;> rfl
  | vint n => cases x <;> rfl
  | vstr s => cases x <;> rfl
  | vlist xs => cases x <;> rfl

/-- One `ttl`/`uses` migration step keeps the tree an absorbing dict,
makes (or keeps) the migrated key absent from the auth section, keeps
previously-absent auth keys absent, and leaves every root entry except
`auth`, `issue` and `issue_params` unchanged. -/
theorem migrateTtlUsesStep_inv {m m' : Val} {old new : String}
    (hOldDA : Val.hasField defaultAuthFields old = false)
    (hNewND : nonDictAt defaultParamsFields new = true)
    (h : migrateTtlUsesStep m old new = .ok m')
    (habs : vabsorbs defaultConfig m = true) :
    (∃ fs, m' = .vdict fs) ∧
    vabsorbs defaultConfig m' = true ∧
    AuthMemFalse m' old ∧
    (∀ k, AuthMemFalse m k → AuthMemFalse m' k) ∧
    (∀ k, k ≠ "auth" → k ≠ "issue" → k ≠ "issue_params" →
      m'.getItem k = m.getItem k ∧ m'.mem k = m.mem k) := by
  unfold migrateTtlUsesStep at h
  obtain ⟨auth, hau, h⟩ := bind_ok h
  obtain ⟨b, hb, h⟩ := bind_ok h
  split at h
  · rename_i hbt
    obtain ⟨pr, hpop, h⟩ := bind_ok h
    obtain ⟨v, auth'⟩ := pr
    obtain ⟨m₁, hm₁, h⟩ := bind_ok h
    obtain ⟨issue, hiss, h⟩ := bind_ok h
    obtain ⟨token, htok, h⟩ := bind_ok h
    obtain ⟨params, hpar, h⟩ := bind_ok h
    obtain ⟨params', hp1, h⟩ := bind_ok h
    obtain ⟨token', ht1, h⟩ := bind_ok h
    obtain ⟨issue', hi1, h⟩ := bind_ok h
    obtain ⟨m₂, hm₂, h⟩ := bind_ok h
    obtain ⟨ip, hip, h⟩ := bind_ok h
    obtain ⟨ip', hip1, h⟩ := bind_ok h
    obtain ⟨afs₀, rfl, hlko, rfl⟩ := pop_ok hpop
    obtain ⟨mfs, rfl, rfl⟩ := setItem_ok hm₁
    have hlkA := getItem_vdict_ok hau
    have hlkI : Val.lookupField mfs "issue" = some issue := by
      have h2 := getItem_vdict_ok hiss
      rw [Val.lookup_setField_ne mfs "auth" "issue" _ (by decide)] at h2
      exact h2
    obtain ⟨ifs, rfl, hlkT⟩ := getItem_ok htok
    obtain ⟨tfs, rfl, hlkP⟩ := getItem_ok hpar
    obtain ⟨pfs, rfl, rfl⟩ := setItem_ok hp1
    have he1 := setItem_vdict_ok ht1
    subst he1
    have he2 := setItem_vdict_ok hi1
    subst he2
    have he3 := setItem_vdict_ok hm₂
    subst he3
    have hlkIP : Val.lookupField mfs "issue_params" = some ip := by
      have h2 := getItem_vdict_ok hip
      rw [Val.lookup_setField_ne _ "issue" "issue_params" _ (by decide),
        Val.lookup_setField_ne mfs "auth" "issue_params" _ (by decide)] at h2
      exact h2
    obtain ⟨ipfs, rfl, rfl⟩ := setItem_ok hip1
    have he4 := setItem_vdict_ok h
    subst he4
    obtain ⟨hP, hN⟩ := vabsorbs_vdict_parts
      (show vabsorbs (.vdict defaultFields) (.vdict mfs) = true from habs)
    obtain ⟨hPA, hNA⟩ := vabsorbs_vdict_parts
      (absorbed_section (show Val.lookupField defaultFields "auth"
        = some (.vdict defaultAuthFields) from rfl) hP hlkA)
    obtain ⟨hPI, hNI⟩ := vabsorbs_vdict_parts
      (absorbed_section (show Val.lookupField defaultFields "issue"
        = some (.vdict defaultIssueFields) from rfl) hP hlkI)
    obtain ⟨hPT, hNT⟩ := vabsorbs_vdict_parts
      (absorbed_section (show Val.lookupField defaultIssueFields "token"
        = some (.vdict defaultTokenFields) from rfl) hPI hlkT)
    obtain ⟨hPP, hNP⟩ := vabsorbs_vdict_parts
      (absorbed_section (show Val.lookupField defaultTokenFields "params"
        = some (.vdict defaultParamsFields) from rfl) hPT hlkP)
    have hNIP : Val.keysNodup ipfs = true :=
      (vabsorbs_vdict_parts
        (absorbed_section (show Val.lookupField defaultFields "issue_params"
          = some (.vdict []) from rfl) hP hlkIP)).2
    have hAbsParams : vabsorbs (.vdict defaultParamsFields)
        (.vdict (Val.setField pfs new v)) = true :=
      vabsorbs_vdict_intro
        (fpre_setField defaultParamsFields pfs new v hPP
          (fun dv hdv => vabsorbs_of_nonDictAt hNewND hdv v))
        (Val.keysNodup_setField pfs new v hNP)
    have hAbsToken : vabsorbs (.vdict defaultTokenFields)
        (.vdict (Val.setField tfs "params" (.vdict (Val.setField pfs new v))))
        = true :=
      vabsorbs_vdict_intro
        (fpre_setField defaultTokenFields tfs "params" _ hPT
          (absorbs_at_key (show Val.lookupField defaultTokenFields "params"
            = some (.vdict defaultParamsFields) from rfl) hAbsParams))
        (Val.keysNodup_setField tfs "params" _ hNT)
    have hAbsIssue : vabsorbs (.vdict defaultIssueFields)
        (.vdict (Val.setField ifs "token" _)) = true :=
      vabsorbs_vdict_intro
        (fpre_setField defaultIssueFields ifs "token" _ hPI
          (absorbs_at_key (show Val.lookupField defaultIssueFields "token"
            = some (.vdict defaultTokenFields) from rfl) hAbsToken))
        (Val.keysNodup_setField ifs "token" _ hNI)
    have hAbsAuth : vabsorbs (.vdict defaultAuthFields)
        (.vdict (Val.removeField afs₀ old)) = true :=
      vabsorbs_vdict_intro
        (fpre_removeField defaultAuthFields afs₀ old hPA hOldDA)
        (Val.keysNodup_removeField afs₀ old hNA)
    have hAbsIp : vabsorbs (.vdict ([] : List (String × Val)))
        (.vdict (Val.setField ipfs new v)) = true :=
      vabsorbs_vdict_intro rfl (Val.keysNodup_setField ipfs new v hNIP)
    have e1 := getItem_setItem_ne (show "issue_params" ≠ "auth" by decide) h
    have e2 := getItem_setItem_ne (show "issue" ≠ "auth" by decide) hm₂
    have e3 := getItem_setItem_self hm₁
    have hgA := (e1.trans e2).trans e3
    refine ⟨⟨_, rfl⟩, ?_, ?_, ?_, ?_⟩
    · exact vabsorbs_vdict_intro
        (fpre_setField defaultFields _ "issue_params" _
          (fpre_setField defaultFields _ "issue" _
            (fpre_setField defaultFields mfs "auth" _ hP
              (absorbs_at_key (show Val.lookupField defaultFields "auth"
                = some (.vdict defaultAuthFields) from rfl) hAbsAuth))
            (absorbs_at_key (show Val.lookupField defaultFields "issue"
              = some (.vdict defaultIssueFields) from rfl) hAbsIssue))
          (absorbs_at_key (show Val.lookupField defaultFields "issue_params"
            = some (.vdict []) from rfl) hAbsIp))
        (Val.keysNodup_setField _ "issue_params" _
          (Val.keysNodup_setField _ "issue" _
            (Val.keysNodup_setField mfs "auth" _ hN)))
    · unfold AuthMemFalse
      rw [hgA]
      simp only [okBind, mem_vdict]
      rw [Val.hasField_removeField_self afs₀ old hNA]
    · intro k hk
      unfold AuthMemFalse at hk ⊢
      rw [hgA]
      simp only [okBind, mem_vdict]
      rw [hau] at hk
      simp only [okBind, mem_vdict] at hk
      injection hk with hk
      rw [Val.hasField_removeField_false afs₀ old k hk]
    · intro k h1 h2 h3
      have n1 : "issue_params" ≠ k := fun hh => h3 hh.symm
      have n2 : "issue" ≠ k := fun hh => h2 hh.symm
      have n3 : "auth" ≠ k := fun hh => h1 hh.symm
      exact ⟨((getItem_setItem_ne n1 h).trans
          (getItem_setItem_ne n2 hm₂)).trans (getItem_setItem_ne n3 hm₁),
        ((mem_setItem_ne n1 h).trans
          (mem_setItem_ne n2 hm₂)).trans (mem_setItem_ne n3 hm₁)⟩
  · rename_i hbf
    simp only [pure, Except.pure, Except.ok.injEq] at h
    subst h
    have hbfalse : b = false := by
      cases b
      · rfl
      · exact absurd rfl hbf
    subst hbfalse
    refine ⟨?_, habs, ?_, fun k hk => hk, fun k _ _ _ => ⟨rfl, rfl⟩⟩
    · obtain ⟨fs, heq, _⟩ := getItem_ok hau
      exact ⟨fs, heq⟩
    · unfold AuthMemFalse
      rw [hau]
      simp only [okBind]
      exact hb

/-- One root→server migration step keeps the tree an absorbing dict,
makes (or keeps) the migrated key absent from the root, leaves the
auth entry unchanged, and leaves every root entry except the migrated
key and `server` unchanged. -/
theorem migrateServerKeyStep_inv {m m' : Val} {key : String}
    (hKeyDF : Val.hasField defaultFields key = false)
    (hKeyND : nonDictAt defaultServerFields key = true)
    (hKeyNS : key ≠ "server") (hKeyNA : key ≠ "auth")
    (h : migrateServerKeyStep m key = .ok m')
    (habs : vabsorbs defaultConfig m = true)
    (hdict : ∃ fs, m = .vdict fs) :
    (∃ fs, m' = .vdict fs) ∧
    vabsorbs defaultConfig m' = true ∧
    RootMemFalse m' key ∧
    m'.getItem "auth" = m.getItem "auth" ∧
    (∀ k, k ≠ key → k ≠ "server" →
      m'.getItem k = m.getItem k ∧ m'.mem k = m.mem k) := by
  unfold migrateServerKeyStep at h
  obtain ⟨b, hb, h⟩ := bind_ok h
  split at h
  · rename_i hbt
    obtain ⟨pr, hpop, h⟩ := bind_ok h
    obtain ⟨v, m₁⟩ := pr
    obtain ⟨server, hs, h⟩ := bind_ok h
    obtain ⟨server', hs', h⟩ := bind_ok h
    obtain ⟨mfs, rfl, hlkK, rfl⟩ := pop_ok hpop
    have hlkS : Val.lookupField mfs "server" = some server := by
      have h2 := getItem_vdict_ok hs
      rw [Val.lookup_removeField_ne mfs key "server" hKeyNS] at h2
      exact h2
    obtain ⟨sfs, rfl, rfl⟩ := setItem_ok hs'
    have he := setItem_vdict_ok h
    subst he
    obtain ⟨hP, hN⟩ := vabsorbs_vdict_parts
      (show vabsorbs (.vdict defaultFields) (.vdict mfs) = true from habs)
    obtain ⟨hPS, hNS⟩ := vabsorbs_vdict_parts
      (absorbed_section (show Val.lookupField defaultFields "server"
        = some (.vdict defaultServerFields) from rfl) hP hlkS)
    have hAbsServer : vabsorbs (.vdict defaultServerFields)
        (.vdict (Val.setField sfs key v)) = true :=
      vabsorbs_vdict_intro
        (fpre_setField defaultServerFields sfs key v hPS
          (fun dv hdv => vabsorbs_of_nonDictAt hKeyND hdv v))
        (Val.keysNodup_setField sfs key v hNS)
    refine ⟨⟨_, rfl⟩, ?_, ?_, ?_, ?_⟩
    · exact vabsorbs_vdict_intro
        (fpre_setField defaultFields _ "server" _
          (fpre_removeField defaultFields mfs key hP hKeyDF)
          (absorbs_at_key (show Val.lookupField defaultFields "server"
            = some (.vdict defaultServerFields) from rfl) hAbsServer))
        (Val.keysNodup_setField _ "server" _
          (Val.keysNodup_removeField mfs key hN))
    · unfold RootMemFalse
      simp only [Val.mem]
      rw [Val.hasField_setField, if_neg (fun hh => hKeyNS hh.symm),
        Val.hasField_removeField_self mfs key hN]
    · exact (getItem_setItem_ne (show "server" ≠ "auth" by decide) h).trans
        (getItem_pop_ne hKeyNA hpop)
    · intro k h1 h2
      have n1 : "server" ≠ k := fun hh => h2 hh.symm
      have n2 : key ≠ k := fun hh => h1 hh.symm
      exact ⟨(getItem_setItem_ne n1 h).trans (getItem_pop_ne n2 hpop),
        (mem_setItem_ne n1 h).trans (mem_pop_ne n2 hpop)⟩
  · rename_i hbf
    simp only [pure, Except.pure, Except.ok.injEq] at h
    subst h
    have hbfalse : b = false := by
      cases b
      · rfl
      · exact absurd rfl hbf
    subst hbfalse
    exact ⟨hdict, habs, hb, rfl, fun k _ _ => ⟨rfl, rfl⟩⟩

/-- The `role_name` migration keeps the tree an absorbing dict, makes
(or keeps) `role_name` absent from the root, leaves the auth entry
unchanged, and leaves every root entry except `role_name` and `issue`
unchanged. -/
theorem migrateRoleName_inv {m m' : Val}
    (h : migrateRoleName m = .ok m')
    (habs : vabsorbs defaultConfig m = true)
    (hdict : ∃ fs, m = .vdict fs) :
    (∃ fs, m' = .vdict fs) ∧
    vabsorbs defaultConfig m' = true ∧
    RootMemFalse m' "role_name" ∧
    m'.getItem "auth" = m.getItem "auth" ∧
    (∀ k, k ≠ "role_name" → k ≠ "issue" →
      m'.getItem k = m.getItem k ∧ m'.mem k = m.mem k) := by
  unfold migrateRoleName at h
  obtain ⟨b, hb, h⟩ := bind_ok h
  split at h
  · rename_i hbt
    obtain ⟨pr, hpop, h⟩ := bind_ok h
    obtain ⟨v, m₁⟩ := pr
    obtain ⟨issue, hiss, h⟩ := bind_ok h
    obtain ⟨token, htok, h⟩ := bind_ok h
    obtain ⟨token', ht1, h⟩ := bind_ok h
    obtain ⟨issue', hi1, h⟩ := bind_ok h
    obtain ⟨mfs, rfl, hlkK, rfl⟩ := pop_ok hpop
    have hlkI : Val.lookupField mfs "issue" = some issue := by
      have h2 := getItem_vdict_ok hiss
      rw [Val.lookup_removeField_ne mfs "role_name" "issue"
        (by decide)] at h2
      exact h2
    obtain ⟨ifs, rfl, hlkT⟩ := getItem_ok htok
    obtain ⟨tfs, rfl, rfl⟩ := setItem_ok ht1
    have he1 := setItem_vdict_ok hi1
    subst he1
    have he2 := setItem_vdict_ok h
    subst he2
    obtain ⟨hP, hN⟩ := vabsorbs_vdict_parts
      (show vabsorbs (.vdict defaultFields) (.vdict mfs) = true from habs)
    obtain ⟨hPI, hNI⟩ := vabsorbs_vdict_parts
      (absorbed_section (show Val.lookupField defaultFields "issue"
        = some (.vdict defaultIssueFields) from rfl) hP hlkI)
    obtain ⟨hPT, hNT⟩ := vabsorbs_vdict_parts
      (absorbed_section (show Val.lookupField defaultIssueFields "token"
        = some (.vdict defaultTokenFields) from rfl) hPI hlkT)
    have hAbsToken : vabsorbs (.vdict defaultTokenFields)
        (.vdict (Val.setField tfs "role_name" v)) = true :=
      vabsorbs_vdict_intro
        (fpre_setField defaultTokenFields tfs "role_name" v hPT
          (fun dv hdv => vabsorbs_of_nonDictAt (by decide) hdv v))
        (Val.keysNodup_setField tfs "role_name" v hNT)
    have hAbsIssue : vabsorbs (.vdict defaultIssueFields)
        (.vdict (Val.setField ifs "token"
          (.vdict (Val.setField tfs "role_name" v)))) = true :=
      vabsorbs_vdict_intro
        (fpre_setField defaultIssueFields ifs "token" _ hPI
          (absorbs_at_key (show Val.lookupField defaultIssueFields "token"
            = some (.vdict defaultTokenFields) from rfl) hAbsToken))
        (Val.keysNodup_setField ifs "token" _ hNI)
    refine ⟨⟨_, rfl⟩, ?_, ?_, ?_, ?_⟩
    · exact vabsorbs_vdict_intro
        (fpre_setField defaultFields _ "issue" _
          (fpre_removeField defaultFields mfs "role_name" hP
            (by decide))
          (absorbs_at_key (show Val.lookupField defaultFields "issue"
            = some (.vdict defaultIssueFields) from rfl) hAbsIssue))
        (Val.keysNodup_setField _ "issue" _
          (Val.keysNodup_removeField mfs "role_name" hN))
    · unfold RootMemFalse
      simp only [Val.mem]
      rw [Val.hasField_setField, if_neg (by decide),
        Val.hasField_removeField_self mfs "role_name" hN]
    · exact (getItem_setItem_ne (show "issue" ≠ "auth" by decide) h).trans
        (getItem_pop_ne (by decide) hpop)
    · intro k h1 h2
      have n1 : "issue" ≠ k := fun hh => h2 hh.symm
      have n2 : "role_name" ≠ k := fun hh => h1 hh.symm
      exact ⟨(getItem_setItem_ne n1 h).trans (getItem_pop_ne n2 hpop),
        (mem_setItem_ne n1 h).trans (mem_pop_ne n2 hpop)⟩
  · rename_i hbf
    simp only [pure, Except.pure, Except.ok.injEq] at h
    subst h
    have hbfalse : b = false := by
      cases b
      · rfl
      · exact absurd rfl hbf
    subst hbfalse
    exact ⟨hdict, habs, hb, rfl, fun k _ _ => ⟨rfl, rfl⟩⟩

/-- The `token_backend` migration keeps the tree an absorbing dict,
makes (or keeps) `token_backend` absent from the auth section, keeps
previously-absent auth keys absent, and leaves every root entry except
`auth` and `cache` unchanged. -/
theorem migrateTokenBackend_inv {m m' : Val}
    (h : migrateTokenBackend m = .ok m')
    (habs : vabsorbs defaultConfig m = true) :
    (∃ fs, m' = .vdict fs) ∧
    vabsorbs defaultConfig m' = true ∧
    AuthMemFalse m' "token_backend" ∧
    (∀ k, AuthMemFalse m k → AuthMemFalse m' k) ∧
    (∀ k, k ≠ "auth" → k ≠ "cache" →
      m'.getItem k = m.getItem k ∧ m'.mem k = m.mem k) := by
  unfold migrateTokenBackend at h
  obtain ⟨auth, hau, h⟩ := bind_ok h
  obtain ⟨b, hb, h⟩ := bind_ok h
  split at h
  · rename_i hbt
    obtain ⟨pr, hpop, h⟩ := bind_ok h
    obtain ⟨v, auth'⟩ := pr
    obtain ⟨m₁, hm₁, h⟩ := bind_ok h
    obtain ⟨cache, hc, h⟩ := bind_ok h
    obtain ⟨cache', hc1, h⟩ := bind_ok h
    obtain ⟨afs₀, rfl, hlko, rfl⟩ := pop_ok hpop
    obtain ⟨mfs, rfl, rfl⟩ := setItem_ok hm₁
    have hlkA := getItem_vdict_ok hau
    have hlkC : Val.lookupField mfs "cache" = some cache := by
      have h2 := getItem_vdict_ok hc
      rw [Val.lookup_setField_ne mfs "auth" "cache" _ (by decide)] at h2
      exact h2
    obtain ⟨cfs, rfl, rfl⟩ := setItem_ok hc1
    have he := setItem_vdict_ok h
    subst he
    obtain ⟨hP, hN⟩ := vabsorbs_vdict_parts
      (show vabsorbs (.vdict defaultFields) (.vdict mfs) = true from habs)
    obtain ⟨hPA, hNA⟩ := vabsorbs_vdict_parts
      (absorbed_section (show Val.lookupField defaultFields "auth"
        = some (.vdict defaultAuthFields) from rfl) hP hlkA)
    obtain ⟨hPC, hNC⟩ := vabsorbs_vdict_parts
      (absorbed_section (show Val.lookupField defaultFields "cache"
        = some (.vdict defaultCacheFields) from rfl) hP hlkC)
    have hAbsAuth : vabsorbs (.vdict defaultAuthFields)
        (.vdict (Val.removeField afs₀ "token_backend")) = true :=
      vabsorbs_vdict_intro
        (fpre_removeField defaultAuthFields afs₀ "token_backend" hPA
          (by decide))
        (Val.keysNodup_removeField afs₀ "token_backend" hNA)
    have hAbsCache : vabsorbs (.vdict defaultCacheFields)
        (.vdict (Val.setField cfs "backend" v)) = true :=
      vabsorbs_vdict_intro
        (fpre_setField defaultCacheFields cfs "backend" v hPC
          (fun dv hdv => vabsorbs_of_nonDictAt (by decide) hdv v))
        (Val.keysNodup_setField cfs "backend" v hNC)
    have hgA := (getItem_setItem_ne (show "cache" ≠ "auth" by decide)
      h).trans (getItem_setItem_self hm₁)
    refine ⟨⟨_, rfl⟩, ?_, ?_, ?_, ?_⟩
    · exact vabsorbs_vdict_intro
        (fpre_setField defaultFields _ "cache" _
          (fpre_setField defaultFields mfs "auth" _ hP
            (absorbs_at_key (show Val.lookupField defaultFields "auth"
              = some (.vdict defaultAuthFields) from rfl) hAbsAuth))
          (absorbs_at_key (show Val.lookupField defaultFields "cache"
            = some (.vdict defaultCacheFields) from rfl) hAbsCache))
        (Val.keysNodup_setField _ "cache" _
          (Val.keysNodup_setField mfs "auth" _ hN))
    · unfold AuthMemFalse
      rw [hgA]
      simp only [okBind, mem_vdict]
      rw [Val.hasField_removeField_self afs₀ "token_backend" hNA]
    · intro k hk
      unfold AuthMemFalse at hk ⊢
      rw [hgA]
      simp only [okBind, mem_vdict]
      rw [hau] at hk
      simp only [okBind, mem_vdict] at hk
      injection hk with hk
      rw [Val.hasField_removeField_false afs₀ "token_backend" k hk]
    · intro k h1 h2
      have n1 : "cache" ≠ k := fun hh => h2 hh.symm
      have n3 : "auth" ≠ k := fun hh => h1 hh.symm
      exact ⟨(getItem_setItem_ne n1 h).trans (getItem_setItem_ne n3 hm₁),
        (mem_setItem_ne n1 h).trans (mem_setItem_ne n3 hm₁)⟩
  · rename_i hbf
    simp only [pure, Except.pure, Except.ok.injEq] at h
    subst h
    have hbfalse : b = false := by
      cases b
      · rfl
      · exact absurd rfl hbf
    subst hbfalse
    refine ⟨?_, habs, ?_, fun k hk => hk, fun k _ _ => ⟨rfl, rfl⟩⟩
    · obtain ⟨fs, heq, _⟩ := getItem_ok hau
      exact ⟨fs, heq⟩
    · unfold AuthMemFalse
      rw [hau]
      simp only [okBind]
      exact hb

/-- The `allow_minion_override` migration keeps the tree an absorbing
dict, makes (or keeps) `allow_minion_override` absent from the auth
section, keeps previously-absent auth keys absent, and leaves every
root entry except `auth` and `issue` unchanged. -/
theorem migrateAllowOverride_inv {m m' : Val}
    (h : migrateAllowOverride m = .ok m')
    (habs : vabsorbs defaultConfig m = true) :
    (∃ fs, m' = .vdict fs) ∧
    vabsorbs defaultConfig m' = true ∧
    AuthMemFalse m' "allow_minion_override" ∧
    (∀ k, AuthMemFalse m k → AuthMemFalse m' k) ∧
    (∀ k, k ≠ "auth" → k ≠ "issue" →
      m'.getItem k = m.getItem k ∧ m'.mem k = m.mem k) := by
  unfold migrateAllowOverride at h
  obtain ⟨auth, hau, h⟩ := bind_ok h
  obtain ⟨b, hb, h⟩ := bind_ok h
  split at h
  · rename_i hbt
    obtain ⟨pr, hpop, h⟩ := bind_ok h
    obtain ⟨v, auth'⟩ := pr
    obtain ⟨m₁, hm₁, h⟩ := bind_ok h
    obtain ⟨issue, hiss, h⟩ := bind_ok h
    obtain ⟨issue', hi1, h⟩ := bind_ok h
    obtain ⟨afs₀, rfl, hlko, rfl⟩ := pop_ok hpop
    obtain ⟨mfs, rfl, rfl⟩ := setItem_ok hm₁
    have hlkA := getItem_vdict_ok hau
    have hlkI : Val.lookupField mfs "issue" = some issue := by
      have h2 := getItem_vdict_ok hiss
      rw [Val.lookup_setField_ne mfs "auth" "issue" _ (by decide)] at h2
      exact h2
    obtain ⟨ifs, rfl, rfl⟩ := setItem_ok hi1
    have he := setItem_vdict_ok h
    subst he
    obtain ⟨hP, hN⟩ := vabsorbs_vdict_parts
      (show vabsorbs (.vdict defaultFields) (.vdict mfs) = true from habs)
    obtain ⟨hPA, hNA⟩ := vabsorbs_vdict_parts
      (absorbed_section (show Val.lookupField defaultFields "auth"
        = some (.vdict defaultAuthFields) from rfl) hP hlkA)
    obtain ⟨hPI, hNI⟩ := vabsorbs_vdict_parts
      (absorbed_section (show Val.lookupField defaultFields "issue"
        = some (.vdict defaultIssueFields) from rfl) hP hlkI)
    have hAbsAuth : vabsorbs (.vdict defaultAuthFields)
        (.vdict (Val.removeField afs₀ "allow_minion_override")) = true :=
      vabsorbs_vdict_intro
        (fpre_removeField defaultAuthFields afs₀
          "allow_minion_override" hPA (by decide))
        (Val.keysNodup_removeField afs₀ "allow_minion_override" hNA)
    have hAbsIssue : vabsorbs (.vdict defaultIssueFields)
        (.vdict (Val.setField ifs "allow_minion_override_params" v))
        = true :=
      vabsorbs_vdict_intro
        (fpre_setField defaultIssueFields ifs
          "allow_minion_override_params" v hPI
          (fun dv hdv => vabsorbs_of_nonDictAt (by decide) hdv v))
        (Val.keysNodup_setField ifs "allow_minion_override_params" v hNI)
    have hgA := (getItem_setItem_ne (show "issue" ≠ "auth" by decide)
      h).trans (getItem_setItem_self hm₁)
    refine ⟨⟨_, rfl⟩, ?_, ?_, ?_, ?_⟩
    · exact vabsorbs_vdict_intro
        (fpre_setField defaultFields _ "issue" _
          (fpre_setField defaultFields mfs "auth" _ hP
            (absorbs_at_key (show Val.lookupField defaultFields "auth"
              = some (.vdict defaultAuthFields) from rfl) hAbsAuth))
          (absorbs_at_key (show Val.lookupField defaultFields "issue"
            = some (.vdict defaultIssueFields) from rfl) hAbsIssue))
        (Val.keysNodup_setField _ "issue" _
          (Val.keysNodup_setField mfs "auth" _ hN))
    · unfold AuthMemFalse
      rw [hgA]
      simp only [okBind, mem_vdict]
      rw [Val.hasField_removeField_self afs₀ "allow_minion_override" hNA]
    · intro k hk
      unfold AuthMemFalse at hk ⊢
      rw [hgA]
      simp only [okBind, mem_vdict]
      rw [hau] at hk
      simp only [okBind, mem_vdict] at hk
      injection hk with hk
      rw [Val.hasField_removeField_false afs₀ "allow_minion_override" k hk]
    · intro k h1 h2
      have n1 : "issue" ≠ k := fun hh => h2 hh.symm
      have n3 : "auth" ≠ k := fun hh => h1 hh.symm
      exact ⟨(getItem_setItem_ne n1 h).trans (getItem_setItem_ne n3 hm₁),
        (mem_setItem_ne n1 h).trans (mem_setItem_ne n3 hm₁)⟩
  · rename_i hbf
    simp only [pure, Except.pure, Except.ok.injEq] at h
    subst h
    have hbfalse : b = false := by
      cases b
      · rfl
      · exact absurd rfl hbf
    subst hbfalse
    refine ⟨?_, habs, ?_, fun k hk => hk, fun k _ _ => ⟨rfl, rfl⟩⟩
    · obtain ⟨fs, heq, _⟩ := getItem_ok hau
      exact ⟨fs, heq⟩
    · unfold AuthMemFalse
      rw [hau]
      simp only [okBind]
      exact hb

/-- Merging cannot produce a list unless the update value is one. -/
theorem dmerge_not_list (sv uv : Val) (h : ∀ l, uv ≠ .vlist l) :
    ∀ l, dmerge sv uv ≠ .vlist l := by
  intro l
  cases sv <;> cases uv <;> intro hl <;>
    first
      | exact Val.noConfusion hl
      | exact h _ hl

/-- If neither the state nor the (key-unique) update list holds a list
under `j`, neither does the merge. -/
theorem dmergeFields_nonlist :
    ∀ (ufs s : List (String × Val)) (j : String),
      Val.keysNodup ufs = true →
      (∀ l, Val.lookupField s j ≠ some (.vlist l)) →
      (∀ l, Val.lookupField ufs j ≠ some (.vlist l)) →
      ∀ l, Val.lookupField (dmergeFields s ufs) j ≠ some (.vlist l) := by
  intro ufs
  induction ufs with
  | nil => intro s j _ hs _ l; exact hs l
  | cons q urest ih =>
      obtain ⟨k, uv⟩ := q
      intro s j hnd hs hu l
      have hnd2 : Val.hasField urest k = false ∧
          Val.keysNodup urest = true := by
        simpa [Val.keysNodup, Bool.and_eq_true, Bool.not_eq_true'] using hnd
      rw [dmergeFields_cons]
      refine ih (dmergeField s k uv) j hnd2.2 ?_ ?_ l
      · intro l2 hl2
        unfold dmergeField at hl2
        by_cases hkj : k = j
        · subst hkj
          have huv : ∀ l3, uv ≠ .vlist l3 := by
            intro l3 hl3
            exact hu l3 (by simp [Val.lookupField, hl3])
          cases hsk : Val.lookupField s k with
          | some sv =>
              rw [hsk, Val.lookup_setField_self] at hl2
              injection hl2 with hl2
              exact dmerge_not_list sv uv huv l2 hl2
          | none =>
              rw [hsk, Val.lookup_append, hsk] at hl2
              simp only [Val.lookupField, if_pos rfl] at hl2
              injection hl2 with hl2
              exact huv l2 hl2
        · cases hsk : Val.lookupField s k with
          | some sv =>
              rw [hsk, Val.lookup_setField_ne s k j _ hkj] at hl2
              exact hs l2 hl2
          | none =>
              rw [hsk, Val.lookup_append] at hl2
              cases hsj : Val.lookupField s j with
              | some x =>
                  rw [hsj] at hl2
                  injection hl2 with hl2
                  exact hs l2 (by rw [hsj, hl2])
              | none =>
                  rw [hsj] at hl2
                  simp only [Val.lookupField, if_neg hkj] at hl2
                  exact Option.noConfusion hl2
      · intro l2 hl2
        by_cases hkj : k = j
        · subst hkj
          rw [Val.lookup_eq_none_of_hasField_false urest k hnd2.1] at hl2
          exact Option.noConfusion hl2
        · exact hu l2 (by simp [Val.lookupField, hkj, hl2])

/-- The policies-regrouping step never leaves a list under
`policies`. -/
theorem policiesFix_noList {c c₁ : Val} (h : policiesFix c = .ok c₁) :
    NoListAt c₁ "policies" := by
  unfold policiesFix at h
  obtain ⟨p, hp, h⟩ := bind_ok h
  obtain ⟨fs, rfl, hpd⟩ := getD_ok hp
  split at h
  · obtain ⟨pr, hpop, h⟩ := bind_ok h
    obtain ⟨pv, c₂⟩ := pr
    obtain ⟨fs2, heq2, hlk2, rfl⟩ := pop_ok hpop
    injection heq2 with heq2
    subst heq2
    have hc₁ := setItem_vdict_ok h
    subst hc₁
    intro l hl
    have hlkc := getItem_vdict_ok hl
    rw [Val.lookup_setField_self] at hlkc
    injection hlkc with hlkc
    exact Val.noConfusion hlkc
  · rename_i hne
    simp only [pure, Except.pure, Except.ok.injEq] at h
    subst h
    intro l hl
    have hlkc := getItem_vdict_ok hl
    rw [hlkc] at hpd
    simp only [Option.getD] at hpd
    exact hne l hpd

/-- The merge of the defaults with the policies-fixed configuration is
an absorbing tree with no list under `policies`. -/
theorem merge_establish {c c₁ : Val}
    (hwf : Val.wf c = true) (hpf : policiesFix c = .ok c₁) :
    vabsorbs defaultConfig (dmerge defaultConfig c₁) = true ∧
    NoListAt (dmerge defaultConfig c₁) "policies" := by
  have hwf₁ : Val.wf c₁ = true := policiesFix_wf hwf hpf
  have hnl₁ : NoListAt c₁ "policies" := policiesFix_noList hpf
  cases c₁ with
  | vdict ufs =>
      constructor
      · exact vabsorbs_merge_self defaultConfig (.vdict ufs) rfl hwf₁
      · intro l hl
        have hlk := getItem_vdict_ok
          (show Val.getItem (.vdict (dmergeFields defaultFields ufs))
            "policies" = .ok (.vlist l) from hl)
        refine dmergeFields_nonlist ufs defaultFields "policies"
          (Val.fswf_keysNodup ufs hwf₁) ?_ ?_ l hlk
        · intro l2 hl2
          have hcheck : (Val.lookupField defaultFields "policies").map
              (fun v => match v with | .vlist _ => true | _ => false)
              = some false := rfl
          rw [hl2] at hcheck
          simp at hcheck
        · intro l2 hl2
          exact hnl₁ l2 (by simp [Val.getItem, hl2])
  | vnull => exact ⟨rfl, fun l hl => Except.noConfusion hl⟩
  | vbool b => exact ⟨rfl, fun l hl => Except.noConfusion hl⟩
  | vint n => exact ⟨rfl, fun l hl => Except.noConfusion hl⟩
  | vstr s => exact ⟨rfl, fun l hl => Except.noConfusion hl⟩
  | vlist xs => exact ⟨rfl, fun l hl => Except.noConfusion hl⟩

/-- The first pass of `parse_config(validate=False, opts=None)` on a
well-formed configuration produces a fully migrated tree. -/
theorem mergeAndMigrate_Migrated {c m : Val}
    (hwf : Val.wf c = true) (h : mergeAndMigrate c none = .ok m) :
    Migrated m := by
  unfold mergeAndMigrate at h
  obtain ⟨c₁, hc₁, h⟩ := bind_ok h
  obtain ⟨m₁, h₁, h⟩ := bind_ok h
  obtain ⟨m₂, h₂, h⟩ := bind_ok h
  obtain ⟨m₃, h₃, h⟩ := bind_ok h
  obtain ⟨m₄, h₄, h⟩ := bind_ok h
  obtain ⟨m₅, h₅, h⟩ := bind_ok h
  have hm : m₅ = m := by
    simpa [applyLocalOverrides, pure, Except.pure] using h
  subst hm
  obtain ⟨habs₀, hnl₀⟩ := merge_establish hwf hc₁
  unfold migrateTtlUses at h₁
  obtain ⟨ma, hma, h₁b⟩ := bind_ok h₁
  have Sa := migrateTtlUsesStep_inv
    (show Val.hasField defaultAuthFields "ttl" = false from rfl)
    (show nonDictAt defaultParamsFields "explicit_max_ttl" = true from rfl)
    hma habs₀
  have Sb := migrateTtlUsesStep_inv
    (show Val.hasField defaultAuthFields "uses" = false from rfl)
    (show nonDictAt defaultParamsFields "num_uses" = true from rfl)
    h₁b Sa.2.1
  have ttl₁ : AuthMemFalse m₁ "ttl" := Sb.2.2.2.1 "ttl" Sa.2.2.1
  have uses₁ : AuthMemFalse m₁ "uses" := Sb.2.2.1
  have nl₁ : NoListAt m₁ "policies" :=
    noListAt_congr
      (Sb.2.2.2.2 "policies" (by decide) (by decide) (by decide)).1
      (noListAt_congr
        (Sa.2.2.2.2 "policies" (by decide) (by decide) (by decide)).1 hnl₀)
  unfold migrateServerKeys at h₂
  obtain ⟨na, hna, h₂b⟩ := bind_ok h₂
  obtain ⟨nb, hnb, h₂c⟩ := bind_ok h₂b
  have T1 := migrateServerKeyStep_inv
    (show Val.hasField defaultFields "namespace" = false from rfl)
    (show nonDictAt defaultServerFields "namespace" = true from rfl)
    (by decide) (by decide) hna Sb.2.1 Sb.1
  have T2 := migrateServerKeyStep_inv
    (show Val.hasField defaultFields "url" = false from rfl)
    (show nonDictAt defaultServerFields "url" = true from rfl)
    (by decide) (by decide) hnb T1.2.1 T1.1
  have T3 := migrateServerKeyStep_inv
    (show Val.hasField defaultFields "verify" = false from rfl)
    (show nonDictAt defaultServerFields "verify" = true from rfl)
    (by decide) (by decide) h₂c T2.2.1 T2.1
  have ttl₂ : AuthMemFalse m₂ "ttl" :=
    authMemFalse_congr T3.2.2.2.1
      (authMemFalse_congr T2.2.2.2.1 (authMemFalse_congr T1.2.2.2.1 ttl₁))
  have uses₂ : AuthMemFalse m₂ "uses" :=
    authMemFalse_congr T3.2.2.2.1
      (authMemFalse_congr T2.2.2.2.1 (authMemFalse_congr T1.2.2.2.1 uses₁))
  have nsp₂ : RootMemFalse m₂ "namespace" :=
    rootMemFalse_congr
      (T3.2.2.2.2 "namespace" (by decide) (by decide)).2
      (rootMemFalse_congr
        (T2.2.2.2.2 "namespace" (by decide) (by decide)).2 T1.2.2.1)
  have url₂ : RootMemFalse m₂ "url" :=
    rootMemFalse_congr
      (T3.2.2.2.2 "url" (by decide) (by decide)).2 T2.2.2.1
  have vfy₂ : RootMemFalse m₂ "verify" := T3.2.2.1
  have nl₂ : NoListAt m₂ "policies" :=
    noListAt_congr (T3.2.2.2.2 "policies" (by decide) (by decide)).1
      (noListAt_congr (T2.2.2.2.2 "policies" (by decide) (by decide)).1
        (noListAt_congr
          (T1.2.2.2.2 "policies" (by decide) (by decide)).1 nl₁))
  have R := migrateRoleName_inv h₃ T3.2.1 T3.1
  have ttl₃ : AuthMemFalse m₃ "ttl" := authMemFalse_congr R.2.2.2.1 ttl₂
  have uses₃ : AuthMemFalse m₃ "uses" := authMemFalse_congr R.2.2.2.1 uses₂
  have nsp₃ : RootMemFalse m₃ "namespace" :=
    rootMemFalse_congr (R.2.2.2.2 "namespace" (by decide) (by decide)).2 nsp₂
  have url₃ : RootMemFalse m₃ "url" :=
    rootMemFalse_congr (R.2.2.2.2 "url" (by decide) (by decide)).2 url₂
  have vfy₃ : RootMemFalse m₃ "verify" :=
    rootMemFalse_congr (R.2.2.2.2 "verify" (by decide) (by decide)).2 vfy₂
  have nl₃ : NoListAt m₃ "policies" :=
    noListAt_congr (R.2.2.2.2 "policies" (by decide) (by decide)).1 nl₂
  have B := migrateTokenBackend_inv h₄ R.2.1
  have ttl₄ : AuthMemFalse m₄ "ttl" := B.2.2.2.1 "ttl" ttl₃
  have uses₄ : AuthMemFalse m₄ "uses" := B.2.2.2.1 "uses" uses₃
  have nsp₄ : RootMemFalse m₄ "namespace" :=
    rootMemFalse_congr (B.2.2.2.2 "namespace" (by decide) (by decide)).2 nsp₃
  have url₄ : RootMemFalse m₄ "url" :=
    rootMemFalse_congr (B.2.2.2.2 "url" (by decide) (by decide)).2 url₃
  have vfy₄ : RootMemFalse m₄ "verify" :=
    rootMemFalse_congr (B.2.2.2.2 "verify" (by decide) (by decide)).2 vfy₃
  have rn₄ : RootMemFalse m₄ "role_name" :=
    rootMemFalse_congr
      (B.2.2.2.2 "role_name" (by decide) (by decide)).2 R.2.2.1
  have nl₄ : NoListAt m₄ "policies" :=
    noListAt_congr (B.2.2.2.2 "policies" (by decide) (by decide)).1 nl₃
  have A := migrateAllowOverride_inv h₅ B.2.1
  exact {
    isDict := A.1
    absorbed := A.2.1
    ttlG := A.2.2.2.1 "ttl" ttl₄
    usesG := A.2.2.2.1 "uses" uses₄
    tokenBackendG := A.2.2.2.1 "token_backend" B.2.2.1
    allowOverrideG := A.2.2.1
    namespaceG := rootMemFalse_congr
      (A.2.2.2.2 "namespace" (by decide) (by decide)).2 nsp₄
    urlG := rootMemFalse_congr
      (A.2.2.2.2 "url" (by decide) (by decide)).2 url₄
    verifyG := rootMemFalse_congr
      (A.2.2.2.2 "verify" (by decide) (by decide)).2 vfy₄
    roleNameG := rootMemFalse_congr
      (A.2.2.2.2 "role_name" (by decide) (by decide)).2 rn₄
    policiesG := noListAt_congr
      (A.2.2.2.2 "policies" (by decide) (by decide)).1 nl₄ }

/-- On a fully migrated tree, `parse_config(validate=False, opts=None)`
is the identity: the policies fix and every legacy-key migration take
their no-op branch, and the merge with the defaults is absorbed. -/
theorem parse_config_noop {m : Val} (hM : Migrated m) :
    parse_config m false none = .ok m := by
  obtain ⟨fs, rfl⟩ := hM.isDict
  have hpf : policiesFix (.vdict fs) = .ok (.vdict fs) := by
    unfold policiesFix
    rw [show (Val.vdict fs).getD "policies" (.vdict [])
      = .ok ((Val.lookupField fs "policies").getD (.vdict [])) from rfl]
    simp only [okBind]
    cases hlk : Val.lookupField fs "policies" with
    | none => rfl
    | some pv =>
        cases pv with
        | vlist l =>
            exact (hM.policiesG l (by simp [Val.getItem, hlk])).elim
        | vnull => rfl
        | vbool b => rfl
        | vint n => rfl
        | vstr s => rfl
        | vdict pfs => rfl
  have hmerge : dmerge defaultConfig (.vdict fs) = .vdict fs :=
    vabsorbs_dmerge _ _ hM.absorbed
  obtain ⟨hP, hN⟩ := vabsorbs_vdict_parts
    (show vabsorbs (.vdict defaultFields) (.vdict fs) = true
      from hM.absorbed)
  obtain ⟨av, hlkA, _⟩ := fpre_lookup defaultFields fs "auth"
    (.vdict defaultAuthFields) hP rfl
  have hgA : (Val.vdict fs).getItem "auth" = .ok av := by
    simp [Val.getItem, hlkA]
  have hAuthStep : ∀ k, AuthMemFalse (.vdict fs) k →
      av.mem k = .ok false := by
    intro k hk
    unfold AuthMemFalse at hk
    rw [hgA] at hk
    simpa [okBind] using hk
  have httlStep : migrateTtlUsesStep (.vdict fs) "ttl" "explicit_max_ttl"
      = .ok (.vdict fs) := by
    unfold migrateTtlUsesStep
    rw [hgA]
    simp only [okBind]
    rw [hAuthStep "ttl" hM.ttlG]
    simp only [okBind]
    rfl
  have husesStep : migrateTtlUsesStep (.vdict fs) "uses" "num_uses"
      = .ok (.vdict fs) := by
    unfold migrateTtlUsesStep
    rw [hgA]
    simp only [okBind]
    rw [hAuthStep "uses" hM.usesG]
    simp only [okBind]
    rfl
  have hnspStep : migrateServerKeyStep (.vdict fs) "namespace"
      = .ok (.vdict fs) := by
    unfold migrateServerKeyStep
    rw [hM.namespaceG]
    simp only [okBind]
    rfl
  have hurlStep : migrateServerKeyStep (.vdict fs) "url"
      = .ok (.vdict fs) := by
    unfold migrateServerKeyStep
    rw [hM.urlG]
    simp only [okBind]
    rfl
  have hvfyStep : migrateServerKeyStep (.vdict fs) "verify"
      = .ok (.vdict fs) := by
    unfold migrateServerKeyStep
    rw [hM.verifyG]
    simp only [okBind]
    rfl
  have hrnStep : migrateRoleName (.vdict fs) = .ok (.vdict fs) := by
    unfold migrateRoleName
    rw [hM.roleNameG]
    simp only [okBind]
    rfl
  have htbStep : migrateTokenBackend (.vdict fs) = .ok (.vdict fs) := by
    unfold migrateTokenBackend
    rw [hgA]
    simp only [okBind]
    rw [hAuthStep "token_backend" hM.tokenBackendG]
    simp only [okBind]
    rfl
  have hamoStep : migrateAllowOverride (.vdict fs) = .ok (.vdict fs) := by
    unfold migrateAllowOverride
    rw [hgA]
    simp only [okBind]
    rw [hAuthStep "allow_minion_override" hM.allowOverrideG]
    simp only [okBind]
    rfl
  have hmm : mergeAndMigrate (.vdict fs) none = .ok (.vdict fs) := by
    unfold mergeAndMigrate
    rw [hpf]
    simp only [okBind]
    rw [hmerge]
    unfold migrateTtlUses
    rw [httlStep]
    simp only [okBind]
    rw [husesStep]
    simp only [okBind]
    unfold migrateServerKeys
    rw [hnspStep]
    simp only [okBind]
    rw [hurlStep]
    simp only [okBind]
    rw [hvfyStep]
    simp only [okBind]
    rw [hrnStep]
    simp only [okBind]
    rw [htbStep]
    simp only [okBind]
    rw [hamoStep]
    simp only [okBind]
    rfl
  have hinner : (do
      let m' ← mergeAndMigrate (.vdict fs) none
      if false then validateConfig m' else pure m' : Except Err Val)
      = .ok (.vdict fs) := by
    rw [hmm]
    simp only [okBind]
    rfl
  unfold parse_config
  rw [hinner]

/-- C8.  `parse_config` with `validate=False` is idempotent on every
representable (well-formed) configuration: resolving an
already-resolved configuration again yields the same tree, i.e.
`parse_config(parse_config(c, validate=False), validate=False)
= parse_config(c, validate=False)`; in particular, the merge with the
defaults is absorbed and every legacy-key migration
(`ttl`/`uses`, `namespace`/`url`/`verify`, `role_name`,
`token_backend`, `allow_minion_override`, and the policies-list fix)
takes its no-op branch on an already-migrated tree. -/
theorem parse_config_idempotent (c m : Val) (hwf : Val.wf c = true)
    (h : parse_config c false none = .ok m) :
    parse_config m false none = .ok m :=
  parse_config_noop (mergeAndMigrate_Migrated hwf (parse_config_ok_merge h))

/-- Witness for C8 at a configuration that triggers every migration. -/
theorem parse_config_idempotent_witness :
    Val.wf c8c = true ∧
    (do let m ← parse_config c8c false none
        parse_config m false none)
      = parse_config c8c false none := by
  refine ⟨rfl, ?_⟩
  have hIsOk : (parse_config c8c false none).isOk = true := rfl
  rcases hok : parse_config c8c false none with e | m
  · rw [hok] at hIsOk
    simp [Except.isOk, Except.toBool] at hIsOk
  · show parse_config m false none = .ok m
    exact parse_config_idempotent c8c m rfl hok

end VaultSpec
